import Mathlib

/-! VecMem buddy page allocator and arena: a shallow embedding

The definitions below transcribe
`core/src/memory/binary_page_memory_resource_impl.cpp` function by function.

* `std::size_t` is 64 bits wide; size_t arithmetic is carried out on `Nat`
  with an explicit reduction modulo `2 ^ 64` (`add64`, `sub64`, `mul64`,
  `shl64`).
* `m_pages` (a heap array of `m_num_pages` page states) is a finite map
  `Nat → page_state` together with its length `m_num_pages`.  Every access
  goes through a `page_ref`, whose constructor asserts the index bound.
* `m_memory` is the address of the first byte of the upstream allocation.
* A failed `assert`, the dereference of an empty `std::optional`, a thrown
  `std::bad_alloc` and an exhausted loop budget are the four `fault`s.
* The upstream `memory_resource` is an oracle: asked for a number of bytes it
  answers with the address of a block or refuses (throws `std::bad_alloc`).
* The host heap (`operator new` behind `std::make_unique` and behind the
  growth of `m_superpages`) is an oracle as well: it grants a request or
  refuses it (throws `std::bad_alloc`).
-/

namespace vecmem

/-! ## Machine arithmetic -/

/-- Addition of two `std::size_t`. -/
def add64 (a b : Nat) : Nat := (a + b) % 2 ^ 64

/-- Subtraction of two `std::size_t` (wraps around below zero). -/
def sub64 (a b : Nat) : Nat := (a % 2 ^ 64 + 2 ^ 64 - b % 2 ^ 64) % 2 ^ 64

/-- Multiplication of two `std::size_t`. -/
def mul64 (a b : Nat) : Nat := (a * b) % 2 ^ 64

/-- Left shift `a << k` of a `std::size_t`; bits shifted past bit 63 are lost. -/
def shl64 (a k : Nat) : Nat := (a * 2 ^ k) % 2 ^ 64

/-! ## Outcomes -/

/-- Ways in which a call can fail to return normally. -/
inductive fault where
  /-- `std::bad_alloc` was thrown. -/
  | bad_alloc
  /-- An `assert(...)` did not hold. -/
  | assert_failed
  /-- An empty `std::optional` was dereferenced. -/
  | empty_optional
  /-- A loop did not finish within its iteration budget. -/
  | out_of_fuel
  deriving DecidableEq, Repr

/-! ## Anonymous-namespace helpers (lines 25-55) -/

/-- Loop of `round_up`: `for (i = 0; i < 32; i++) if ((1UL << i) >= size) return i;`
followed by `return 0`.  The first argument counts the iterations left. -/
def round_up_loop (size : Nat) : Nat → Nat → Nat
  | 0, _ => 0
  | n + 1, i => if shl64 1 i ≥ size then i else round_up_loop size n (i + 1)

/-- Source `round_up` (lines 30-38). -/
def round_up (size : Nat) : Nat := round_up_loop size 32 0

/-- Software loop of `clzl` (lines 46-52):
`for (b = 0; !((i << b) & (1UL << 63)); ++b);`.  The first argument counts the
iterations left; when none is left the result is 64, the value `_lzcnt_u64`
gives for an argument without a set bit. -/
def clzl_loop (i : Nat) : Nat → Nat → Nat
  | 0, b => b
  | n + 1, b => if (shl64 i b) &&& (shl64 1 63) ≠ 0 then b else clzl_loop i n (b + 1)

/-- Source `clzl` (lines 40-54): number of leading zero bits of a 64-bit word. -/
def clzl (i : Nat) : Nat := clzl_loop i 64 0

/-! ## Data model -/

/-- States of a page (`page_state`). -/
inductive page_state where
  | NON_EXTANT
  | VACANT
  | OCCUPIED
  | SPLIT
  deriving DecidableEq, Repr

/-- Modelled from the spec: the constant `min_page_size` of the class
declaration (`MIN_PAGE_LOG2 = 8`, 256 byte leaves). -/
def min_page_size : Nat := 8

/-- Modelled from the spec: the constant `new_page_size` of the class
declaration (`NEW_SUPERPAGE_LOG2 = 20`, 1 MiB superpages). -/
def new_page_size : Nat := 20

/-- A superpage: `m_size` (log2 of the byte size), `m_num_pages`, the page state
table `m_pages` and the address `m_memory` of its byte array. -/
structure superpage where
  m_size : Nat
  m_num_pages : Nat
  m_pages : Nat → page_state
  m_memory : Nat

/-- Source `superpage::total_pages` (lines 286-288). -/
def superpage.total_pages (sp : superpage) : Nat := sp.m_num_pages

/-- Write `v` at index `i` of a page table: `m_pages[i] = v`. -/
def set_page (pages : Nat → page_state) (i : Nat) (v : page_state) : Nat → page_state :=
  fun j => if j = i then v else pages j

/-- The superpage with `f` as its page table. -/
def superpage.with_pages (sp : superpage) (f : Nat → page_state) : superpage :=
  { sp with m_pages := f }

/-- The upstream memory resource as seen by one call: `up bytes` is the address
of the block it hands out for a request of `bytes` bytes, or `none` when it
throws `std::bad_alloc`. -/
abbrev memory_resource : Type := Nat → Option Nat

/-- The host heap as seen by one call.  `page_states n` tells whether
`std::make_unique<page_state[]>(n)` (line 271) is granted, `superpages n`
whether `emplace_back` on `m_superpages` holding `n` superpages (line 264) gets
the storage it needs; `false` stands for `std::bad_alloc`. -/
structure host_heap where
  page_states : Nat → Bool
  superpages : Nat → Bool

/-- A `page_ref`: the position of its superpage in `m_superpages` and the index
`m_page` of the page in that superpage. -/
structure page_ref where
  m_superpage : Nat
  m_page : Nat
  deriving DecidableEq, Repr

/-- The buddy engine: the list of superpages in insertion order. -/
structure binary_page_memory_resource_impl where
  m_superpages : List superpage

/-- Source constructor of the engine (lines 59-61): no superpage yet. -/
def binary_page_memory_resource_impl.ctor : binary_page_memory_resource_impl :=
  { m_superpages := [] }

/-- Equality of outcomes is decidable. -/
instance decEqExcept {ε α : Type} [DecidableEq ε] [DecidableEq α] : DecidableEq (Except ε α)
  | .ok a, .ok b =>
    if h : a = b then isTrue (congrArg _ h) else isFalse (fun h2 => h (Except.ok.inj h2))
  | .error a, .error b =>
    if h : a = b then isTrue (congrArg _ h) else isFalse (fun h2 => h (Except.error.inj h2))
  | .ok _, .error _ => isFalse (fun h => Except.noConfusion h)
  | .error _, .ok _ => isFalse (fun h => Except.noConfusion h)

/-! ## `page_ref` member functions (lines 290-384)

They take the superpage the reference points into and the index `m_page`. -/

/-- Source `page_ref::page_ref` (lines 338-342): `assert(m_page < total_pages())`. -/
def page_ref.ctor (sp : superpage) (p : Nat) : Except fault Nat :=
  if p < sp.total_pages then .ok p else .error .assert_failed

/-- Source `page_ref::get_size` (lines 290-296):
`m_size - ((8 * sizeof(size_t) - 1) - clzl(m_page + 1))`. -/
def page_ref.get_size (sp : superpage) (m_page : Nat) : Nat :=
  sub64 sp.m_size (sub64 (8 * 8 - 1) (clzl (add64 m_page 1)))

/-- Source `page_ref::get_state` (lines 344-347). -/
def page_ref.get_state (sp : superpage) (m_page : Nat) : page_state :=
  sp.m_pages m_page

/-- Source `page_ref::get_addr` (lines 349-356):
`&m_memory[(m_page - ((1UL << d) - 1)) * (1UL << get_size())]` with
`d = m_size - get_size()`. -/
def page_ref.get_addr (sp : superpage) (m_page : Nat) : Nat :=
  let d := sub64 sp.m_size (page_ref.get_size sp m_page)
  sp.m_memory +
    mul64 (sub64 m_page (sub64 (shl64 1 d) 1)) (shl64 1 (page_ref.get_size sp m_page))

/-- Common shape of the six `change_state_a_to_b` functions:
`assert(m_pages[m_page] == a); m_pages[m_page] = b;`. -/
def page_ref.change_state (a b : page_state) (sp : superpage) (m_page : Nat) :
    Except fault superpage :=
  if sp.m_pages m_page = a then .ok (sp.with_pages (set_page sp.m_pages m_page b))
  else .error .assert_failed

/-- Source `change_state_vacant_to_occupied` (lines 298-302). -/
def page_ref.change_state_vacant_to_occupied (sp : superpage) (m_page : Nat) :
    Except fault superpage :=
  page_ref.change_state .VACANT .OCCUPIED sp m_page

/-- Source `change_state_occupied_to_vacant` (lines 304-308). -/
def page_ref.change_state_occupied_to_vacant (sp : superpage) (m_page : Nat) :
    Except fault superpage :=
  page_ref.change_state .OCCUPIED .VACANT sp m_page

/-- Source `change_state_non_extant_to_vacant` (lines 310-314). -/
def page_ref.change_state_non_extant_to_vacant (sp : superpage) (m_page : Nat) :
    Except fault superpage :=
  page_ref.change_state .NON_EXTANT .VACANT sp m_page

/-- Source `change_state_vacant_to_non_extant` (lines 316-320). -/
def page_ref.change_state_vacant_to_non_extant (sp : superpage) (m_page : Nat) :
    Except fault superpage :=
  page_ref.change_state .VACANT .NON_EXTANT sp m_page

/-- Source `change_state_vacant_to_split` (lines 322-326). -/
def page_ref.change_state_vacant_to_split (sp : superpage) (m_page : Nat) :
    Except fault superpage :=
  page_ref.change_state .VACANT .SPLIT sp m_page

/-- Source `change_state_split_to_vacant` (lines 328-332). -/
def page_ref.change_state_split_to_vacant (sp : superpage) (m_page : Nat) :
    Except fault superpage :=
  page_ref.change_state .SPLIT .VACANT sp m_page

/-- Source `page_ref::left_child` (lines 358-361): `{m_superpage, 2 * m_page + 1}`. -/
def page_ref.left_child (sp : superpage) (m_page : Nat) : Except fault Nat :=
  page_ref.ctor sp (add64 (mul64 2 m_page) 1)

/-- Source `page_ref::right_child` (lines 362-365): `{m_superpage, 2 * m_page + 2}`. -/
def page_ref.right_child (sp : superpage) (m_page : Nat) : Except fault Nat :=
  page_ref.ctor sp (add64 (mul64 2 m_page) 2)

/-- Source `page_ref::split` (lines 380-384). -/
def page_ref.split (sp : superpage) (m_page : Nat) : Except fault superpage := do
  let sp1 ← page_ref.change_state_vacant_to_split sp m_page
  let l ← page_ref.left_child sp1 m_page
  let sp2 ← page_ref.change_state_non_extant_to_vacant sp1 l
  let r ← page_ref.right_child sp2 m_page
  page_ref.change_state_non_extant_to_vacant sp2 r

/-- Source `page_ref::unsplit` (lines 367-379).  The first argument bounds the
recursion depth. -/
def page_ref.unsplit : Nat → superpage → Nat → Except fault superpage
  | 0, _, _ => .error .out_of_fuel
  | n + 1, sp, m_page => do
    let l ← page_ref.left_child sp m_page
    let sp1 ← if page_ref.get_state sp l = .SPLIT then page_ref.unsplit n sp l else pure sp
    let r ← page_ref.right_child sp1 m_page
    let sp2 ← if page_ref.get_state sp1 r = .SPLIT then page_ref.unsplit n sp1 r else pure sp1
    let sp3 ← page_ref.change_state_split_to_vacant sp2 m_page
    let l3 ← page_ref.left_child sp3 m_page
    let sp4 ← page_ref.change_state_vacant_to_non_extant sp3 l3
    let r4 ← page_ref.right_child sp4 m_page
    page_ref.change_state_vacant_to_non_extant sp4 r4

/-! ## Superpage construction and upstream acquisition (lines 260-284) -/

/-- Source `superpage::superpage` (lines 267-284).  The members are
initialised in the order `m_size`, `m_num_pages`, `m_pages`, `m_memory`: the
host heap is asked for the `m_num_pages` page states first, then the upstream
for `1UL << m_size` bytes; either may throw `std::bad_alloc`.  Page 0 starts
`VACANT`, every other page `NON_EXTANT`. -/
def superpage.ctor (size : Nat) (resource : memory_resource) (host : host_heap) :
    Except fault superpage :=
  if host.page_states (sub64 (shl64 2 (sub64 size min_page_size)) 1) then
    match resource (shl64 1 size) with
    | none => .error .bad_alloc
    | some mem =>
      .ok { m_size := size,
            m_num_pages := sub64 (shl64 2 (sub64 size min_page_size)) 1,
            m_pages := fun i => if i = 0 then .VACANT else .NON_EXTANT,
            m_memory := mem }
  else .error .bad_alloc

/-- Source `allocate_upstream` (lines 260-265):
`m_superpages.emplace_back(std::max(size, new_page_size), m_upstream)`.
`emplace_back` may need storage from the host heap before it constructs the
superpage.  When that request or the constructor throws, the list is left as
it was. -/
def allocate_upstream (up : memory_resource) (host : host_heap)
    (m : binary_page_memory_resource_impl) (size : Nat) :
    Except fault binary_page_memory_resource_impl :=
  if host.superpages m.m_superpages.length then
    match superpage.ctor (max size new_page_size) up host with
    | .error e => .error e
    | .ok sp => .ok { m_superpages := m.m_superpages ++ [sp] }
  else .error .bad_alloc

/-- The `goal` of a request (lines 69 and 182):
`std::max(min_page_size, round_up(size))`. -/
def goal_of (size : Nat) : Nat := max min_page_size (round_up size)

/-! ## `find_free_page` (lines 196-258) -/

/-- The climbing loop `for (; page_ref(sp, i).get_size() > size; i = 2 * i + 1);`
(lines 226-228 and 183-185).  The first argument counts the iterations left. -/
def first_page_of_size (sp : superpage) (size : Nat) : Nat → Nat → Except fault Nat
  | 0, _ => .error .out_of_fuel
  | n + 1, i =>
    match page_ref.ctor sp i with
    | .error e => .error e
    | .ok p =>
      if page_ref.get_size sp p > size then
        first_page_of_size sp size n (add64 (mul64 2 i) 1)
      else .ok i

/-- The scan `for (p = i; p < j; ++p)` of lines 235-244; the first argument is
the number `j - p` of indices still to visit. -/
def scan_pages (sp : superpage) : Nat → Nat → Except fault (Option Nat)
  | 0, _ => .ok none
  | n + 1, p =>
    match page_ref.ctor sp p with
    | .error e => .error e
    | .ok pr =>
      if page_ref.get_state sp pr = .VACANT then .ok (some pr)
      else scan_pages sp n (p + 1)

/-- One round of the `do`-`while`: the loop over `m_superpages` of lines
213-246 for a fixed `size`.  `k` is the position of the head of the list in
`m_superpages`, the Boolean is `candidate_sp_found`. -/
def scan_superpages (size : Nat) :
    List superpage → Nat → Bool → Except fault (Option page_ref × Bool)
  | [], _, found => .ok (none, found)
  | sp :: rest, k, found =>
    if size ≤ sp.m_size then
      match first_page_of_size sp size 64 0 with
      | .error e => .error e
      | .ok i =>
        let j := add64 (mul64 2 i) 1
        match scan_pages sp (j - i) i with
        | .error e => .error e
        | .ok (some p) => .ok (some ⟨k, p⟩, true)
        | .ok none => scan_superpages size rest (k + 1) true
    else scan_superpages size rest (k + 1) found

/-- The `do { ... size++; } while (candidate_sp_found);` loop of lines 205-252.
The first argument counts the rounds left. -/
def find_free_page_loop (sps : List superpage) : Nat → Nat → Except fault (Option page_ref)
  | 0, _ => .error .out_of_fuel
  | n + 1, size =>
    match scan_superpages size sps 0 false with
    | .error e => .error e
    | .ok (some pr, _) => .ok (some pr)
    | .ok (none, found) =>
      if found then find_free_page_loop sps n (add64 size 1) else .ok none

/-- Source `find_free_page` (lines 196-258).  Sizes are log2 values below 64,
so 66 rounds are enough for every list of superpages. -/
def find_free_page (m : binary_page_memory_resource_impl) (size : Nat) :
    Except fault (Option page_ref) :=
  find_free_page_loop m.m_superpages 66 size

/-! ## `do_allocate` (lines 63-141) -/

/-- The loop `while (cand->get_size() > goal) { cand->split(); cand = cand->left_child(); }`
of lines 117-122.  The first argument counts the iterations left. -/
def split_loop (goal : Nat) : Nat → superpage → Nat → Except fault (superpage × Nat)
  | 0, _, _ => .error .out_of_fuel
  | n + 1, sp, cand =>
    if page_ref.get_size sp cand > goal then
      match page_ref.split sp cand with
      | .error e => .error e
      | .ok sp1 =>
        match page_ref.left_child sp1 cand with
        | .error e => .error e
        | .ok c => split_loop goal n sp1 c
    else .ok (sp, cand)

/-- Lines 105-128 of `do_allocate`, on the superpage of the candidate: unsplit
a `SPLIT` candidate, split down to `goal`, mark the page `OCCUPIED`.  Yields the
superpage and the index of the page marked. -/
def occupy_candidate (goal : Nat) (sp : superpage) (cand : Nat) :
    Except fault (superpage × Nat) := do
  let sp1 ← if page_ref.get_state sp cand = .SPLIT then page_ref.unsplit 64 sp cand else pure sp
  let (sp2, c) ← split_loop goal 64 sp1 cand
  let sp3 ← page_ref.change_state_vacant_to_occupied sp2 c
  pure (sp3, c)

/-- Lines 105-128 of `do_allocate` for the candidate `cand`, writing the
superpage back into the engine.  On a fault the engine is reported as it was
when the candidate was chosen. -/
def occupy (m : binary_page_memory_resource_impl) (goal : Nat) (cand : page_ref) :
    Except fault page_ref × binary_page_memory_resource_impl :=
  match m.m_superpages[cand.m_superpage]? with
  | none => (.error .empty_optional, m)
  | some sp =>
    match occupy_candidate goal sp cand.m_page with
    | .error e => (.error e, m)
    | .ok (sp1, c) =>
      (.ok ⟨cand.m_superpage, c⟩, { m_superpages := m.m_superpages.set cand.m_superpage sp1 })

/-- Lines 63-128 of `do_allocate`: everything up to and including
`cand->change_state_vacant_to_occupied()`.  The result is the final `cand`
together with the engine after the call. -/
def do_allocate_cand (up : memory_resource) (host : host_heap)
    (m : binary_page_memory_resource_impl) (size : Nat) :
    Except fault page_ref × binary_page_memory_resource_impl :=
  let goal := goal_of size
  match find_free_page m goal with
  | .error e => (.error e, m)
  | .ok (some cand) => occupy m goal cand
  | .ok none =>
    match allocate_upstream up host m goal with
    | .error e => (.error e, m)
    | .ok m1 =>
      match find_free_page m1 goal with
      | .error e => (.error e, m1)
      | .ok none => (.error .bad_alloc, m1)
      | .ok (some cand) => occupy m1 goal cand

/-- Address of the page a `page_ref` designates (`cand->get_addr()`). -/
def addr_of (m : binary_page_memory_resource_impl) (c : page_ref) : Except fault Nat :=
  match m.m_superpages[c.m_superpage]? with
  | none => .error .empty_optional
  | some sp => .ok (page_ref.get_addr sp c.m_page)

/-- Source `do_allocate` (lines 63-141): the pointer returned, or the fault,
together with the engine after the call. -/
def do_allocate (up : memory_resource) (host : host_heap)
    (m : binary_page_memory_resource_impl) (size : Nat) :
    Except fault Nat × binary_page_memory_resource_impl :=
  match do_allocate_cand up host m size with
  | (.error e, m1) => (.error e, m1)
  | (.ok c, m1) => (addr_of m1 c, m1)

/-! ## `do_deallocate` (lines 143-194) -/

/-- The loop over `m_superpages` of lines 157-170: the first superpage whose
byte range contains `p`, with its position in the list. -/
def find_superpage (p : Nat) : List superpage → Nat → Option (Nat × superpage)
  | [], _ => none
  | sp :: rest, k =>
    if sp.m_memory ≤ p ∧ sp.m_memory + shl64 1 sp.m_size > p then some (k, sp)
    else find_superpage p rest (k + 1)

/-- Source `do_deallocate` (lines 143-194). -/
def do_deallocate (m : binary_page_memory_resource_impl) (p s : Nat) :
    Except fault Unit × binary_page_memory_resource_impl :=
  match find_superpage p m.m_superpages 0 with
  | none => (.error .empty_optional, m)
  | some (k, sp) =>
    let goal := goal_of s
    match first_page_of_size sp goal 64 0 with
    | .error e => (.error e, m)
    | .ok p_min =>
      let diff := p - sp.m_memory
      match page_ref.ctor sp (add64 p_min (diff / shl64 1 goal)) with
      | .error e => (.error e, m)
      | .ok pr =>
        match page_ref.change_state_occupied_to_vacant sp pr with
        | .error e => (.error e, m)
        | .ok sp1 => (.ok (), { m_superpages := m.m_superpages.set k sp1 })

/-! ## Tree geometry -/

/-- Index `i` lies at depth `d` of the heap-ordered tree: `2 ^ d ≤ i + 1 < 2 ^ (d + 1)`. -/
def at_depth (i d : Nat) : Prop := 2 ^ d ≤ i + 1 ∧ i + 1 < 2 ^ (d + 1)

/-- Child of node `i`: `2 * i + 1` (left) or `2 * i + 2` (right). -/
def child (i : Nat) (right : Bool) : Nat := 2 * i + (if right then 2 else 1)

/-- Node reached from `i` by a sequence of left/right turns. -/
def walk (i : Nat) (turns : List Bool) : Nat := turns.foldl child i

/-- A leaf of the tree of a superpage: a valid index without a left child. -/
def superpage.is_leaf (sp : superpage) (i : Nat) : Prop :=
  i < sp.m_num_pages ∧ sp.m_num_pages ≤ 2 * i + 1

/-- The shape the constructor gives a superpage: a log2 size between
`min_page_size` and 63 and a complete binary tree of
`2 * 2 ^ (m_size - min_page_size) - 1` pages. -/
def superpage.shaped (sp : superpage) : Prop :=
  min_page_size ≤ sp.m_size ∧ sp.m_size ≤ 63 ∧
    sp.m_num_pages = 2 * 2 ^ (sp.m_size - min_page_size) - 1

/-- The superpage the constructor builds for log2 size `size` on the block at
address `base`. -/
def fresh_superpage (size base : Nat) : superpage :=
  { m_size := size,
    m_num_pages := 2 * 2 ^ (size - min_page_size) - 1,
    m_pages := fun i => if i = 0 then .VACANT else .NON_EXTANT,
    m_memory := base }

/-! ## Buddy exclusivity -/

/-- Parent/child form of buddy exclusivity: the root exists, the children of a
`SPLIT` page exist, the children of any other page do not, and a leaf is never
`SPLIT`. -/
def superpage.tree_ok (sp : superpage) : Prop :=
  sp.m_pages 0 ≠ .NON_EXTANT ∧
  (∀ i, 2 * i + 2 < sp.m_num_pages →
    (sp.m_pages i = .SPLIT →
      sp.m_pages (2 * i + 1) ≠ .NON_EXTANT ∧ sp.m_pages (2 * i + 2) ≠ .NON_EXTANT) ∧
    (sp.m_pages i ≠ .SPLIT →
      sp.m_pages (2 * i + 1) = .NON_EXTANT ∧ sp.m_pages (2 * i + 2) = .NON_EXTANT)) ∧
  (∀ i, i < sp.m_num_pages → sp.m_num_pages ≤ 2 * i + 2 → sp.m_pages i ≠ .SPLIT)

/-- Buddy exclusivity of one superpage, as the specification words it: the root
is not `NON_EXTANT`, and on every root-to-leaf path (given by the turns `t`
taken from the root) exactly one node is `VACANT` or `OCCUPIED`, every node
above it is `SPLIT`, every node below it on the path and every descendant of it
is `NON_EXTANT`. -/
def superpage.buddy_exclusive (sp : superpage) : Prop :=
  sp.m_pages 0 ≠ .NON_EXTANT ∧
  ∀ t : List Bool, sp.is_leaf (walk 0 t) →
    ∃ k, k ≤ t.length ∧
      (sp.m_pages (walk 0 (t.take k)) = .VACANT ∨
        sp.m_pages (walk 0 (t.take k)) = .OCCUPIED) ∧
      (∀ j, j ≤ t.length →
        (sp.m_pages (walk 0 (t.take j)) = .VACANT ∨
          sp.m_pages (walk 0 (t.take j)) = .OCCUPIED) → j = k) ∧
      (∀ j, j < k → sp.m_pages (walk 0 (t.take j)) = .SPLIT) ∧
      (∀ j, k < j → j ≤ t.length → sp.m_pages (walk 0 (t.take j)) = .NON_EXTANT) ∧
      (∀ u, u ≠ [] → walk (walk 0 (t.take k)) u < sp.m_num_pages →
        sp.m_pages (walk (walk 0 (t.take k)) u) = .NON_EXTANT)

/-! ## Permitted transitions -/

/-- The six permitted state transitions of a page (specification, section 4.4). -/
def permitted_transition (a b : page_state) : Prop :=
  (a = .NON_EXTANT ∧ b = .VACANT) ∨ (a = .VACANT ∧ b = .NON_EXTANT) ∨
  (a = .VACANT ∧ b = .OCCUPIED) ∨ (a = .OCCUPIED ∧ b = .VACANT) ∨
  (a = .VACANT ∧ b = .SPLIT) ∨ (a = .SPLIT ∧ b = .VACANT)

/-- `sp1` is the result of one of the six `change_state_*` functions on page `i`
of `sp`.  These functions are the only code that writes to `m_pages` after
construction. -/
def state_change (sp : superpage) (i : Nat) (sp1 : superpage) : Prop :=
  page_ref.change_state_vacant_to_occupied sp i = .ok sp1 ∨
  page_ref.change_state_occupied_to_vacant sp i = .ok sp1 ∨
  page_ref.change_state_non_extant_to_vacant sp i = .ok sp1 ∨
  page_ref.change_state_vacant_to_non_extant sp i = .ok sp1 ∨
  page_ref.change_state_vacant_to_split sp i = .ok sp1 ∨
  page_ref.change_state_split_to_vacant sp i = .ok sp1

/-! ## Upstream contract, live allocations and reachable states -/

/-- The byte ranges of two superpages do not meet. -/
def disjoint_memory (a b : superpage) : Prop :=
  a.m_memory + 2 ^ a.m_size ≤ b.m_memory ∨ b.m_memory + 2 ^ b.m_size ≤ a.m_memory

/-- Contract of the upstream resource: a block it hands out does not meet the
memory of any superpage the engine still holds. -/
def fresh_upstream (up : memory_resource) (m : binary_page_memory_resource_impl) : Prop :=
  ∀ bytes base, up bytes = some base →
    ∀ sp ∈ m.m_superpages, base + bytes ≤ sp.m_memory ∨ sp.m_memory + 2 ^ sp.m_size ≤ base

/-- A live allocation: the pointer `p` returned by `do_allocate(bytes)` and the
page that call marked `OCCUPIED`. -/
structure allocation where
  p : Nat
  bytes : Nat
  page : page_ref
  deriving DecidableEq, Repr

/-- The live allocations after `do_allocate(n)`: a successful call adds the
pointer it returned. -/
def live_after_allocate (up : memory_resource) (host : host_heap)
    (m : binary_page_memory_resource_impl) (n : Nat) (live : List allocation) :
    List allocation :=
  match (do_allocate_cand up host m n).1, (do_allocate up host m n).1 with
  | .ok c, .ok p => ⟨p, n, c⟩ :: live
  | _, _ => live

/-- States of the engine reachable from a fresh engine by `do_allocate` calls
(against an upstream that honours its contract, and any host heap) and by
`do_deallocate` calls on a live (pointer, size) pair, together with the live
allocations. -/
inductive reachable : binary_page_memory_resource_impl → List allocation → Prop
  | fresh : reachable binary_page_memory_resource_impl.ctor []
  | allocate {m live} (up : memory_resource) (host : host_heap) (n : Nat) :
      reachable m live → fresh_upstream up m →
      reachable (do_allocate up host m n).2 (live_after_allocate up host m n live)
  | deallocate {m live} (e : allocation) :
      reachable m live → e ∈ live →
      reachable (do_deallocate m e.p e.bytes).2 (live.erase e)

/-- What a live allocation records about the engine: its page is a valid,
`OCCUPIED` page of the size of the request, and its pointer is the address of
that page. -/
def allocation.recorded (m : binary_page_memory_resource_impl) (e : allocation) : Prop :=
  ∃ sp, m.m_superpages[e.page.m_superpage]? = some sp ∧
    e.page.m_page < sp.m_num_pages ∧
    sp.m_pages e.page.m_page = .OCCUPIED ∧
    page_ref.get_size sp e.page.m_page = goal_of e.bytes ∧
    page_ref.get_addr sp e.page.m_page = e.p

/-- Invariant of the engine and its live allocations. -/
def engine_ok (m : binary_page_memory_resource_impl) (live : List allocation) : Prop :=
  (∀ sp ∈ m.m_superpages, sp.shaped ∧ sp.tree_ok ∧ sp.m_size ≤ 31) ∧
  m.m_superpages.Pairwise disjoint_memory ∧
  (∀ e ∈ live, e.recorded m) ∧
  live.Pairwise (fun a b => a.page ≠ b.page)

/-- Page `i` of superpage number `k` is `OCCUPIED`. -/
def occupied (m : binary_page_memory_resource_impl) (k i : Nat) : Prop :=
  ∃ sp, m.m_superpages[k]? = some sp ∧ i < sp.m_num_pages ∧ sp.m_pages i = .OCCUPIED

/-! ## What `find_free_page` returns -/

/-- No page of log2 size `s` of the superpage is `VACANT`. -/
def superpage.no_vacant (sp : superpage) (s : Nat) : Prop :=
  ∀ i, i < sp.m_num_pages → page_ref.get_size sp i = s → sp.m_pages i ≠ .VACANT

/-- Page `i` is the first `VACANT` page of log2 size `s` of the superpage. -/
def superpage.first_vacant (sp : superpage) (s i : Nat) : Prop :=
  i < sp.m_num_pages ∧ page_ref.get_size sp i = s ∧ sp.m_pages i = .VACANT ∧
    ∀ j, j < i → page_ref.get_size sp j = s → sp.m_pages j ≠ .VACANT

/-- Page `x` of superpage number `k`, of log2 size `s`, is the first `VACANT`
page in the order `find_free_page(goal)` visits pages: sizes from `goal`
upwards, superpages in list order, indices in increasing order. -/
def first_fit (sps : List superpage) (goal s k x : Nat) : Prop :=
  goal ≤ s ∧ (∃ sp, sps[k]? = some sp ∧ sp.first_vacant s x) ∧
    (∀ j sp, j < k → sps[j]? = some sp → sp.no_vacant s) ∧
    (∀ t, goal ≤ t → t < s → ∀ sp ∈ sps, sp.no_vacant t)

/-! ## What `do_allocate` does to the chosen superpage -/

/-- Page table after `split` of page `i`: the page is `SPLIT`, both children
are `VACANT`. -/
def split_pages (f : Nat → page_state) (i : Nat) : Nat → page_state :=
  set_page (set_page (set_page f i .SPLIT) (2 * i + 1) .VACANT) (2 * i + 2) .VACANT

/-- What the split loop of `do_allocate`, started on page `q` of `sp` with
target size `goal`, leaves behind: the page table `f` and the final candidate
`c`.  `c` is the leftmost descendant of `q` of size `goal` and is `VACANT`; only
pages that were `VACANT` or `NON_EXTANT` have changed, they are now `VACANT` or
`SPLIT`, and among the pages of size `goal` only `c` and `c + 1` can have
changed. -/
def split_post (sp : superpage) (goal q : Nat) (f : Nat → page_state) (c : Nat) : Prop :=
  (sp.with_pages f).tree_ok ∧ c < sp.m_num_pages ∧
  page_ref.get_size sp c = goal ∧ f c = .VACANT ∧
  c + 1 = 2 ^ (page_ref.get_size sp q - goal) * (q + 1) ∧
  (goal < page_ref.get_size sp q → f (c + 1) = .VACANT) ∧
  (page_ref.get_size sp q = goal → f = sp.m_pages) ∧
  (∀ i, f i ≠ sp.m_pages i → i < sp.m_num_pages ∧
    (sp.m_pages i = .VACANT ∨ sp.m_pages i = .NON_EXTANT) ∧
    (f i = .VACANT ∨ f i = .SPLIT) ∧
    (goal < page_ref.get_size sp i ∨ i = c ∨ i = c + 1))

/-- The engine after the page `c` reached by the split loop (page table `f` of
superpage number `k`) has been marked `OCCUPIED`. -/
def placed_state (m1 : binary_page_memory_resource_impl) (k : Nat) (sp : superpage)
    (f : Nat → page_state) (c : Nat) : binary_page_memory_resource_impl :=
  ⟨m1.m_superpages.set k (sp.with_pages (set_page f c .OCCUPIED))⟩

/-- The host heap grants what `allocate_upstream(goal)` asks of it: the storage
for one more superpage in the list and the page states of the new superpage. -/
def host_grants (host : host_heap) (m : binary_page_memory_resource_impl) (goal : Nat) :
    Prop :=
  host.superpages m.m_superpages.length = true ∧
    host.page_states (2 * 2 ^ (max goal new_page_size - min_page_size) - 1) = true

/-- The engine on which `do_allocate(n)` chooses its candidate: the engine `m`
itself, or, when `find_free_page` finds nothing and host heap and upstream
deliver, `m` with a fresh superpage appended. -/
def candidate_state (up : memory_resource) (host : host_heap)
    (m m1 : binary_page_memory_resource_impl) (n : Nat) : Prop :=
  ((∃ c, find_free_page m (goal_of n) = .ok (some c)) ∧ m1 = m) ∨
  (∃ base, find_free_page m (goal_of n) = .ok none ∧
    up (2 ^ max (goal_of n) new_page_size) = some base ∧
    m1 = ⟨m.m_superpages ++ [fresh_superpage (max (goal_of n) new_page_size) base]⟩ ∧
    host_grants host m (goal_of n))

/-- A successful `do_allocate(n)`: candidate `q` of superpage `sp` (number `k`
of the engine `m1` on which the candidate is chosen), page table `f` after the
split loop, page `c` marked `OCCUPIED`. -/
def placement (m1 : binary_page_memory_resource_impl) (n k q : Nat) (sp : superpage)
    (f : Nat → page_state) (c : Nat) : Prop :=
  (∃ s, first_fit m1.m_superpages (goal_of n) s k q) ∧
  m1.m_superpages[k]? = some sp ∧ q < sp.m_num_pages ∧ sp.m_pages q = .VACANT ∧
  split_post sp (goal_of n) q f c

/-! ## Scenarios of the specification -/

/-- An upstream that answers every request with the block at address `base`. -/
def upstream_at (base : Nat) : memory_resource := fun _ => some base

/-- An upstream that refuses every request. -/
def upstream_refusing : memory_resource := fun _ => none

/-- A host heap that grants every request. -/
def host_granting : host_heap := ⟨fun _ => true, fun _ => true⟩

/-- A host heap that refuses every request. -/
def host_refusing : host_heap := ⟨fun _ => false, fun _ => false⟩

/-- The engine of scenario B1 after its first step: 256 bytes allocated on a
fresh engine whose upstream hands out the block at address 4096. -/
def scenario_b1 : binary_page_memory_resource_impl :=
  (do_allocate (upstream_at 4096) host_granting binary_page_memory_resource_impl.ctor 256).2

/-- The live allocations of `scenario_b1`. -/
def scenario_b1_live : List allocation :=
  live_after_allocate (upstream_at 4096) host_granting binary_page_memory_resource_impl.ctor 256 []

/-- The engine of scenario B2 before its last step: `2 ^ 19` bytes allocated on
a fresh engine (block at address 4096) and deallocated again. -/
def scenario_b2 : binary_page_memory_resource_impl :=
  (do_deallocate
    (do_allocate (upstream_at 4096) host_granting binary_page_memory_resource_impl.ctor (2 ^ 19)).2
    4096 (2 ^ 19)).2

/-- The engine of scenario B4: 256, 1024 and 256 bytes allocated in turn on a
fresh engine whose upstream hands out the block at address 4096 (the second and
third call find a page without the upstream). -/
def scenario_b4 : binary_page_memory_resource_impl :=
  (do_allocate upstream_refusing host_granting
    (do_allocate upstream_refusing host_granting
      (do_allocate (upstream_at 4096) host_granting binary_page_memory_resource_impl.ctor 256).2 1024).2
    256).2

/-- The live allocations of scenario B4. -/
def scenario_b4_live : List allocation :=
  live_after_allocate upstream_refusing host_granting
    (do_allocate upstream_refusing host_granting
      (do_allocate (upstream_at 4096) host_granting binary_page_memory_resource_impl.ctor 256).2 1024).2
    256
    (live_after_allocate upstream_refusing host_granting
      (do_allocate (upstream_at 4096) host_granting binary_page_memory_resource_impl.ctor 256).2 1024
      (live_after_allocate (upstream_at 4096) host_granting binary_page_memory_resource_impl.ctor 256 []))

/-- The middle allocation of scenario B4: 1024 bytes at address 4096 + 1024, on
page 1024 of superpage 0. -/
def scenario_b4_middle : allocation := ⟨4096 + 1024, 1024, ⟨0, 1024⟩⟩


/-! ## Arena

`core/src/memory/arena.hpp` declares the arena; the file that defines its member
functions is not part of the sources at hand.  The declarations below follow
the header; the function bodies are modelled from the specification. -/

/-- Source `block` (arena.hpp, lines 22-78): a pointer and a size in bytes. -/
structure block where
  pointer : Nat
  size : Nat
  deriving DecidableEq, Repr

/-- Source constant `allocation_alignment` (arena.hpp, line 80). -/
def allocation_alignment : Nat := 256

/-- Modelled from the spec: `align_up`, whose definition is missing;
"`align_up(x)` rounds `x` up to the next multiple of `ALLOC_ALIGN`".  The sum is
a `std::size_t`: for the values above `2 ^ 64 - 256`, which have no multiple of
256 above them, it wraps around. -/
def align_up (value : Nat) : Nat :=
  add64 value (allocation_alignment - 1) / allocation_alignment * allocation_alignment

/-- Modelled from the spec: `block::is_contiguous_before`, whose definition is
missing; "`pointer + size == other.pointer`". -/
def block.is_contiguous_before (a b : block) : Bool :=
  a.pointer + a.size == b.pointer

/-- Modelled from the spec: `block::merge`, whose definition is missing;
"returns `{pointer, size + other.size}`". -/
def block.merge (a b : block) : block :=
  { pointer := a.pointer, size := a.size + b.size }

/-- The data members of `arena` (arena.hpp, lines 146-155) without the upstream
reference: `size_superblocks_`, `maximum_size_`, `current_size_`, and the
address-ordered sets `free_blocks_` and `allocated_blocks_` as lists. -/
structure arena where
  size_superblocks : Nat
  maximum_size : Nat
  current_size : Nat
  free_blocks : List block
  allocated_blocks : List block

/-- Modelled from the spec: `coalesce_block`, whose definition is missing;
"find the predecessor and successor of `b` in address order; if predecessor is
contiguous-before `b`, merge; if `b` is contiguous-before successor, merge;
insert the (possibly grown) block". -/
def coalesce_block (free_blocks : List block) (b : block) : List block :=
  let before := free_blocks.filter (fun x => decide (x.pointer < b.pointer))
  let after := free_blocks.filter (fun x => decide (¬ x.pointer < b.pointer))
  let merged_before :=
    match before.getLast? with
    | some pred =>
      if pred.is_contiguous_before b then (before.dropLast, pred.merge b) else (before, b)
    | none => (before, b)
  let merged_after :=
    match after.head? with
    | some next =>
      if merged_before.2.is_contiguous_before next then
        (merged_before.2.merge next, after.tail)
      else (merged_before.2, after)
    | none => (merged_before.2, after)
  merged_before.1 ++ merged_after.1 :: merged_after.2

/-- Modelled from the spec: `arena::deallocate`, whose definition is missing;
"1. `need = align_up(bytes)`.  2. Look up `allocated_blocks` by `pointer`; if
absent, return `false`.  3. Remove that entry, obtaining the block `b`.
4. `coalesce(free_blocks, b)` ... Return `true`."  The result is the Boolean
returned and the arena after the call. -/
def arena.deallocate (a : arena) (p : Nat) (bytes : Nat) : Bool × arena :=
  let _need := align_up bytes
  match a.allocated_blocks.find? (fun b => decide (b.pointer = p)) with
  | none => (false, a)
  | some b =>
    (true,
      { a with
        allocated_blocks := a.allocated_blocks.erase b,
        free_blocks := coalesce_block a.free_blocks b })

/-- An arena with one superblock of `2 ^ 18` bytes at address 256, whose first
256 bytes are allocated. -/
def arena_example : arena :=
  { size_superblocks := 2 ^ 18, maximum_size := 2 ^ 30, current_size := 2 ^ 18,
    free_blocks := [⟨512, 2 ^ 18 - 256⟩], allocated_blocks := [⟨256, 256⟩] }

/-! ## Arena growth

The member functions below are declared in `arena.hpp` (lines 105-144); their
bodies are modelled from section 4.3 of the specification.  Sizes are
`std::size_t`, so the growth check and the size bookkeeping are computed modulo
`2 ^ 64`. -/

/-- Source constant `minimum_superblock_size` (arena.hpp, line 20): `1u << 18u`. -/
def minimum_superblock_size : Nat := 2 ^ 18

/-- Source constant `arena::reserverd_size` (arena.hpp, line 99): `1u << 26u`. -/
def arena.reserverd_size : Nat := 2 ^ 26

/-- Modelled from the spec: `block::fits`, whose definition is missing;
"`fits(n)`: `size ≥ n`". -/
def block.fits (b : block) (size_of_bytes : Nat) : Bool := decide (size_of_bytes ≤ b.size)

/-- Modelled from the spec: `block::split`, whose definition is missing;
"returns `({pointer, n}, {pointer + n, size − n})`". -/
def block.split (b : block) (size : Nat) : block × block :=
  ({ pointer := b.pointer, size := size },
   { pointer := b.pointer + size, size := b.size - size })

/-- Insertion into an address-ordered set of blocks (`std::set<block>::insert`,
ordered by `pointer`): a block whose address is already a key is not inserted. -/
def insert_block (blocks : List block) (b : block) : List block :=
  if blocks.any (fun x => decide (x.pointer = b.pointer)) then blocks
  else blocks.filter (fun x => decide (x.pointer < b.pointer)) ++
    b :: blocks.filter (fun x => decide (¬ x.pointer < b.pointer))

/-- Modelled from the spec: `first_fit` (declared in arena.hpp, line 86), whose
definition is missing; "linear scan of `free_blocks` in address order; return
the first block that fits.  If none, `b` is invalid". -/
def arena.first_fit (free_blocks : List block) (size : Nat) : Option block :=
  free_blocks.find? (fun b => b.fits size)

/-- Source constant `arena::default_initial_size` (arena.hpp, lines 93-94):
`std::numeric_limits<std::size_t>::max()`. -/
def arena.default_initial_size : Nat := 2 ^ 64 - 1

/-- Modelled from the spec: the constructor of `arena`, whose definition is
missing; "`superblock_size = align_up(max(initial_size, MIN_SUPERBLOCK))`;
`max_size` stored verbatim; `current_size = 0`, both sets empty", and for the
default `initial_size`: "default = SIZE_MAX → treated as use MIN_SUPERBLOCK". -/
def arena.ctor (initial_size maximum_size : Nat) : arena :=
  { size_superblocks :=
      if initial_size = arena.default_initial_size then minimum_superblock_size
      else align_up (max initial_size minimum_superblock_size),
    maximum_size := maximum_size,
    current_size := 0,
    free_blocks := [],
    allocated_blocks := [] }

/-- Modelled from the spec: `arena::expand_arena`, whose definition is missing;
"Let `need = align_up(size)`.  Check `current_size + superblock_size ≤
max_size − RESERVED`; if not, fail with `OUT_OF_MEMORY`.  Acquire a superblock
of `max(need, superblock_size)` from upstream.  Insert it into `free_blocks`.
Update `current_size`.  Double `superblock_size` (bounded by the remaining
cap)".  `none` is the failure; the arena is then left as it was. -/
def arena.expand_arena (up : memory_resource) (a : arena) (size : Nat) : Option arena :=
  let need := align_up size
  let cap := sub64 a.maximum_size arena.reserverd_size
  if add64 a.current_size a.size_superblocks ≤ cap then
    let acquired := max need a.size_superblocks
    match up acquired with
    | none => none
    | some p =>
      some { a with
        free_blocks := insert_block a.free_blocks { pointer := p, size := acquired },
        current_size := add64 a.current_size acquired,
        size_superblocks :=
          min (mul64 2 a.size_superblocks) (sub64 cap (add64 a.current_size acquired)) }
  else none

/-- Steps 4 and 5 of `arena::allocate` in the specification: "remove `b` from
`free_blocks`, split into `(head, tail)` at `need`; if `tail.size > 0`, insert
`tail` back into `free_blocks`.  Insert `head` into `allocated_blocks`; return
`head.pointer`". -/
def arena.take_block (a : arena) (b : block) (need : Nat) : Option Nat × arena :=
  let parts := b.split need
  let rest := a.free_blocks.erase b
  (some parts.1.pointer,
    { a with
      free_blocks := if parts.2.size > 0 then insert_block rest parts.2 else rest,
      allocated_blocks := insert_block a.allocated_blocks parts.1 })

/-- Modelled from the spec: `arena::allocate`, whose definition is missing;
"1. `need = align_up(bytes)`.  2. `b = first_fit(free_blocks, need)`.  3. If `b`
is invalid, call `expand_arena(need)` ..., then repeat step 2; if still invalid,
fail with `OUT_OF_MEMORY`.  4., 5. see `take_block`".  The result is the
pointer returned (`none` for `OUT_OF_MEMORY`) and the arena after the call. -/
def arena.allocate (up : memory_resource) (a : arena) (bytes : Nat) : Option Nat × arena :=
  let need := align_up bytes
  match arena.first_fit a.free_blocks need with
  | some b => a.take_block b need
  | none =>
    match a.expand_arena up need with
    | none => (none, a)
    | some a1 =>
      match arena.first_fit a1.free_blocks need with
      | none => (none, a1)
      | some b => a1.take_block b need

/-- Arena states reachable from construction with `(initial_size,
maximum_size)` by `allocate` and `deallocate` calls. -/
inductive arena.reachable (initial_size maximum_size : Nat) : arena → Prop
  | ctor : arena.reachable initial_size maximum_size (arena.ctor initial_size maximum_size)
  | allocate {a : arena} (up : memory_resource) (bytes : Nat) :
      arena.reachable initial_size maximum_size a →
      arena.reachable initial_size maximum_size (a.allocate up bytes).2
  | deallocate {a : arena} (p bytes : Nat) :
      arena.reachable initial_size maximum_size a →
      arena.reachable initial_size maximum_size (a.deallocate p bytes).2

/-- An `allocate(bytes)` call that is served from a free block, or whose aligned
size does not exceed the growth quantum `size_superblocks` in force. -/
def arena.within_quantum (a : arena) (bytes : Nat) : Prop :=
  (arena.first_fit a.free_blocks (align_up bytes)).isSome = true ∨
    align_up bytes ≤ a.size_superblocks

/-- Arena states reachable from construction by `deallocate` calls and by
`allocate` calls that stay within the growth quantum. -/
inductive arena.reachable_within_quantum (initial_size maximum_size : Nat) : arena → Prop
  | ctor :
      arena.reachable_within_quantum initial_size maximum_size
        (arena.ctor initial_size maximum_size)
  | allocate {a : arena} (up : memory_resource) (bytes : Nat) :
      arena.reachable_within_quantum initial_size maximum_size a →
      a.within_quantum bytes →
      arena.reachable_within_quantum initial_size maximum_size (a.allocate up bytes).2
  | deallocate {a : arena} (p bytes : Nat) :
      arena.reachable_within_quantum initial_size maximum_size a →
      arena.reachable_within_quantum initial_size maximum_size (a.deallocate p bytes).2

/-- The arena of scenario A2 after its first allocation: constructed with
`(2 ^ 18, 3 * 2 ^ 18)`, one `allocate` of 100 KiB. -/
def arena_a2 : arena :=
  ((arena.ctor (2 ^ 18) (3 * 2 ^ 18)).allocate (upstream_at 4096) 102400).2

/-! ## The left spine below a candidate -/

/-- `k` rounds of the body of the split loop of `do_allocate` (lines 120-121):
`cand->split(); cand = cand->left_child();`. -/
def split_times : Nat → superpage → Nat → Except fault (superpage × Nat)
  | 0, sp, cand => .ok (sp, cand)
  | k + 1, sp, cand =>
    match page_ref.split sp cand with
    | .error e => .error e
    | .ok sp1 =>
      match page_ref.left_child sp1 cand with
      | .error e => .error e
      | .ok c => split_times k sp1 c

/-- The leftmost descendant of page `q`, `j` levels below it: `2 ^ j * (q + 1) - 1`. -/
def leftmost (q j : Nat) : Nat := 2 ^ j * (q + 1) - 1

/-- Page `i` lies in the subtree of page `q`: it is `q` or a descendant of `q`. -/
def in_subtree (q i : Nat) : Prop := ∃ u : List Bool, i = walk q u

/-- The engine on which the first `do_allocate` of scenario B1 chooses its
candidate: one untouched superpage of log2 size 20 on the block at 4096. -/
def scenario_fresh_block : binary_page_memory_resource_impl :=
  ⟨[fresh_superpage 20 4096]⟩

/-! ## Free subtrees (precondition of `unsplit`) -/

/-- Every page at most `h` levels below page `i` is `NON_EXTANT`. -/
def superpage.empty_below (sp : superpage) : Nat → Nat → Prop
  | 0, _ => True
  | h + 1, i =>
    sp.m_pages (2 * i + 1) = .NON_EXTANT ∧ sp.m_pages (2 * i + 2) = .NON_EXTANT ∧
      sp.empty_below h (2 * i + 1) ∧ sp.empty_below h (2 * i + 2)

/-- The subtree of height `h` rooted at page `i` is free: the page is `VACANT`
with nothing below it, or it is `SPLIT` and the subtrees of both children are
free. -/
def superpage.free_at (sp : superpage) : Nat → Nat → Prop
  | 0, i => sp.m_pages i = .VACANT
  | h + 1, i =>
    (sp.m_pages i = .VACANT ∧ sp.empty_below (h + 1) i) ∨
      (sp.m_pages i = .SPLIT ∧ sp.free_at h (2 * i + 1) ∧ sp.free_at h (2 * i + 2))

/-- A superpage of log2 size 9 (three pages) whose root is `SPLIT`, whose left
child is `NON_EXTANT` and whose right child is `VACANT`. -/
def superpage_half_split : superpage :=
  ⟨9, 3, fun i => if i = 0 then .SPLIT else if i = 1 then .NON_EXTANT else .VACANT, 4096⟩

/-- A superpage of log2 size 10 (seven pages): root and left child `SPLIT`, the
right child and the two children of the left child `VACANT`, the children of the
right child `NON_EXTANT`. -/
def superpage_split_twice : superpage :=
  ⟨10, 7, fun i => if i = 0 ∨ i = 1 then .SPLIT
    else if i = 2 ∨ i = 3 ∨ i = 4 then .VACANT else .NON_EXTANT, 4096⟩

/-- An engine whose only superpage is `superpage_split_twice`. -/
def scenario_split_twice : binary_page_memory_resource_impl :=
  ⟨[superpage_split_twice]⟩

/-! ## Runs of the engine -/

/-- The engine `m2` is reached from `m1` by a sequence of `do_allocate` and
`do_deallocate` calls, with any upstream, any host heap and any arguments. -/
inductive engine_run :
    binary_page_memory_resource_impl → binary_page_memory_resource_impl → Prop
  | refl (m : binary_page_memory_resource_impl) : engine_run m m
  | allocate {m1 m2 : binary_page_memory_resource_impl} (up : memory_resource)
      (host : host_heap) (n : Nat) :
      engine_run m1 m2 → engine_run m1 (do_allocate up host m2 n).2
  | deallocate {m1 m2 : binary_page_memory_resource_impl} (p s : Nat) :
      engine_run m1 m2 → engine_run m1 (do_deallocate m2 p s).2
/-! ## Machine arithmetic lemmas -/

theorem two_pow_lt_card {k : Nat} (h : k ≤ 63) : 2 ^ k < 2 ^ 64 :=
  Nat.pow_lt_pow_right (by norm_num) (by omega)

theorem shl64_one {k : Nat} (h : k ≤ 63) : shl64 1 k = 2 ^ k := by
  unfold shl64
  rw [Nat.one_mul, Nat.mod_eq_of_lt (two_pow_lt_card h)]

theorem sub64_eq {a b : Nat} (hb : b ≤ a) (ha : a < 2 ^ 64) : sub64 a b = a - b := by
  unfold sub64
  have hb2 : b < 2 ^ 64 := lt_of_le_of_lt hb ha
  rw [Nat.mod_eq_of_lt ha, Nat.mod_eq_of_lt hb2]
  omega

theorem add64_eq {a b : Nat} (h : a + b < 2 ^ 64) : add64 a b = a + b := by
  unfold add64
  exact Nat.mod_eq_of_lt h

theorem mul64_eq {a b : Nat} (h : a * b < 2 ^ 64) : mul64 a b = a * b := by
  unfold mul64
  exact Nat.mod_eq_of_lt h

theorem bit63_test {y : Nat} (hy : y < 2 ^ 64) : (y &&& shl64 1 63 ≠ 0) ↔ 2 ^ 63 ≤ y := by
  rw [shl64_one (le_refl 63), Nat.and_two_pow, Nat.testBit_to_div_mod]
  by_cases h : y / 2 ^ 63 % 2 = 1
  · simp [h]; omega
  · simp [h]; omega

theorem shl64_lt (a k : Nat) : shl64 a k < 2 ^ 64 := by
  unfold shl64
  exact Nat.mod_lt _ (by positivity)

theorem clzl_loop_eq (x d : Nat) (hd : d ≤ 63) (hlo : 2 ^ d ≤ x) (hhi : x < 2 ^ (d + 1)) :
    ∀ n b, b ≤ 63 - d → 63 - d - b < n → clzl_loop x n b = 63 - d := by
  intro n
  induction n with
  | zero => intro b _ h; omega
  | succ n ih =>
    intro b hb hn
    unfold clzl_loop
    have hx : x * 2 ^ b < 2 ^ 64 := by
      calc x * 2 ^ b < 2 ^ (d + 1) * 2 ^ b := Nat.mul_lt_mul_of_pos_right hhi (by positivity)
        _ = 2 ^ (d + 1 + b) := by rw [← Nat.pow_add]
        _ ≤ 2 ^ 64 := Nat.pow_le_pow_right (by norm_num) (by omega)
    have hs : shl64 x b = x * 2 ^ b := by unfold shl64; exact Nat.mod_eq_of_lt hx
    have hc := bit63_test (shl64_lt x b)
    rw [hs] at hc
    by_cases hbd : b = 63 - d
    · have : 2 ^ 63 ≤ x * 2 ^ b := by
        calc 2 ^ 63 = 2 ^ (d + b) := by congr 1; omega
          _ = 2 ^ d * 2 ^ b := Nat.pow_add _ _ _
          _ ≤ x * 2 ^ b := Nat.mul_le_mul_right _ hlo
      rw [hs, if_pos (hc.mpr this)]; exact hbd
    · have : ¬ 2 ^ 63 ≤ x * 2 ^ b := by
        have : x * 2 ^ b < 2 ^ 63 := by
          calc x * 2 ^ b < 2 ^ (d + 1) * 2 ^ b := Nat.mul_lt_mul_of_pos_right hhi (by positivity)
            _ = 2 ^ (d + 1 + b) := by rw [← Nat.pow_add]
            _ ≤ 2 ^ 63 := Nat.pow_le_pow_right (by norm_num) (by omega)
        omega
      rw [hs, if_neg (fun h => this (hc.mp h))]
      exact ih (b + 1) (by omega) (by omega)

/-- On a word whose highest set bit is bit `d`, `clzl` yields `63 - d`. -/
theorem clzl_eq {x d : Nat} (hd : d ≤ 63) (hlo : 2 ^ d ≤ x) (hhi : x < 2 ^ (d + 1)) :
    clzl x = 63 - d :=
  clzl_loop_eq x d hd hlo hhi 64 0 (by omega) (by omega)

/-! ## `round_up` and the goal of a request -/

theorem round_up_loop_le (size : Nat) : ∀ n i, round_up_loop size n i ≤ n + i := by
  intro n
  induction n with
  | zero => intro i; simp [round_up_loop]
  | succ n ih =>
    intro i
    unfold round_up_loop
    split
    · omega
    · have := ih (i + 1); omega

theorem round_up_loop_lt (size : Nat) : ∀ n i, 0 < n → round_up_loop size n i < n + i := by
  intro n
  induction n with
  | zero => intro i h; omega
  | succ n ih =>
    intro i _
    unfold round_up_loop
    split
    · omega
    · rcases Nat.eq_zero_or_pos n with h0 | hpos
      · subst h0; simp [round_up_loop]
      · have := ih (i + 1) hpos; omega

theorem round_up_le (size : Nat) : round_up size ≤ 31 := by
  have := round_up_loop_lt size 32 0 (by norm_num)
  unfold round_up; omega

theorem round_up_loop_ge (size : Nat) (hs : size ≤ 2 ^ 31) : ∀ n i, i + n = 32 → 0 < n →
    size ≤ 2 ^ round_up_loop size n i := by
  intro n
  induction n with
  | zero => intro i _ h; omega
  | succ n ih =>
    intro i hi _
    unfold round_up_loop
    rw [shl64_one (by omega)]
    split
    · assumption
    · rename_i hlt
      rcases Nat.eq_zero_or_pos n with h0 | hpos
      · subst h0
        have : i = 31 := by omega
        subst this
        exact absurd hs hlt
      · exact ih (i + 1) (by omega) hpos

/-- Requests of at most `2 ^ 31` bytes are rounded up. -/
theorem le_two_pow_round_up {size : Nat} (hs : size ≤ 2 ^ 31) : size ≤ 2 ^ round_up size :=
  round_up_loop_ge size hs 32 0 (by norm_num) (by norm_num)

/-! ## Depths and page sizes -/

theorem goal_of_ge (n : Nat) : 8 ≤ goal_of n := by
  unfold goal_of min_page_size; omega

theorem goal_of_le (n : Nat) : goal_of n ≤ 31 := by
  have := round_up_le n
  unfold goal_of min_page_size; omega

theorem at_depth_unique {i d e : Nat} (h1 : at_depth i d) (h2 : at_depth i e) : d = e := by
  unfold at_depth at *
  by_contra hne
  rcases Nat.lt_or_gt_of_ne hne with h | h
  · have : 2 ^ (d + 1) ≤ 2 ^ e := Nat.pow_le_pow_right (by norm_num) h
    omega
  · have : 2 ^ (e + 1) ≤ 2 ^ d := Nat.pow_le_pow_right (by norm_num) h
    omega

theorem at_depth_log2 (i : Nat) : at_depth i (Nat.log2 (i + 1)) :=
  ⟨Nat.log2_self_le (by omega), Nat.lt_log2_self⟩

theorem at_depth_left {i d : Nat} (h : at_depth i d) : at_depth (2 * i + 1) (d + 1) := by
  unfold at_depth at *
  have e1 : 2 ^ (d + 1) = 2 * 2 ^ d := by rw [Nat.pow_succ]; omega
  have e2 : 2 ^ (d + 1 + 1) = 4 * 2 ^ d := by rw [Nat.pow_succ, Nat.pow_succ]; omega
  omega

theorem at_depth_right {i d : Nat} (h : at_depth i d) : at_depth (2 * i + 2) (d + 1) := by
  unfold at_depth at *
  have e1 : 2 ^ (d + 1) = 2 * 2 ^ d := by rw [Nat.pow_succ]; omega
  have e2 : 2 ^ (d + 1 + 1) = 4 * 2 ^ d := by rw [Nat.pow_succ, Nat.pow_succ]; omega
  omega

theorem at_depth_zero : at_depth 0 0 := by
  unfold at_depth; norm_num

/-- `get_size` of a page at depth `d ≤ m_size` is `m_size - d`. -/
theorem get_size_eq {sp : superpage} {i d : Nat} (hS : sp.m_size ≤ 63) (hd : d ≤ sp.m_size)
    (h : at_depth i d) : page_ref.get_size sp i = sp.m_size - d := by
  unfold page_ref.get_size
  have hd63 : d ≤ 63 := le_trans hd hS
  have hlt : i + 1 < 2 ^ 64 :=
    lt_of_lt_of_le h.2 (Nat.pow_le_pow_right (by norm_num) (by omega))
  rw [add64_eq hlt, clzl_eq hd63 h.1 h.2]
  have h1 : sub64 (8 * 8 - 1) (63 - d) = d := by
    rw [sub64_eq (by omega) (by norm_num)]; omega
  rw [h1, sub64_eq hd (lt_of_le_of_lt hS (by norm_num))]

theorem num_pages_eq {sp : superpage} (h : sp.shaped) :
    sp.m_num_pages + 1 = 2 ^ (sp.m_size - 8 + 1) := by
  obtain ⟨_, _, h3⟩ := h
  unfold min_page_size at h3
  have : 0 < 2 ^ (sp.m_size - 8) := by positivity
  rw [h3, Nat.pow_succ]; omega

/-- A valid index lies at a depth of at most `m_size - 8`. -/
theorem depth_of_valid {sp : superpage} (h : sp.shaped) {i : Nat} (hi : i < sp.m_num_pages) :
    ∃ d, d ≤ sp.m_size - 8 ∧ at_depth i d := by
  refine ⟨Nat.log2 (i + 1), ?_, at_depth_log2 i⟩
  have h1 := num_pages_eq h
  have h2 : i + 1 < 2 ^ (sp.m_size - 8 + 1) := by omega
  have := (Nat.log2_lt (n := i + 1) (k := sp.m_size - 8 + 1) (by omega)).2 h2
  omega

theorem valid_of_depth {sp : superpage} (h : sp.shaped) {i d : Nat} (hd : d ≤ sp.m_size - 8)
    (hi : at_depth i d) : i < sp.m_num_pages := by
  have h1 := num_pages_eq h
  have : 2 ^ (d + 1) ≤ 2 ^ (sp.m_size - 8 + 1) := Nat.pow_le_pow_right (by norm_num) (by omega)
  unfold at_depth at hi
  omega

/-- Size of a valid page: between 8 and `m_size`, and determined by the depth. -/
theorem get_size_valid {sp : superpage} (h : sp.shaped) {i : Nat} (hi : i < sp.m_num_pages) :
    ∃ d, at_depth i d ∧ d ≤ sp.m_size - 8 ∧ page_ref.get_size sp i = sp.m_size - d := by
  obtain ⟨d, hd, hdep⟩ := depth_of_valid h hi
  have h8 : 8 ≤ sp.m_size := h.1
  exact ⟨d, hdep, hd, get_size_eq h.2.1 (by omega) hdep⟩

theorem get_size_ge {sp : superpage} (h : sp.shaped) {i : Nat} (hi : i < sp.m_num_pages) :
    8 ≤ page_ref.get_size sp i ∧ page_ref.get_size sp i ≤ sp.m_size := by
  obtain ⟨d, _, hd, hs⟩ := get_size_valid h hi
  have h8 : 8 ≤ sp.m_size := h.1
  omega

/-- A page larger than a leaf has both children in the table, one size smaller. -/
theorem children_valid {sp : superpage} (h : sp.shaped) {i : Nat} (hi : i < sp.m_num_pages)
    (hs : 8 < page_ref.get_size sp i) :
    2 * i + 2 < sp.m_num_pages ∧
      page_ref.get_size sp (2 * i + 1) = page_ref.get_size sp i - 1 ∧
      page_ref.get_size sp (2 * i + 2) = page_ref.get_size sp i - 1 := by
  obtain ⟨d, hdep, hd, hsz⟩ := get_size_valid h hi
  have h8 : 8 ≤ sp.m_size := h.1
  have hd1 : d + 1 ≤ sp.m_size - 8 := by omega
  refine ⟨valid_of_depth h hd1 (at_depth_right hdep), ?_, ?_⟩
  · rw [get_size_eq h.2.1 (by omega) (at_depth_left hdep), hsz]; omega
  · rw [get_size_eq h.2.1 (by omega) (at_depth_right hdep), hsz]; omega

/-- A page of size 8 is a leaf. -/
theorem leaf_of_size {sp : superpage} (h : sp.shaped) {i : Nat} (hi : i < sp.m_num_pages)
    (hs : page_ref.get_size sp i = 8) : sp.m_num_pages ≤ 2 * i + 1 := by
  obtain ⟨d, hdep, hd, hsz⟩ := get_size_valid h hi
  have h8 : 8 ≤ sp.m_size := h.1
  have hd1 : d = sp.m_size - 8 := by omega
  have h1 := num_pages_eq h
  unfold at_depth at hdep
  rw [Nat.pow_succ] at h1
  rw [hd1] at hdep
  omega

theorem internal_size {sp : superpage} (h : sp.shaped) {i : Nat}
    (hi : 2 * i + 2 < sp.m_num_pages) : 8 < page_ref.get_size sp i := by
  have hi0 : i < sp.m_num_pages := by omega
  have := get_size_ge h hi0
  by_contra hc
  have := leaf_of_size h hi0 (by omega)
  omega

theorem valid_lt_card {sp : superpage} (h : sp.shaped) {i : Nat} (hi : i < sp.m_num_pages) :
    i < 2 ^ 56 := by
  have h1 := num_pages_eq h
  have h2 : sp.m_size ≤ 63 := h.2.1
  have : 2 ^ (sp.m_size - 8 + 1) ≤ 2 ^ 56 := Nat.pow_le_pow_right (by norm_num) (by omega)
  omega

theorem left_index {i : Nat} (hi : i < 2 ^ 56) : add64 (mul64 2 i) 1 = 2 * i + 1 := by
  rw [mul64_eq (by omega), add64_eq (by omega)]

theorem right_index {i : Nat} (hi : i < 2 ^ 56) : add64 (mul64 2 i) 2 = 2 * i + 2 := by
  rw [mul64_eq (by omega), add64_eq (by omega)]

/-! ## The climbing loop and the scan of one size class -/

theorem page_ref_ctor_ok {sp : superpage} {i : Nat} (hi : i < sp.m_num_pages) :
    page_ref.ctor sp i = .ok i := by
  unfold page_ref.ctor superpage.total_pages
  rw [if_pos hi]

theorem at_depth_first (k : Nat) : at_depth (2 ^ k - 1) k := by
  have : 0 < 2 ^ k := by positivity
  have e1 : 2 ^ (k + 1) = 2 * 2 ^ k := by rw [Nat.pow_succ]; omega
  unfold at_depth
  omega

theorem first_page_of_size_aux {sp : superpage} (h : sp.shaped) {g : Nat} (hg : 8 ≤ g)
    (hgS : g ≤ sp.m_size) :
    ∀ n k, k ≤ sp.m_size - g → sp.m_size - g - k < n →
      first_page_of_size sp g n (2 ^ k - 1) = .ok (2 ^ (sp.m_size - g) - 1) := by
  intro n
  induction n with
  | zero => intro k _ hn; omega
  | succ n ih =>
    intro k hk hn
    have hdep := at_depth_first k
    have hval : 2 ^ k - 1 < sp.m_num_pages := valid_of_depth h (by omega) hdep
    have hsz : page_ref.get_size sp (2 ^ k - 1) = sp.m_size - k :=
      get_size_eq h.2.1 (by omega) hdep
    unfold first_page_of_size
    rw [page_ref_ctor_ok hval]
    simp only [hsz]
    by_cases hlt : sp.m_size - k > g
    · rw [if_pos hlt, left_index (valid_lt_card h hval)]
      have e : 2 * (2 ^ k - 1) + 1 = 2 ^ (k + 1) - 1 := by
        have : 0 < 2 ^ k := by positivity
        rw [Nat.pow_succ]; omega
      rw [e]
      exact ih (k + 1) (by omega) (by omega)
    · rw [if_neg hlt]
      have : k = sp.m_size - g := by omega
      rw [this]

/-- The climbing loop stops at the first page of the requested size,
`2 ^ (m_size - size) - 1`. -/
theorem first_page_of_size_eq {sp : superpage} (h : sp.shaped) {g : Nat} (hg : 8 ≤ g)
    (hgS : g ≤ sp.m_size) :
    first_page_of_size sp g 64 0 = .ok (2 ^ (sp.m_size - g) - 1) := by
  have h63 : sp.m_size ≤ 63 := h.2.1
  have := first_page_of_size_aux h hg hgS 64 0 (by omega) (by omega)
  simpa using this

/-- The indices `[i, 2 * i + 1)` scanned for a size are exactly the valid pages
of that size. -/
theorem size_class_iff {sp : superpage} (h : sp.shaped) {g : Nat} (hg : 8 ≤ g)
    (hgS : g ≤ sp.m_size) (i : Nat) :
    (2 ^ (sp.m_size - g) - 1 ≤ i ∧ i < 2 * (2 ^ (sp.m_size - g) - 1) + 1) ↔
      (i < sp.m_num_pages ∧ page_ref.get_size sp i = g) := by
  have hpos : 0 < 2 ^ (sp.m_size - g) := by positivity
  have e1 : 2 ^ (sp.m_size - g + 1) = 2 * 2 ^ (sp.m_size - g) := by rw [Nat.pow_succ]; omega
  constructor
  · rintro ⟨h1, h2⟩
    have hdep : at_depth i (sp.m_size - g) := by unfold at_depth; omega
    refine ⟨valid_of_depth h (by omega) hdep, ?_⟩
    rw [get_size_eq h.2.1 (by omega) hdep]; omega
  · rintro ⟨h1, h2⟩
    obtain ⟨d, hdep, hd, hsz⟩ := get_size_valid h h1
    have h8 : 8 ≤ sp.m_size := h.1
    have : d = sp.m_size - g := by omega
    subst this
    unfold at_depth at hdep
    omega

/-- Outcome of the scan of `n` pages from `p`: the first `VACANT` page in
`[p, p + n)`, if there is one. -/
theorem scan_pages_spec (sp : superpage) :
    ∀ n p, p + n ≤ sp.m_num_pages →
      (scan_pages sp n p = .ok none ∧ ∀ y, p ≤ y → y < p + n → sp.m_pages y ≠ .VACANT) ∨
      (∃ x, scan_pages sp n p = .ok (some x) ∧ p ≤ x ∧ x < p + n ∧ sp.m_pages x = .VACANT ∧
        ∀ y, p ≤ y → y < x → sp.m_pages y ≠ .VACANT) := by
  intro n
  induction n with
  | zero =>
    intro p _
    left
    exact ⟨rfl, fun y h1 h2 => by omega⟩
  | succ n ih =>
    intro p hp
    unfold scan_pages
    rw [page_ref_ctor_ok (by omega)]
    simp only [page_ref.get_state]
    by_cases hv : sp.m_pages p = .VACANT
    · right
      refine ⟨p, by rw [if_pos hv], le_refl _, by omega, hv, fun y h1 h2 => by omega⟩
    · rw [if_neg hv]
      rcases ih (p + 1) (by omega) with ⟨h1, h2⟩ | ⟨x, h1, h2, h3, h4, h5⟩
      · left
        refine ⟨h1, fun y hy1 hy2 => ?_⟩
        rcases Nat.eq_or_lt_of_le hy1 with e | l
        · rw [← e]; exact hv
        · exact h2 y l (by omega)
      · right
        refine ⟨x, h1, by omega, by omega, h4, fun y hy1 hy2 => ?_⟩
        rcases Nat.eq_or_lt_of_le hy1 with e | l
        · rw [← e]; exact hv
        · exact h5 y l hy2


/-! ## `find_free_page` -/

theorem no_vacant_of_small {sp : superpage} (h : sp.shaped) {s : Nat} (hs : sp.m_size < s) :
    sp.no_vacant s := by
  intro i hi hsz
  have := get_size_ge h hi
  omega

/-- Scan of the size class `g` of one superpage: either no page of that size is
`VACANT`, or the first `VACANT` one is found. -/
theorem scan_class_spec {sp : superpage} (h : sp.shaped) {g : Nat} (hg : 8 ≤ g)
    (hgS : g ≤ sp.m_size) :
    let i := 2 ^ (sp.m_size - g) - 1
    (scan_pages sp (add64 (mul64 2 i) 1 - i) i = .ok none ∧ sp.no_vacant g) ∨
    (∃ x, scan_pages sp (add64 (mul64 2 i) 1 - i) i = .ok (some x) ∧ sp.first_vacant g x) := by
  intro i
  have hcls := size_class_iff h hg hgS
  have hpos : 0 < 2 ^ (sp.m_size - g) := by positivity
  have hlast : 2 * i < sp.m_num_pages := ((hcls (2 * i)).1 ⟨by omega, by omega⟩).1
  have hi : i < sp.m_num_pages := by omega
  rw [left_index (valid_lt_card h hi)]
  have hn : 2 * i + 1 - i = i + 1 := by omega
  rw [hn]
  rcases scan_pages_spec sp (i + 1) i (by omega) with ⟨h1, h2⟩ | ⟨x, h1, h2, h3, h4, h5⟩
  · left
    refine ⟨h1, fun y hy hsz => ?_⟩
    have := (hcls y).2 ⟨hy, hsz⟩
    exact h2 y this.1 (by omega)
  · right
    have hx := (hcls x).1 ⟨h2, by omega⟩
    refine ⟨x, h1, hx.1, hx.2, h4, fun y hy hsz => ?_⟩
    have := (hcls y).2 ⟨by omega, hsz⟩
    exact h5 y this.1 hy

/-- One round of `find_free_page`: either no superpage has a `VACANT` page of
size `g` and the flag tells whether some superpage is large enough, or the
first `VACANT` page of size `g` in list order is returned. -/
theorem scan_superpages_spec {g : Nat} (hg : 8 ≤ g) :
    ∀ (sps : List superpage) (k0 : Nat) (found : Bool), (∀ sp ∈ sps, sp.shaped) →
      (scan_superpages g sps k0 found =
          .ok (none, found || sps.any (fun sp => decide (g ≤ sp.m_size))) ∧
        ∀ sp ∈ sps, sp.no_vacant g) ∨
      (∃ j sp x, sps[j]? = some sp ∧ sp.first_vacant g x ∧
        (∀ j2 sp2, j2 < j → sps[j2]? = some sp2 → sp2.no_vacant g) ∧
        scan_superpages g sps k0 found = .ok (some ⟨k0 + j, x⟩, true)) := by
  intro sps
  induction sps with
  | nil =>
    intro k0 found _
    left
    exact ⟨by simp [scan_superpages], fun sp hsp => by simp at hsp⟩
  | cons sp rest ih =>
    intro k0 found hall
    have hsp : sp.shaped := hall sp (List.mem_cons_self _ _)
    have hrest : ∀ sp ∈ rest, sp.shaped := fun a ha => hall a (List.mem_cons_of_mem _ ha)
    unfold scan_superpages
    by_cases hle : g ≤ sp.m_size
    · rw [if_pos hle, first_page_of_size_eq hsp hg hle]
      simp only []
      rcases scan_class_spec hsp hg hle with ⟨h1, h2⟩ | ⟨x, h1, h2⟩
      · rw [h1]
        simp only []
        rcases ih (k0 + 1) true hrest with ⟨r1, r2⟩ | ⟨j, sp1, x, r1, r2, r3, r4⟩
        · left
          refine ⟨?_, ?_⟩
          · rw [r1]; simp [hle]
          · intro a ha
            rcases List.mem_cons.1 ha with e | e
            · rw [e]; exact h2
            · exact r2 a e
        · right
          refine ⟨j + 1, sp1, x, by simpa using r1, r2, ?_, ?_⟩
          · intro j2 sp2 hj2 hget
            cases j2 with
            | zero => simp at hget; rw [← hget]; exact h2
            | succ j3 => exact r3 j3 sp2 (by omega) (by simpa using hget)
          · have e : k0 + 1 + j = k0 + (j + 1) := by omega
            rw [r4, e]
      · right
        refine ⟨0, sp, x, by simp, h2, fun j2 sp2 hj2 _ => by omega, ?_⟩
        rw [h1]
        rfl
    · rw [if_neg hle]
      have hnv : sp.no_vacant g := no_vacant_of_small hsp (by omega)
      rcases ih (k0 + 1) found hrest with ⟨r1, r2⟩ | ⟨j, sp1, x, r1, r2, r3, r4⟩
      · left
        refine ⟨?_, ?_⟩
        · rw [r1]; simp [hle]
        · intro a ha
          rcases List.mem_cons.1 ha with e | e
          · rw [e]; exact hnv
          · exact r2 a e
      · right
        refine ⟨j + 1, sp1, x, by simpa using r1, r2, ?_, ?_⟩
        · intro j2 sp2 hj2 hget
          cases j2 with
          | zero => simp at hget; rw [← hget]; exact hnv
          | succ j3 => exact r3 j3 sp2 (by omega) (by simpa using hget)
        · have e : k0 + 1 + j = k0 + (j + 1) := by omega
          rw [r4, e]

theorem find_free_page_loop_spec {sps : List superpage} (hall : ∀ sp ∈ sps, sp.shaped) :
    ∀ n size, 8 ≤ size → 65 - size < n →
      (find_free_page_loop sps n size = .ok none ∧
        ∀ s, size ≤ s → ∀ sp ∈ sps, sp.no_vacant s) ∨
      (∃ s k x, first_fit sps size s k x ∧
        find_free_page_loop sps n size = .ok (some ⟨k, x⟩)) := by
  intro n
  induction n with
  | zero => intro size _ h; omega
  | succ n ih =>
    intro size h8 hn
    unfold find_free_page_loop
    rcases scan_superpages_spec h8 sps 0 false hall with ⟨r1, r2⟩ | ⟨j, sp, x, r1, r2, r3, r4⟩
    · rw [r1]
      simp only [Bool.false_or]
      by_cases hb : (sps.any fun sp => decide (size ≤ sp.m_size)) = true
      · rw [if_pos hb]
        obtain ⟨sp, hsp, hle⟩ := List.any_eq_true.1 hb
        have hle2 : size ≤ sp.m_size := by simpa using hle
        have h63 : sp.m_size ≤ 63 := (hall sp hsp).2.1
        rw [add64_eq (by omega)]
        rcases ih (size + 1) (by omega) (by omega) with ⟨q1, q2⟩ | ⟨s, k, y, q1, q2⟩
        · left
          refine ⟨q1, fun s hs a ha => ?_⟩
          rcases Nat.eq_or_lt_of_le hs with e | l
          · rw [← e]; exact r2 a ha
          · exact q2 s l a ha
        · right
          obtain ⟨f1, f2, f3, f4⟩ := q1
          refine ⟨s, k, y, ⟨by omega, f2, f3, fun t ht1 ht2 a ha => ?_⟩, q2⟩
          rcases Nat.eq_or_lt_of_le ht1 with e | l
          · rw [← e]; exact r2 a ha
          · exact f4 t l ht2 a ha
      · rw [if_neg hb]
        left
        refine ⟨rfl, fun s hs a ha => ?_⟩
        apply no_vacant_of_small (hall a ha)
        by_contra hc
        apply hb
        exact List.any_eq_true.2 ⟨a, ha, by simp; omega⟩
    · right
      rw [r4]
      refine ⟨size, j, x, ⟨le_refl _, ⟨sp, r1, r2⟩, r3, fun t h1 h2 => by omega⟩, ?_⟩
      simp

/-- On well-shaped superpages `find_free_page` returns, and what it returns is
decided by `first_fit`. -/
theorem find_free_page_spec {m : binary_page_memory_resource_impl}
    (hall : ∀ sp ∈ m.m_superpages, sp.shaped) {g : Nat} (hg : 8 ≤ g) :
    (find_free_page m g = .ok none ∧ ∀ s, g ≤ s → ∀ sp ∈ m.m_superpages, sp.no_vacant s) ∨
    (∃ s k x, first_fit m.m_superpages g s k x ∧ find_free_page m g = .ok (some ⟨k, x⟩)) :=
  find_free_page_loop_spec hall 66 g hg (by omega)

/-- The page `first_fit` designates is unique. -/
theorem first_fit_unique {sps : List superpage} {g s k x s2 k2 x2 : Nat}
    (h1 : first_fit sps g s k x) (h2 : first_fit sps g s2 k2 x2) :
    s = s2 ∧ k = k2 ∧ x = x2 := by
  obtain ⟨a1, ⟨sp, a2, a3⟩, a4, a5⟩ := h1
  obtain ⟨b1, ⟨sq, b2, b3⟩, b4, b5⟩ := h2
  have hs : s = s2 := by
    by_contra hne
    rcases Nat.lt_or_gt_of_ne hne with l | l
    · exact b5 s a1 l sp (List.getElem?_mem a2) x a3.1 a3.2.1 a3.2.2.1
    · exact a5 s2 b1 l sq (List.getElem?_mem b2) x2 b3.1 b3.2.1 b3.2.2.1
  subst hs
  have hk : k = k2 := by
    by_contra hne
    rcases Nat.lt_or_gt_of_ne hne with l | l
    · exact b4 k sp l a2 x a3.1 a3.2.1 a3.2.2.1
    · exact a4 k2 sq l b2 x2 b3.1 b3.2.1 b3.2.2.1
  subst hk
  have hsp : sp = sq := by rw [a2] at b2; exact Option.some.inj b2
  subst hsp
  refine ⟨rfl, rfl, ?_⟩
  by_contra hne
  rcases Nat.lt_or_gt_of_ne hne with l | l
  · exact b3.2.2.2 x l a3.2.1 a3.2.2.1
  · exact a3.2.2.2 x2 l b3.2.1 b3.2.2.1

/-- Completeness: the page `first_fit` designates is the one returned. -/
theorem find_free_page_of_first_fit {m : binary_page_memory_resource_impl}
    (hall : ∀ sp ∈ m.m_superpages, sp.shaped) {g s k x : Nat} (hg : 8 ≤ g)
    (h : first_fit m.m_superpages g s k x) : find_free_page m g = .ok (some ⟨k, x⟩) := by
  rcases find_free_page_spec hall hg with ⟨_, h2⟩ | ⟨s2, k2, x2, h1, h2⟩
  · obtain ⟨a1, ⟨sp, a2, a3⟩, _, _⟩ := h
    exact absurd a3.2.2.1 (h2 s a1 sp (List.getElem?_mem a2) x a3.1 a3.2.1)
  · obtain ⟨_, e2, e3⟩ := first_fit_unique h h1
    rw [h2, e2, e3]

/-- Soundness: a page returned is the one `first_fit` designates. -/
theorem first_fit_of_find_free_page {m : binary_page_memory_resource_impl}
    (hall : ∀ sp ∈ m.m_superpages, sp.shaped) {g : Nat} (hg : 8 ≤ g) {c : page_ref}
    (h : find_free_page m g = .ok (some c)) :
    ∃ s, first_fit m.m_superpages g s c.m_superpage c.m_page := by
  rcases find_free_page_spec hall hg with ⟨h1, _⟩ | ⟨s2, k2, x2, h1, h2⟩
  · rw [h1] at h; simp at h
  · rw [h2] at h
    simp only [Except.ok.injEq, Option.some.injEq] at h
    subst h
    exact ⟨s2, h1⟩

/-- When nothing is returned, no page of the requested size or larger is `VACANT`. -/
theorem no_vacant_of_find_free_page {m : binary_page_memory_resource_impl}
    (hall : ∀ sp ∈ m.m_superpages, sp.shaped) {g : Nat} (hg : 8 ≤ g)
    (h : find_free_page m g = .ok none) :
    ∀ s, g ≤ s → ∀ sp ∈ m.m_superpages, sp.no_vacant s := by
  rcases find_free_page_spec hall hg with ⟨_, h2⟩ | ⟨s2, k2, x2, _, h2⟩
  · exact h2
  · rw [h2] at h; simp at h

/-! ## State changes, `split`, and the tree invariant -/

@[simp] theorem set_page_same (f : Nat → page_state) (i : Nat) (v : page_state) :
    set_page f i v i = v := by
  simp [set_page]

theorem set_page_other (f : Nat → page_state) {i j : Nat} (v : page_state) (h : j ≠ i) :
    set_page f i v j = f j := by
  simp [set_page, h]

@[simp] theorem with_pages_size (sp : superpage) (f : Nat → page_state) :
    (sp.with_pages f).m_size = sp.m_size := rfl

@[simp] theorem with_pages_num (sp : superpage) (f : Nat → page_state) :
    (sp.with_pages f).m_num_pages = sp.m_num_pages := rfl

@[simp] theorem with_pages_memory (sp : superpage) (f : Nat → page_state) :
    (sp.with_pages f).m_memory = sp.m_memory := rfl

@[simp] theorem with_pages_pages (sp : superpage) (f : Nat → page_state) :
    (sp.with_pages f).m_pages = f := rfl

@[simp] theorem with_pages_with_pages (sp : superpage) (f g : Nat → page_state) :
    (sp.with_pages f).with_pages g = sp.with_pages g := rfl

@[simp] theorem with_pages_self (sp : superpage) : sp.with_pages sp.m_pages = sp := rfl

@[simp] theorem get_size_with_pages (sp : superpage) (f : Nat → page_state) (i : Nat) :
    page_ref.get_size (sp.with_pages f) i = page_ref.get_size sp i := rfl

@[simp] theorem get_addr_with_pages (sp : superpage) (f : Nat → page_state) (i : Nat) :
    page_ref.get_addr (sp.with_pages f) i = page_ref.get_addr sp i := rfl

@[simp] theorem ctor_with_pages (sp : superpage) (f : Nat → page_state) (i : Nat) :
    page_ref.ctor (sp.with_pages f) i = page_ref.ctor sp i := rfl

theorem shaped_with_pages {sp : superpage} (h : sp.shaped) (f : Nat → page_state) :
    (sp.with_pages f).shaped := h

theorem change_state_ok {a b : page_state} {sp : superpage} {i : Nat} (h : sp.m_pages i = a) :
    page_ref.change_state a b sp i = .ok (sp.with_pages (set_page sp.m_pages i b)) := by
  unfold page_ref.change_state
  rw [if_pos h]

theorem change_state_inv {a b : page_state} {sp sp1 : superpage} {i : Nat}
    (h : page_ref.change_state a b sp i = .ok sp1) :
    sp.m_pages i = a ∧ sp1 = sp.with_pages (set_page sp.m_pages i b) := by
  unfold page_ref.change_state at h
  by_cases hc : sp.m_pages i = a
  · rw [if_pos hc] at h
    exact ⟨hc, (Except.ok.inj h).symm⟩
  · rw [if_neg hc] at h
    cases h

/-- The tree invariant only looks at which pages are `SPLIT` and which are
`NON_EXTANT`. -/
theorem tree_ok_congr {sp : superpage} (h : sp.tree_ok) (f : Nat → page_state)
    (h1 : ∀ j, f j = .SPLIT ↔ sp.m_pages j = .SPLIT)
    (h2 : ∀ j, f j = .NON_EXTANT ↔ sp.m_pages j = .NON_EXTANT) :
    (sp.with_pages f).tree_ok := by
  obtain ⟨a, b, c⟩ := h
  refine ⟨fun hc => a ((h2 0).1 hc), fun i hi => ⟨fun hs => ?_, fun hs => ?_⟩, fun i hi hl hs => ?_⟩
  · have := (b i hi).1 ((h1 i).1 hs)
    exact ⟨fun hc => this.1 ((h2 _).1 hc), fun hc => this.2 ((h2 _).1 hc)⟩
  · have := (b i hi).2 (fun hc => hs ((h1 i).2 hc))
    exact ⟨(h2 _).2 this.1, (h2 _).2 this.2⟩
  · exact c i hi hl ((h1 i).1 hs)

/-- Marking a `VACANT` page `OCCUPIED`, or an `OCCUPIED` page `VACANT`, keeps
the tree invariant. -/
theorem tree_ok_flip {sp : superpage} (h : sp.tree_ok) {i : Nat} {v : page_state}
    (hi : sp.m_pages i = .VACANT ∨ sp.m_pages i = .OCCUPIED)
    (hv : v = .VACANT ∨ v = .OCCUPIED) :
    (sp.with_pages (set_page sp.m_pages i v)).tree_ok := by
  apply tree_ok_congr h
  · intro j
    by_cases hj : j = i
    · subst hj; rcases hi with e | e <;> rcases hv with e2 | e2 <;> simp [e, e2]
    · rw [set_page_other _ _ hj]
  · intro j
    by_cases hj : j = i
    · subst hj; rcases hi with e | e <;> rcases hv with e2 | e2 <;> simp [e, e2]
    · rw [set_page_other _ _ hj]

theorem split_pages_self (f : Nat → page_state) (i : Nat) : split_pages f i i = .SPLIT := by
  unfold split_pages
  rw [set_page_other _ _ (show i ≠ 2 * i + 2 by omega),
    set_page_other _ _ (show i ≠ 2 * i + 1 by omega), set_page_same]

theorem split_pages_left (f : Nat → page_state) (i : Nat) :
    split_pages f i (2 * i + 1) = .VACANT := by
  unfold split_pages
  rw [set_page_other _ _ (show 2 * i + 1 ≠ 2 * i + 2 by omega), set_page_same]

theorem split_pages_right (f : Nat → page_state) (i : Nat) :
    split_pages f i (2 * i + 2) = .VACANT := by
  unfold split_pages
  rw [set_page_same]

theorem split_pages_other (f : Nat → page_state) {i j : Nat} (h0 : j ≠ i)
    (h1 : j ≠ 2 * i + 1) (h2 : j ≠ 2 * i + 2) : split_pages f i j = f j := by
  unfold split_pages
  rw [set_page_other _ _ h2, set_page_other _ _ h1, set_page_other _ _ h0]

theorem split_pages_cases (f : Nat → page_state) (i j : Nat) :
    (j = i ∧ split_pages f i j = .SPLIT) ∨
    ((j = 2 * i + 1 ∨ j = 2 * i + 2) ∧ split_pages f i j = .VACANT) ∨
    (j ≠ i ∧ j ≠ 2 * i + 1 ∧ j ≠ 2 * i + 2 ∧ split_pages f i j = f j) := by
  by_cases h0 : j = i
  · left; exact ⟨h0, by rw [h0]; exact split_pages_self f i⟩
  · by_cases h1 : j = 2 * i + 1
    · right; left; exact ⟨Or.inl h1, by rw [h1]; exact split_pages_left f i⟩
    · by_cases h2 : j = 2 * i + 2
      · right; left; exact ⟨Or.inr h2, by rw [h2]; exact split_pages_right f i⟩
      · right; right; exact ⟨h0, h1, h2, split_pages_other f h0 h1 h2⟩

/-- Page table after `split` of page `i`. -/
theorem split_ok {sp : superpage} (hsh : sp.shaped) (ht : sp.tree_ok) {i : Nat}
    (hi : i < sp.m_num_pages) (hs : 8 < page_ref.get_size sp i)
    (hv : sp.m_pages i = .VACANT) :
    page_ref.split sp i = .ok (sp.with_pages (split_pages sp.m_pages i)) := by
  obtain ⟨hc, _, _⟩ := children_valid hsh hi hs
  have hne := (ht.2.1 i hc).2 (by rw [hv]; simp)
  have hcard := valid_lt_card hsh hi
  unfold page_ref.split page_ref.change_state_vacant_to_split
    page_ref.change_state_non_extant_to_vacant page_ref.left_child page_ref.right_child
  rw [change_state_ok hv]
  simp only [bind, Except.bind, left_index hcard, right_index hcard, ctor_with_pages]
  rw [page_ref_ctor_ok (show 2 * i + 1 < sp.m_num_pages by omega)]
  simp only []
  rw [change_state_ok (by
    simp only [with_pages_pages, set_page_other _ _ (show 2 * i + 1 ≠ i by omega)]; exact hne.1)]
  simp only [ctor_with_pages]
  rw [page_ref_ctor_ok (show 2 * i + 2 < sp.m_num_pages by omega)]
  simp only []
  rw [change_state_ok (by
    simp only [with_pages_pages, set_page_other _ _ (show 2 * i + 2 ≠ 2 * i + 1 by omega),
      set_page_other _ _ (show 2 * i + 2 ≠ i by omega)]; exact hne.2)]
  rfl

/-- `split` keeps the tree invariant. -/
theorem tree_ok_split {sp : superpage} (ht : sp.tree_ok) {i : Nat}
    (hc : 2 * i + 2 < sp.m_num_pages) (hv : sp.m_pages i = .VACANT) :
    (sp.with_pages (split_pages sp.m_pages i)).tree_ok := by
  obtain ⟨a, b, c⟩ := ht
  have hne := (b i hc).2 (by rw [hv]; simp)
  refine ⟨?_, fun j hj => ⟨fun hs => ?_, fun hs => ?_⟩, fun j hj hl => ?_⟩
  · simp only [with_pages_pages]
    rcases split_pages_cases sp.m_pages i 0 with ⟨_, e⟩ | ⟨_, e⟩ | ⟨_, _, _, e⟩
    · rw [e]; simp
    · rw [e]; simp
    · rw [e]; exact a
  · simp only [with_pages_pages, with_pages_num] at hs hj ⊢
    have bj := b j hj
    rcases split_pages_cases sp.m_pages i j with ⟨e0, e⟩ | ⟨e0, e⟩ | ⟨n0, n1, n2, e⟩
    · rw [e0, split_pages_left, split_pages_right]; simp
    · rw [e] at hs; cases hs
    · rw [e] at hs
      have bj1 := bj.1 hs
      constructor
      · rcases split_pages_cases sp.m_pages i (2 * j + 1) with ⟨_, e⟩ | ⟨_, e⟩ | ⟨_, _, _, e⟩
        · rw [e]; simp
        · rw [e]; simp
        · rw [e]; exact bj1.1
      · rcases split_pages_cases sp.m_pages i (2 * j + 2) with ⟨_, e⟩ | ⟨_, e⟩ | ⟨_, _, _, e⟩
        · rw [e]; simp
        · rw [e]; simp
        · rw [e]; exact bj1.2
  · simp only [with_pages_pages, with_pages_num] at hs hj ⊢
    have bj := b j hj
    rcases split_pages_cases sp.m_pages i j with ⟨e0, e⟩ | ⟨e0, e⟩ | ⟨n0, n1, n2, e⟩
    · exact absurd e hs
    · have hjn : sp.m_pages j = .NON_EXTANT := by
        rcases e0 with e0 | e0 <;> rw [e0]
        · exact hne.1
        · exact hne.2
      have bj2 := bj.2 (by rw [hjn]; simp)
      rw [split_pages_other _ (by omega) (by omega) (by omega),
        split_pages_other _ (by omega) (by omega) (by omega)]
      exact bj2
    · rw [e] at hs
      have bj2 := bj.2 hs
      constructor
      · rcases split_pages_cases sp.m_pages i (2 * j + 1) with ⟨e1, _⟩ | ⟨e1, _⟩ | ⟨_, _, _, e⟩
        · rw [e1, hv] at bj2; cases bj2.1
        · omega
        · rw [e]; exact bj2.1
      · rcases split_pages_cases sp.m_pages i (2 * j + 2) with ⟨e1, _⟩ | ⟨e1, _⟩ | ⟨_, _, _, e⟩
        · rw [e1, hv] at bj2; cases bj2.2
        · omega
        · rw [e]; exact bj2.2
  · simp only [with_pages_pages, with_pages_num] at hj hl ⊢
    rcases split_pages_cases sp.m_pages i j with ⟨e0, e⟩ | ⟨e0, e⟩ | ⟨n0, n1, n2, e⟩
    · omega
    · rw [e]; simp
    · rw [e]; exact c j hj hl

/-! ## The split loop of `do_allocate` -/

theorem left_child_ok {sp : superpage} (hsh : sp.shaped) {i : Nat}
    (hc : 2 * i + 1 < sp.m_num_pages) : page_ref.left_child sp i = .ok (2 * i + 1) := by
  unfold page_ref.left_child
  rw [left_index (valid_lt_card hsh (show i < sp.m_num_pages by omega)), page_ref_ctor_ok hc]

/-- Effect of the split loop started on a `VACANT` page `q` at least as large as
`goal`: it ends on the leftmost descendant `c` of `q` of size `goal`, which is
`VACANT`; only pages that were `VACANT` or `NON_EXTANT` change, and among the
pages of size `goal` only `c` and `c + 1` can change. -/
theorem split_loop_spec {goal : Nat} (hg : 8 ≤ goal) :
    ∀ (n : Nat) (sp : superpage) (q : Nat), sp.shaped → sp.tree_ok → q < sp.m_num_pages →
      sp.m_pages q = .VACANT → goal ≤ page_ref.get_size sp q →
      page_ref.get_size sp q - goal < n →
      ∃ f c, split_loop goal n sp q = .ok (sp.with_pages f, c) ∧ split_post sp goal q f c := by
  intro n
  induction n with
  | zero => intro sp q _ _ _ _ _ h; omega
  | succ n ih =>
    intro sp q hsh ht hq hv hge hn
    unfold split_loop
    by_cases hgt : page_ref.get_size sp q > goal
    · rw [if_pos hgt]
      have hs8 : 8 < page_ref.get_size sp q := by omega
      obtain ⟨hc, hl, hr⟩ := children_valid hsh hq hs8
      have hne := (ht.2.1 q hc).2 (by rw [hv]; simp)
      rw [split_ok hsh ht hq hs8 hv]
      simp only []
      rw [left_child_ok (shaped_with_pages hsh _) (by simp only [with_pages_num]; omega)]
      simp only []
      obtain ⟨f, c, h1, h2, h3, h4, h5, h6, h7, h8, h9⟩ :=
        ih (sp.with_pages (split_pages sp.m_pages q)) (2 * q + 1) (shaped_with_pages hsh _)
          (tree_ok_split ht hc hv) (by simp only [with_pages_num]; omega)
          (by simp only [with_pages_pages]; exact split_pages_left _ _)
          (by simp only [get_size_with_pages]; omega)
          (by simp only [get_size_with_pages]; omega)
      simp only [with_pages_with_pages, with_pages_num, get_size_with_pages,
        with_pages_pages] at h1 h2 h3 h4 h5 h6 h7 h8 h9
      have hc1 : c + 1 = 2 ^ (page_ref.get_size sp q - goal) * (q + 1) := by
        rw [h6, hl]
        have e : page_ref.get_size sp q - goal = (page_ref.get_size sp q - 1 - goal) + 1 := by
          omega
        rw [e, Nat.pow_succ]
        ring
      have hcase : page_ref.get_size sp (2 * q + 1) = goal → c = 2 * q + 1 := by
        intro e
        rw [e, Nat.sub_self, Nat.pow_zero, Nat.one_mul] at h6
        omega
      refine ⟨f, c, h1, h2, h3, h4, h5, hc1, fun _ => ?_, fun e => by omega, fun i hi => ?_⟩
      · by_cases hlt : goal < page_ref.get_size sp (2 * q + 1)
        · exact h7 hlt
        · have e : page_ref.get_size sp (2 * q + 1) = goal := by omega
          rw [h8 e, hcase e]
          exact split_pages_right _ _
      · by_cases hfi : f i = split_pages sp.m_pages q i
        · rw [hfi] at hi ⊢
          rcases split_pages_cases sp.m_pages q i with ⟨e0, e⟩ | ⟨e0, e⟩ | ⟨_, _, _, e⟩
          · rw [e, e0]
            exact ⟨hq, Or.inl hv, Or.inr rfl, Or.inl hgt⟩
          · rw [e]
            refine ⟨by omega, Or.inr ?_, Or.inl rfl, ?_⟩
            · rcases e0 with e0 | e0 <;> rw [e0]
              · exact hne.1
              · exact hne.2
            · by_cases hlt : goal < page_ref.get_size sp (2 * q + 1)
              · left
                rcases e0 with e0 | e0 <;> rw [e0] <;> omega
              · right
                have := hcase (by omega)
                omega
          · exact absurd e hi
        · obtain ⟨g1, g2, g3, g4⟩ := h9 i hfi
          refine ⟨g1, ?_, g3, g4⟩
          rcases split_pages_cases sp.m_pages q i with ⟨e0, e⟩ | ⟨e0, e⟩ | ⟨_, _, _, e⟩
          · rw [e] at g2; rcases g2 with g2 | g2 <;> cases g2
          · right
            rcases e0 with e0 | e0 <;> rw [e0]
            · exact hne.1
            · exact hne.2
          · rw [e] at g2; exact g2
    · rw [if_neg hgt]
      have e : page_ref.get_size sp q = goal := by omega
      refine ⟨sp.m_pages, q, rfl, ht, hq, e, hv, ?_, fun h => by omega, fun _ => rfl,
        fun i hi => absurd rfl hi⟩
      rw [e, Nat.sub_self, Nat.pow_zero, Nat.one_mul]

/-! ## Addresses -/

/-- Address of a valid page at depth `d`: the `(i + 1 - 2 ^ d)`-th block of
`2 ^ (m_size - d)` bytes of the superpage. -/
theorem get_addr_eq {sp : superpage} (h : sp.shaped) {i : Nat} (hi : i < sp.m_num_pages) :
    ∃ d, at_depth i d ∧ d ≤ sp.m_size - 8 ∧ page_ref.get_size sp i = sp.m_size - d ∧
      page_ref.get_addr sp i = sp.m_memory + (i + 1 - 2 ^ d) * 2 ^ (sp.m_size - d) := by
  obtain ⟨d, hdep, hd, hsz⟩ := get_size_valid h hi
  have h8 : 8 ≤ sp.m_size := h.1
  have h63 : sp.m_size ≤ 63 := h.2.1
  refine ⟨d, hdep, hd, hsz, ?_⟩
  unfold page_ref.get_addr
  simp only [hsz]
  have e1 : sub64 sp.m_size (sp.m_size - d) = d := by
    rw [sub64_eq (by omega) (lt_of_le_of_lt h63 (by norm_num))]; omega
  have hpos : 0 < 2 ^ d := by positivity
  have hdlt : 2 ^ d < 2 ^ 64 := two_pow_lt_card (by omega)
  have e2 : sub64 (shl64 1 d) 1 = 2 ^ d - 1 := by
    rw [shl64_one (by omega), sub64_eq (by omega) hdlt]
  have hi64 : i < 2 ^ 64 := lt_trans (valid_lt_card h hi) (by norm_num)
  have e3 : sub64 i (2 ^ d - 1) = i + 1 - 2 ^ d := by
    rw [sub64_eq (by unfold at_depth at hdep; omega) hi64]; omega
  have hlt : (i + 1 - 2 ^ d) * 2 ^ (sp.m_size - d) < 2 ^ 64 := by
    have hdep2 := hdep.2
    rw [Nat.pow_succ] at hdep2
    calc (i + 1 - 2 ^ d) * 2 ^ (sp.m_size - d)
        < 2 ^ d * 2 ^ (sp.m_size - d) :=
          Nat.mul_lt_mul_of_pos_right (by omega) (by positivity)
      _ = 2 ^ sp.m_size := by
          have e : d + (sp.m_size - d) = sp.m_size := by omega
          rw [← Nat.pow_add, e]
      _ < 2 ^ 64 := two_pow_lt_card h63
  rw [e1, e2, e3, shl64_one (by omega), mul64_eq hlt]

/-- The address of a valid page of size `g` is the superpage base plus a
multiple of `2 ^ g`, and the page ends inside the superpage. -/
theorem get_addr_bounds {sp : superpage} (h : sp.shaped) {i : Nat} (hi : i < sp.m_num_pages) :
    ∃ r, page_ref.get_addr sp i = sp.m_memory + r * 2 ^ page_ref.get_size sp i ∧
      r * 2 ^ page_ref.get_size sp i + 2 ^ page_ref.get_size sp i ≤ 2 ^ sp.m_size ∧
      i = 2 ^ (sp.m_size - page_ref.get_size sp i) - 1 + r := by
  obtain ⟨d, hdep, hd, hsz, haddr⟩ := get_addr_eq h hi
  have h8 : 8 ≤ sp.m_size := h.1
  refine ⟨i + 1 - 2 ^ d, by rw [haddr, hsz], ?_, ?_⟩
  · rw [hsz]
    have hdep2 := hdep.2
    rw [Nat.pow_succ] at hdep2
    have hr : i + 1 - 2 ^ d + 1 ≤ 2 ^ d := by omega
    calc (i + 1 - 2 ^ d) * 2 ^ (sp.m_size - d) + 2 ^ (sp.m_size - d)
        = (i + 1 - 2 ^ d + 1) * 2 ^ (sp.m_size - d) := by ring
      _ ≤ 2 ^ d * 2 ^ (sp.m_size - d) := Nat.mul_le_mul_right _ hr
      _ = 2 ^ sp.m_size := by
          have e : d + (sp.m_size - d) = sp.m_size := by omega
          rw [← Nat.pow_add, e]
  · rw [hsz]
    have e : sp.m_size - (sp.m_size - d) = d := by omega
    rw [e]
    have := hdep.1
    have hpos : 0 < 2 ^ d := by positivity
    omega

/-! ## Fresh superpages and upstream acquisition -/

theorem fresh_superpage_shaped {size : Nat} (h8 : 8 ≤ size) (h63 : size ≤ 63) (base : Nat) :
    (fresh_superpage size base).shaped :=
  ⟨h8, h63, rfl⟩

theorem fresh_superpage_tree_ok (size base : Nat) : (fresh_superpage size base).tree_ok := by
  refine ⟨by simp [fresh_superpage], fun i _ => ⟨fun hs => ?_, fun _ => ?_⟩, fun i _ _ => ?_⟩
  · simp only [fresh_superpage] at hs
    split_ifs at hs
  · simp [fresh_superpage]
  · simp only [fresh_superpage]
    split_ifs <;> simp

theorem superpage_ctor_eq {size : Nat} (h8 : 8 ≤ size) (h63 : size ≤ 63)
    (up : memory_resource) (host : host_heap) :
    superpage.ctor size up host =
      if host.page_states (2 * 2 ^ (size - min_page_size) - 1) then
        match up (2 ^ size) with
        | none => .error .bad_alloc
        | some base => .ok (fresh_superpage size base)
      else .error .bad_alloc := by
  unfold superpage.ctor
  rw [shl64_one h63]
  have e1 : sub64 size min_page_size = size - min_page_size := by
    unfold min_page_size
    rw [sub64_eq h8 (lt_of_le_of_lt h63 (by norm_num))]
  have hlt : 2 * 2 ^ (size - min_page_size) < 2 ^ 64 := by
    unfold min_page_size
    have : 2 ^ (size - 8 + 1) < 2 ^ 64 := two_pow_lt_card (by omega)
    rw [Nat.pow_succ] at this
    omega
  have e2 : shl64 2 (size - min_page_size) = 2 * 2 ^ (size - min_page_size) := by
    unfold shl64; exact Nat.mod_eq_of_lt hlt
  have hpos : 0 < 2 ^ (size - min_page_size) := by positivity
  have e3 : sub64 (2 * 2 ^ (size - min_page_size)) 1 = 2 * 2 ^ (size - min_page_size) - 1 :=
    sub64_eq (by omega) hlt
  rw [e1, e2, e3]
  rfl

/-- `allocate_upstream` when the host heap grants its requests: the outcome is
decided by the upstream. -/
theorem allocate_upstream_eq (up : memory_resource) {host : host_heap}
    {m : binary_page_memory_resource_impl} {g : Nat} (hg : g ≤ 63)
    (hh : host_grants host m g) :
    allocate_upstream up host m g =
      match up (2 ^ max g new_page_size) with
      | none => .error .bad_alloc
      | some base =>
        .ok { m_superpages := m.m_superpages ++ [fresh_superpage (max g new_page_size) base] } := by
  unfold allocate_upstream
  have h8 : 8 ≤ max g new_page_size := by unfold new_page_size; omega
  have h63 : max g new_page_size ≤ 63 := by unfold new_page_size; omega
  rw [superpage_ctor_eq h8 h63, if_pos hh.1, if_pos hh.2]
  cases up (2 ^ max g new_page_size) <;> rfl

/-- `allocate_upstream` when the host heap refuses one of its requests:
`std::bad_alloc`, whatever the upstream would answer. -/
theorem allocate_upstream_refused (up : memory_resource) {host : host_heap}
    {m : binary_page_memory_resource_impl} {g : Nat} (hg : g ≤ 63)
    (hh : ¬ host_grants host m g) :
    allocate_upstream up host m g = .error .bad_alloc := by
  unfold allocate_upstream
  have h8 : 8 ≤ max g new_page_size := by unfold new_page_size; omega
  have h63 : max g new_page_size ≤ 63 := by unfold new_page_size; omega
  rw [superpage_ctor_eq h8 h63]
  by_cases h1 : host.superpages m.m_superpages.length = true
  · have h2 : ¬ host.page_states (2 * 2 ^ (max g new_page_size - min_page_size) - 1) = true :=
      fun h2 => hh ⟨h1, h2⟩
    rw [if_pos h1, if_neg h2]
  · rw [if_neg h1]

theorem host_grants_granting (m : binary_page_memory_resource_impl) (g : Nat) :
    host_grants host_granting m g := ⟨rfl, rfl⟩

/-! ## `do_allocate`, step by step -/

/-- Lines 105-128 on a `VACANT` candidate `q` at least as large as `goal`: the
split loop runs and its final page is marked `OCCUPIED`. -/
theorem occupy_candidate_spec {goal : Nat} (hg : 8 ≤ goal) {sp : superpage} {q : Nat}
    (hsh : sp.shaped) (ht : sp.tree_ok) (hq : q < sp.m_num_pages)
    (hv : sp.m_pages q = .VACANT) (hge : goal ≤ page_ref.get_size sp q) :
    ∃ f c, split_post sp goal q f c ∧
      occupy_candidate goal sp q = .ok (sp.with_pages (set_page f c .OCCUPIED), c) := by
  have h63 : page_ref.get_size sp q ≤ 63 := le_trans (get_size_ge hsh hq).2 hsh.2.1
  obtain ⟨f, c, h1, h2⟩ := split_loop_spec hg 64 sp q hsh ht hq hv hge (by omega)
  refine ⟨f, c, h2, ?_⟩
  unfold occupy_candidate
  have hns : ¬ page_ref.get_state sp q = .SPLIT := by
    unfold page_ref.get_state; rw [hv]; simp
  rw [if_neg hns]
  simp only [bind, Except.bind, pure, Except.pure, h1]
  unfold page_ref.change_state_vacant_to_occupied
  rw [change_state_ok (by simp only [with_pages_pages]; exact h2.2.2.2.1)]
  rfl

/-- Lines 105-128 on the engine, for a candidate that is `VACANT` and large
enough. -/
theorem occupy_spec {m : binary_page_memory_resource_impl} {goal k q : Nat} (hg : 8 ≤ goal)
    {sp : superpage} (hsp : m.m_superpages[k]? = some sp)
    (hsh : sp.shaped) (ht : sp.tree_ok) (hq : q < sp.m_num_pages)
    (hv : sp.m_pages q = .VACANT) (hge : goal ≤ page_ref.get_size sp q) :
    ∃ f c, split_post sp goal q f c ∧
      occupy m goal ⟨k, q⟩ =
        (.ok ⟨k, c⟩,
          { m_superpages := m.m_superpages.set k (sp.with_pages (set_page f c .OCCUPIED)) }) := by
  obtain ⟨f, c, h1, h2⟩ := occupy_candidate_spec hg hsh ht hq hv hge
  refine ⟨f, c, h1, ?_⟩
  unfold occupy
  simp only [hsp, h2]

/-- What `first_fit` says about the page it designates. -/
theorem first_fit_page {sps : List superpage} {g s k x : Nat} (h : first_fit sps g s k x) :
    ∃ sp, sps[k]? = some sp ∧ x < sp.m_num_pages ∧ sp.m_pages x = .VACANT ∧
      page_ref.get_size sp x = s ∧ g ≤ s := by
  obtain ⟨a1, ⟨sp, a2, a3, a4, a5, _⟩, _, _⟩ := h
  exact ⟨sp, a2, a3, a5, a4, a1⟩

theorem fresh_superpage_first_vacant {size : Nat} (h8 : 8 ≤ size) (h63 : size ≤ 63)
    (base : Nat) : (fresh_superpage size base).first_vacant size 0 := by
  have hsh := fresh_superpage_shaped h8 h63 base
  have hpos : 0 < 2 ^ (size - 8) := by positivity
  refine ⟨?_, ?_, ?_, fun j hj => by omega⟩
  · show 0 < 2 * 2 ^ (size - min_page_size) - 1
    unfold min_page_size; omega
  · have := @get_size_eq (fresh_superpage size base) 0 0 h63 (Nat.zero_le _) at_depth_zero
    simpa [fresh_superpage] using this
  · simp [fresh_superpage]

theorem fresh_superpage_no_vacant {size : Nat} (h8 : 8 ≤ size) (h63 : size ≤ 63)
    (base : Nat) {s : Nat} (hs : s ≠ size) : (fresh_superpage size base).no_vacant s := by
  intro i hi hsz
  have hsh := fresh_superpage_shaped h8 h63 base
  by_cases h0 : i = 0
  · subst h0
    have := @get_size_eq (fresh_superpage size base) 0 0 h63 (Nat.zero_le _) at_depth_zero
    rw [hsz] at this
    simp [fresh_superpage] at this
    omega
  · simp [fresh_superpage, h0]

/-- After an upstream acquisition the retry finds the root of the new
superpage. -/
theorem first_fit_after_upstream {m : binary_page_memory_resource_impl} {g : Nat}
    (hall : ∀ sp ∈ m.m_superpages, sp.shaped) (hg : 8 ≤ g) (hg63 : g ≤ 63)
    (hnone : find_free_page m g = .ok none) (base : Nat) :
    first_fit (m.m_superpages ++ [fresh_superpage (max g new_page_size) base]) g
      (max g new_page_size) m.m_superpages.length 0 := by
  have hnv := no_vacant_of_find_free_page hall hg hnone
  have h8 : 8 ≤ max g new_page_size := by unfold new_page_size; omega
  have h63 : max g new_page_size ≤ 63 := by unfold new_page_size; omega
  refine ⟨le_max_left _ _, ⟨fresh_superpage (max g new_page_size) base, by simp,
    fresh_superpage_first_vacant h8 h63 base⟩, fun j sp hj hget => ?_, fun t ht1 ht2 sp hsp => ?_⟩
  · rw [List.getElem?_append_left hj] at hget
    exact hnv _ (le_max_left _ _) sp (List.getElem?_mem hget)
  · rcases List.mem_append.1 hsp with e | e
    · exact hnv t ht1 sp e
    · rw [List.mem_singleton.1 e]
      exact fresh_superpage_no_vacant h8 h63 base (by omega)

/-- The three ways `do_allocate` can go on an engine whose superpages are
well-shaped: a page is found at once; nothing is found and `allocate_upstream`
throws `std::bad_alloc` because the host heap or the upstream refuses; nothing
is found, host heap and upstream deliver, and the retry finds the root of the
new superpage. -/
theorem do_allocate_cand_cases (up : memory_resource) (host : host_heap)
    {m : binary_page_memory_resource_impl}
    (hall : ∀ sp ∈ m.m_superpages, sp.shaped) (n : Nat) :
    (∃ s k q, first_fit m.m_superpages (goal_of n) s k q ∧
      find_free_page m (goal_of n) = .ok (some ⟨k, q⟩) ∧
      do_allocate_cand up host m n = occupy m (goal_of n) ⟨k, q⟩) ∨
    (find_free_page m (goal_of n) = .ok none ∧
      (¬ host_grants host m (goal_of n) ∨ up (2 ^ max (goal_of n) new_page_size) = none) ∧
      allocate_upstream up host m (goal_of n) = .error .bad_alloc ∧
      do_allocate_cand up host m n = (.error .bad_alloc, m)) ∨
    (∃ base, find_free_page m (goal_of n) = .ok none ∧
      up (2 ^ max (goal_of n) new_page_size) = some base ∧
      first_fit (m.m_superpages ++ [fresh_superpage (max (goal_of n) new_page_size) base])
        (goal_of n) (max (goal_of n) new_page_size) m.m_superpages.length 0 ∧
      do_allocate_cand up host m n =
        occupy ⟨m.m_superpages ++ [fresh_superpage (max (goal_of n) new_page_size) base]⟩
          (goal_of n) ⟨m.m_superpages.length, 0⟩ ∧
      host_grants host m (goal_of n)) := by
  have hg := goal_of_ge n
  have hg31 := goal_of_le n
  have hg63 : goal_of n ≤ 63 := by omega
  rcases find_free_page_spec hall hg with ⟨h1, h2⟩ | ⟨s, k, x, h1, h2⟩
  · right
    by_cases hh : host_grants host m (goal_of n)
    · have hup := allocate_upstream_eq up hg63 hh
      cases hb : up (2 ^ max (goal_of n) new_page_size) with
      | none =>
        left
        rw [hb] at hup
        refine ⟨h1, Or.inr rfl, hup, ?_⟩
        unfold do_allocate_cand
        simp only [h1, hup]
      | some base =>
        right
        rw [hb] at hup
        have hff := first_fit_after_upstream hall hg (by omega) h1 base
        have hall1 : ∀ sp ∈ (binary_page_memory_resource_impl.mk (m.m_superpages ++
            [fresh_superpage (max (goal_of n) new_page_size) base])).m_superpages,
            sp.shaped := by
          intro sp hsp
          rcases List.mem_append.1 hsp with e | e
          · exact hall sp e
          · rw [List.mem_singleton.1 e]
            exact fresh_superpage_shaped (by unfold new_page_size; omega)
              (by unfold new_page_size; omega) base
        have hfind := find_free_page_of_first_fit hall1 hg hff
        refine ⟨base, h1, rfl, hff, ?_, hh⟩
        unfold do_allocate_cand
        simp only [h1, hup, hfind]
    · left
      have hup := allocate_upstream_refused up hg63 hh
      refine ⟨h1, Or.inl hh, hup, ?_⟩
      unfold do_allocate_cand
      simp only [h1, hup]
  · left
    refine ⟨s, k, x, h1, h2, ?_⟩
    unfold do_allocate_cand
    simp only [h2]

/-! ## List lemmas -/

theorem pairwise_set {α : Type} {R : α → α → Prop} :
    ∀ {l : List α} {k : Nat} {a b : α}, l.Pairwise R → l[k]? = some a →
      (∀ x, R a x → R b x) → (∀ x, R x a → R x b) → (l.set k b).Pairwise R := by
  intro l
  induction l with
  | nil => intro k a b h _ _ _; simp
  | cons x xs ih =>
    intro k a b h hk h1 h2
    rw [List.pairwise_cons] at h
    cases k with
    | zero =>
      simp only [List.getElem?_cons_zero, Option.some.injEq] at hk
      subst hk
      simp only [List.set_cons_zero, List.pairwise_cons]
      exact ⟨fun y hy => h1 y (h.1 y hy), h.2⟩
    | succ k =>
      simp only [List.getElem?_cons_succ] at hk
      simp only [List.set_cons_succ, List.pairwise_cons]
      refine ⟨fun y hy => ?_, ih h.2 hk h1 h2⟩
      rcases List.mem_or_eq_of_mem_set hy with e | e
      · exact h.1 y e
      · rw [e]; exact h2 x (h.1 a (List.getElem?_mem hk))

theorem erase_page_ne :
    ∀ {live : List allocation} {e : allocation},
      live.Pairwise (fun a b => a.page ≠ b.page) → e ∈ live →
      ∀ e2 ∈ live.erase e, e2.page ≠ e.page := by
  intro live
  induction live with
  | nil => intro e _ h; simp at h
  | cons x xs ih =>
    intro e hp he e2 he2
    rw [List.pairwise_cons] at hp
    by_cases hx : x = e
    · subst hx
      rw [List.erase_cons_head] at he2
      exact fun hc => hp.1 e2 he2 hc.symm
    · rw [List.erase_cons_tail (by simpa using hx)] at he2
      have he' : e ∈ xs := by
        rcases List.mem_cons.1 he with h | h
        · exact absurd h.symm hx
        · exact h
      rcases List.mem_cons.1 he2 with h | h
      · rw [h]; exact hp.1 e he'
      · exact ih hp.2 he' e2 h

theorem getElem?_lt {α : Type} {l : List α} {k : Nat} {a : α} (h : l[k]? = some a) :
    k < l.length := by
  by_contra hc
  rw [List.getElem?_eq_none (by omega)] at h
  cases h

/-! ## `do_deallocate` -/

theorem disjoint_memory_congr_left {a b x : superpage} (h1 : a.m_memory = b.m_memory)
    (h2 : a.m_size = b.m_size) (h : disjoint_memory a x) : disjoint_memory b x := by
  unfold disjoint_memory at *
  rw [← h1, ← h2]; exact h

theorem disjoint_memory_congr_right {a b x : superpage} (h1 : a.m_memory = b.m_memory)
    (h2 : a.m_size = b.m_size) (h : disjoint_memory x a) : disjoint_memory x b := by
  unfold disjoint_memory at *
  rw [← h1, ← h2]; exact h

/-- The superpage lookup of `do_deallocate` finds the superpage whose byte
range contains the pointer. -/
theorem find_superpage_spec {p : Nat} :
    ∀ {sps : List superpage} {k : Nat} {sp : superpage} (k0 : Nat),
      (∀ a ∈ sps, a.m_size ≤ 63) → sps.Pairwise disjoint_memory → sps[k]? = some sp →
      sp.m_memory ≤ p → p < sp.m_memory + 2 ^ sp.m_size →
      find_superpage p sps k0 = some (k0 + k, sp) := by
  intro sps
  induction sps with
  | nil => intro k sp k0 _ _ h; simp at h
  | cons x xs ih =>
    intro k sp k0 h63 hp hk hlo hhi
    rw [List.pairwise_cons] at hp
    unfold find_superpage
    rw [shl64_one (h63 x (List.mem_cons_self _ _))]
    cases k with
    | zero =>
      simp only [List.getElem?_cons_zero, Option.some.injEq] at hk
      subst hk
      rw [if_pos ⟨hlo, hhi⟩]
      rfl
    | succ k =>
      simp only [List.getElem?_cons_succ] at hk
      have hd := hp.1 sp (List.getElem?_mem hk)
      have hneg : ¬ (x.m_memory ≤ p ∧ x.m_memory + 2 ^ x.m_size > p) := by
        unfold disjoint_memory at hd
        omega
      rw [if_neg hneg, ih (k0 + 1) (fun a ha => h63 a (List.mem_cons_of_mem _ ha)) hp.2 hk hlo hhi]
      have e : k0 + 1 + k = k0 + (k + 1) := by omega
      rw [e]

/-- `do_deallocate` on a live allocation: the call returns and the page of the
allocation, and no other, goes from `OCCUPIED` to `VACANT`. -/
theorem do_deallocate_spec {m : binary_page_memory_resource_impl} {live : List allocation}
    (hok : engine_ok m live) {e : allocation} (he : e ∈ live) :
    ∃ sp, m.m_superpages[e.page.m_superpage]? = some sp ∧
      e.page.m_page < sp.m_num_pages ∧ sp.m_pages e.page.m_page = .OCCUPIED ∧
      do_deallocate m e.p e.bytes =
        (.ok (), ⟨m.m_superpages.set e.page.m_superpage
          (sp.with_pages (set_page sp.m_pages e.page.m_page .VACANT))⟩) := by
  obtain ⟨E1, E2, E3, _⟩ := hok
  obtain ⟨sp, hsp, hi, hocc, hsz, haddr⟩ := E3 e he
  refine ⟨sp, hsp, hi, hocc, ?_⟩
  have hmem := List.getElem?_mem hsp
  obtain ⟨hsh, _, _⟩ := E1 sp hmem
  obtain ⟨r, hr1, hr2, hr3⟩ := get_addr_bounds hsh hi
  rw [hsz, haddr] at hr1
  rw [hsz] at hr2 hr3
  have hg := goal_of_ge e.bytes
  have hgS : goal_of e.bytes ≤ sp.m_size := by rw [← hsz]; exact (get_size_ge hsh hi).2
  have hpos : 0 < 2 ^ goal_of e.bytes := by positivity
  have hfs := find_superpage_spec (p := e.p) 0 (fun a ha => (E1 a ha).1.2.1) E2 hsp
    (by omega) (by omega)
  rw [Nat.zero_add] at hfs
  unfold do_deallocate
  simp only [hfs, first_page_of_size_eq hsh hg hgS]
  have h63 : goal_of e.bytes ≤ 63 := le_trans hgS hsh.2.1
  have hdiv : (e.p - sp.m_memory) / shl64 1 (goal_of e.bytes) = r := by
    rw [shl64_one h63, hr1, Nat.add_sub_cancel_left, Nat.mul_div_cancel _ hpos]
  have hidx : add64 (2 ^ (sp.m_size - goal_of e.bytes) - 1) r = e.page.m_page := by
    rw [add64_eq (by rw [← hr3]; exact lt_trans (valid_lt_card hsh hi) (by norm_num)), ← hr3]
  rw [hdiv, hidx, page_ref_ctor_ok hi]
  simp only []
  unfold page_ref.change_state_occupied_to_vacant
  rw [change_state_ok hocc]

/-! ## The invariant is kept by `do_allocate` and `do_deallocate` -/

theorem recorded_set_other {m : binary_page_memory_resource_impl} {e : allocation}
    (h : e.recorded m) {k : Nat} {sp : superpage} (f : Nat → page_state)
    (hsp : m.m_superpages[k]? = some sp)
    (hf : e.page.m_superpage = k → f e.page.m_page = .OCCUPIED) :
    e.recorded ⟨m.m_superpages.set k (sp.with_pages f)⟩ := by
  obtain ⟨sp2, h1, h2, h3, h4, h5⟩ := h
  by_cases hk : e.page.m_superpage = k
  · have hsame : sp2 = sp := by
      rw [hk, hsp] at h1; exact (Option.some.inj h1).symm
    subst hsame
    refine ⟨sp2.with_pages f, ?_, h2, hf hk, h4, h5⟩
    show (m.m_superpages.set k (sp2.with_pages f))[e.page.m_superpage]? = _
    rw [hk, List.getElem?_set_self (getElem?_lt hsp)]
  · refine ⟨sp2, ?_, h2, h3, h4, h5⟩
    show (m.m_superpages.set k (sp.with_pages f))[e.page.m_superpage]? = _
    rw [List.getElem?_set_ne (fun hc => hk hc.symm)]
    exact h1

theorem superpages_set_ok {m : binary_page_memory_resource_impl}
    (E1 : ∀ sp ∈ m.m_superpages, sp.shaped ∧ sp.tree_ok ∧ sp.m_size ≤ 31)
    (E2 : m.m_superpages.Pairwise disjoint_memory) {k : Nat} {sp : superpage}
    (hsp : m.m_superpages[k]? = some sp) {f : Nat → page_state}
    (ht : (sp.with_pages f).tree_ok) :
    (∀ a ∈ m.m_superpages.set k (sp.with_pages f), a.shaped ∧ a.tree_ok ∧ a.m_size ≤ 31) ∧
      (m.m_superpages.set k (sp.with_pages f)).Pairwise disjoint_memory := by
  have hmem := List.getElem?_mem hsp
  constructor
  · intro a ha
    rcases List.mem_or_eq_of_mem_set ha with e | e
    · exact E1 a e
    · rw [e]
      exact ⟨shaped_with_pages (E1 sp hmem).1 f, ht, (E1 sp hmem).2.2⟩
  · exact pairwise_set E2 hsp
      (fun x hx => disjoint_memory_congr_left (a := sp) rfl rfl hx)
      (fun x hx => disjoint_memory_congr_right (a := sp) rfl rfl hx)

/-- Placing a request on the page `first_fit` designates keeps the invariant and
records the new allocation. -/
theorem engine_ok_occupy {m : binary_page_memory_resource_impl} {live : List allocation}
    (hok : engine_ok m live) (n : Nat) {s k q : Nat}
    (hff : first_fit m.m_superpages (goal_of n) s k q) :
    ∃ sp f c, m.m_superpages[k]? = some sp ∧ q < sp.m_num_pages ∧
      sp.m_pages q = .VACANT ∧ page_ref.get_size sp q = s ∧
      split_post sp (goal_of n) q f c ∧
      occupy m (goal_of n) ⟨k, q⟩ =
        (.ok ⟨k, c⟩, ⟨m.m_superpages.set k (sp.with_pages (set_page f c .OCCUPIED))⟩) ∧
      engine_ok ⟨m.m_superpages.set k (sp.with_pages (set_page f c .OCCUPIED))⟩
        (⟨page_ref.get_addr sp c, n, ⟨k, c⟩⟩ :: live) := by
  obtain ⟨E1, E2, E3, E4⟩ := hok
  obtain ⟨sp, hsp, hq, hv, hsz, hge⟩ := first_fit_page hff
  have hmem := List.getElem?_mem hsp
  obtain ⟨hsh, ht, h31⟩ := E1 sp hmem
  obtain ⟨f, c, hpost, hocc⟩ :=
    occupy_spec (goal_of_ge n) hsp hsh ht hq hv (by rw [hsz]; exact hge)
  refine ⟨sp, f, c, hsp, hq, hv, hsz, hpost, hocc, ?_⟩
  obtain ⟨p1, p2, p3, p4, p5, p6, p7, p8⟩ := hpost
  have hflip : (sp.with_pages (set_page f c .OCCUPIED)).tree_ok := by
    have := @tree_ok_flip (sp.with_pages f) p1 c .OCCUPIED
      (Or.inl (by simp only [with_pages_pages]; exact p4)) (Or.inr rfl)
    simpa using this
  obtain ⟨F1, F2⟩ := superpages_set_ok E1 E2 hsp hflip
  have hkeep : ∀ e ∈ live, e.page.m_superpage = k →
      f e.page.m_page = .OCCUPIED ∧ e.page.m_page ≠ c := by
    intro e he hk
    obtain ⟨sp2, h1, h2, h3, _, _⟩ := E3 e he
    have hsame : sp2 = sp := by
      rw [hk, hsp] at h1; exact (Option.some.inj h1).symm
    subst hsame
    have hf : f e.page.m_page = .OCCUPIED := by
      by_contra hc
      have hne : f e.page.m_page ≠ sp2.m_pages e.page.m_page := by rw [h3]; exact hc
      have := (p8 _ hne).2.1
      rw [h3] at this
      rcases this with t | t <;> cases t
    refine ⟨hf, fun hc => ?_⟩
    rw [hc, p4] at hf
    cases hf
  refine ⟨F1, F2, ?_, ?_⟩
  · intro e he
    rcases List.mem_cons.1 he with h | h
    · rw [h]
      refine ⟨sp.with_pages (set_page f c .OCCUPIED), ?_, p2, by simp, p3, rfl⟩
      show (m.m_superpages.set k _)[k]? = _
      rw [List.getElem?_set_self (getElem?_lt hsp)]
    · apply recorded_set_other (E3 e h) _ hsp
      intro hk
      obtain ⟨a, b⟩ := hkeep e h hk
      rw [set_page_other _ _ b]
      exact a
  · rw [List.pairwise_cons]
    refine ⟨fun e he hc => ?_, E4⟩
    have hk : e.page.m_superpage = k := by rw [← hc]
    have := (hkeep e he hk).2
    apply this
    rw [← hc]

/-- Appending a fresh superpage on memory the upstream handed out keeps the
invariant. -/
theorem engine_ok_append {m : binary_page_memory_resource_impl} {live : List allocation}
    (hok : engine_ok m live) {size base : Nat} (h8 : 8 ≤ size) (h31 : size ≤ 31)
    (hfresh : ∀ sp ∈ m.m_superpages,
      base + 2 ^ size ≤ sp.m_memory ∨ sp.m_memory + 2 ^ sp.m_size ≤ base) :
    engine_ok ⟨m.m_superpages ++ [fresh_superpage size base]⟩ live := by
  obtain ⟨E1, E2, E3, E4⟩ := hok
  refine ⟨?_, ?_, ?_, E4⟩
  · intro sp hsp
    rcases List.mem_append.1 hsp with e | e
    · exact E1 sp e
    · rw [List.mem_singleton.1 e]
      exact ⟨fresh_superpage_shaped h8 (by omega) base, fresh_superpage_tree_ok size base, h31⟩
  · show (m.m_superpages ++ [fresh_superpage size base]).Pairwise disjoint_memory
    rw [List.pairwise_append]
    refine ⟨E2, List.pairwise_singleton _ _, fun a ha b hb => ?_⟩
    rw [List.mem_singleton.1 hb]
    unfold disjoint_memory
    have := hfresh a ha
    simp only [fresh_superpage]
    omega
  · intro e he
    obtain ⟨sp, h1, h2, h3, h4, h5⟩ := E3 e he
    refine ⟨sp, ?_, h2, h3, h4, h5⟩
    show (m.m_superpages ++ [fresh_superpage size base])[e.page.m_superpage]? = _
    rw [List.getElem?_append_left (getElem?_lt h1)]
    exact h1

theorem do_allocate_of_cand_ok {up : memory_resource} {host : host_heap} {m m1 : binary_page_memory_resource_impl}
    {n : Nat} {c : page_ref} (h : do_allocate_cand up host m n = (.ok c, m1)) :
    do_allocate up host m n = (addr_of m1 c, m1) := by
  unfold do_allocate
  rw [h]

theorem do_allocate_of_cand_error {up : memory_resource} {host : host_heap}
    {m m1 : binary_page_memory_resource_impl} {n : Nat} {e : fault}
    (h : do_allocate_cand up host m n = (.error e, m1)) :
    do_allocate up host m n = (.error e, m1) := by
  unfold do_allocate
  rw [h]

theorem addr_of_placed {m1 : binary_page_memory_resource_impl} {k : Nat} {sp : superpage}
    (hsp : m1.m_superpages[k]? = some sp) (f : Nat → page_state) (c : Nat) :
    addr_of (placed_state m1 k sp f c) ⟨k, c⟩ = .ok (page_ref.get_addr sp c) := by
  unfold addr_of placed_state
  simp only [List.getElem?_set_self (getElem?_lt hsp)]
  rfl

/-- Outcome of `do_allocate(n)` on an engine that satisfies the invariant,
against an upstream that honours its contract: either nothing fits and the
host heap or the upstream refuses, and the call throws `std::bad_alloc` leaving
the engine as it was; or the call returns the address of the page it marked `OCCUPIED`, and the
invariant holds again with the new allocation recorded. -/
theorem do_allocate_outcome {up : memory_resource} {host : host_heap} {m : binary_page_memory_resource_impl}
    {live : List allocation} (hok : engine_ok m live) (hup : fresh_upstream up m) (n : Nat) :
    (find_free_page m (goal_of n) = .ok none ∧
      (¬ host_grants host m (goal_of n) ∨ up (2 ^ max (goal_of n) new_page_size) = none) ∧
      do_allocate_cand up host m n = (.error .bad_alloc, m) ∧
      do_allocate up host m n = (.error .bad_alloc, m)) ∨
    (∃ m1 k q sp f c, candidate_state up host m m1 n ∧ engine_ok m1 live ∧
      placement m1 n k q sp f c ∧
      do_allocate_cand up host m n = (.ok ⟨k, c⟩, placed_state m1 k sp f c) ∧
      do_allocate up host m n = (.ok (page_ref.get_addr sp c), placed_state m1 k sp f c) ∧
      engine_ok (placed_state m1 k sp f c) (⟨page_ref.get_addr sp c, n, ⟨k, c⟩⟩ :: live)) := by
  have hall : ∀ sp ∈ m.m_superpages, sp.shaped := fun sp hsp => (hok.1 sp hsp).1
  have hg := goal_of_ge n
  have hg31 := goal_of_le n
  rcases do_allocate_cand_cases up host hall n with
    ⟨s, k, q, h1, h2, h3⟩ | ⟨h1, h2, _, h3⟩ | ⟨base, h1, h2, h3, h4, hh⟩
  · right
    obtain ⟨sp, f, c, a1, a2, a3, a4, a5, a6, a7⟩ := engine_ok_occupy hok n h1
    rw [a6] at h3
    refine ⟨m, k, q, sp, f, c, Or.inl ⟨⟨_, h2⟩, rfl⟩, hok, ⟨⟨s, h1⟩, a1, a2, a3, a5⟩, h3, ?_, a7⟩
    rw [do_allocate_of_cand_ok h3]
    exact congrArg (fun x => (x, _)) (addr_of_placed a1 f c)
  · left
    exact ⟨h1, h2, h3, do_allocate_of_cand_error h3⟩
  · right
    have hok1 : engine_ok
        ⟨m.m_superpages ++ [fresh_superpage (max (goal_of n) new_page_size) base]⟩ live :=
      engine_ok_append hok (by unfold new_page_size; omega) (by unfold new_page_size; omega)
        (hup _ base h2)
    obtain ⟨sp, f, c, a1, a2, a3, a4, a5, a6, a7⟩ := engine_ok_occupy hok1 n h3
    rw [a6] at h4
    refine ⟨_, _, 0, sp, f, c, Or.inr ⟨base, h1, h2, rfl, hh⟩, hok1, ⟨⟨_, h3⟩, a1, a2, a3, a5⟩,
      h4, ?_, a7⟩
    rw [do_allocate_of_cand_ok h4]
    exact congrArg (fun x => (x, _)) (addr_of_placed a1 f c)

/-- `do_allocate` keeps the invariant. -/
theorem engine_ok_allocate {up : memory_resource} {host : host_heap} {m : binary_page_memory_resource_impl}
    {live : List allocation} (hok : engine_ok m live) (hup : fresh_upstream up m) (n : Nat) :
    engine_ok (do_allocate up host m n).2 (live_after_allocate up host m n live) := by
  rcases do_allocate_outcome hok hup n with
    ⟨_, _, h3, h4⟩ | ⟨m1, k, q, sp, f, c, _, _, _, h4, h5, h6⟩
  · unfold live_after_allocate
    rw [h3, h4]
    exact hok
  · unfold live_after_allocate
    rw [h4, h5]
    exact h6

/-- `do_deallocate` on a live allocation keeps the invariant. -/
theorem engine_ok_deallocate {m : binary_page_memory_resource_impl} {live : List allocation}
    (hok : engine_ok m live) {e : allocation} (he : e ∈ live) :
    engine_ok (do_deallocate m e.p e.bytes).2 (live.erase e) := by
  obtain ⟨sp, hsp, hi, hocc, hd⟩ := do_deallocate_spec hok he
  obtain ⟨E1, E2, E3, E4⟩ := hok
  rw [hd]
  have ht := (E1 sp (List.getElem?_mem hsp)).2.1
  have hflip := tree_ok_flip (v := .VACANT) ht (Or.inr hocc) (Or.inl rfl)
  obtain ⟨F1, F2⟩ := superpages_set_ok E1 E2 hsp hflip
  refine ⟨F1, F2, ?_, List.Pairwise.sublist (List.erase_sublist e live) E4⟩
  intro e2 he2
  have hne := erase_page_ne E4 he e2 he2
  have hrec := E3 e2 (List.mem_of_mem_erase he2)
  apply recorded_set_other hrec _ hsp
  intro hk
  obtain ⟨sp2, h1, _, h3, _, _⟩ := hrec
  have hsame : sp2 = sp := by
    rw [hk, hsp] at h1; exact (Option.some.inj h1).symm
  subst hsame
  have hpage : e2.page.m_page ≠ e.page.m_page := by
    intro hc
    apply hne
    cases hp : e2.page; cases hq : e.page
    rw [hp] at hk hc; rw [hq] at hc hk
    simp only at hk hc
    rw [hk, hc]
  rw [set_page_other _ _ hpage]
  exact h3

theorem engine_ok_fresh : engine_ok binary_page_memory_resource_impl.ctor [] :=
  ⟨fun sp h => by simp [binary_page_memory_resource_impl.ctor] at h, List.Pairwise.nil,
    fun e h => by simp at h, List.Pairwise.nil⟩

/-- Every reachable state satisfies the invariant. -/
theorem engine_ok_of_reachable {m : binary_page_memory_resource_impl}
    {live : List allocation} (h : reachable m live) : engine_ok m live := by
  induction h with
  | fresh => exact engine_ok_fresh
  | allocate up host n _ hup ih => exact engine_ok_allocate ih hup n
  | deallocate e _ he ih => exact engine_ok_deallocate ih he

/-! ## Buddy exclusivity along root-to-leaf paths -/

theorem child_gt (i : Nat) (b : Bool) : i < child i b := by
  unfold child; split <;> omega

theorem child_cases (i : Nat) (b : Bool) : child i b = 2 * i + 1 ∨ child i b = 2 * i + 2 := by
  unfold child; cases b <;> simp

theorem walk_nil (i : Nat) : walk i [] = i := rfl

theorem walk_cons (i : Nat) (b : Bool) (u : List Bool) :
    walk i (b :: u) = walk (child i b) u := rfl

theorem walk_append (i : Nat) (u v : List Bool) : walk i (u ++ v) = walk (walk i u) v := by
  unfold walk; rw [List.foldl_append]

theorem walk_ge (i : Nat) (u : List Bool) : i ≤ walk i u := by
  induction u generalizing i with
  | nil => exact le_refl _
  | cons b u ih =>
    rw [walk_cons]
    exact le_trans (le_of_lt (child_gt i b)) (ih _)

theorem num_pages_odd {sp : superpage} (h : sp.shaped) : sp.m_num_pages % 2 = 1 := by
  have := num_pages_eq h
  rw [Nat.pow_succ] at this
  omega

/-- A node with a child in the table has both children in the table. -/
theorem internal_of_child {sp : superpage} (h : sp.shaped) {i : Nat} {b : Bool}
    (hc : child i b < sp.m_num_pages) : 2 * i + 2 < sp.m_num_pages := by
  have := num_pages_odd h
  rcases child_cases i b with e | e <;> omega

theorem child_state {sp : superpage} (hsh : sp.shaped) (ht : sp.tree_ok) {i : Nat} {b : Bool}
    (hc : child i b < sp.m_num_pages) :
    (sp.m_pages i = .SPLIT → sp.m_pages (child i b) ≠ .NON_EXTANT) ∧
    (sp.m_pages i ≠ .SPLIT → sp.m_pages (child i b) = .NON_EXTANT) := by
  have hint := internal_of_child hsh hc
  have := ht.2.1 i hint
  rcases child_cases i b with e | e <;> rw [e]
  · exact ⟨fun h => (this.1 h).1, fun h => (this.2 h).1⟩
  · exact ⟨fun h => (this.1 h).2, fun h => (this.2 h).2⟩

/-- Below a page that is not `SPLIT` every page is `NON_EXTANT`. -/
theorem descendants_non_extant {sp : superpage} (hsh : sp.shaped) (ht : sp.tree_ok) :
    ∀ (u : List Bool) (i : Nat), sp.m_pages i ≠ .SPLIT → u ≠ [] →
      walk i u < sp.m_num_pages → sp.m_pages (walk i u) = .NON_EXTANT := by
  intro u
  induction u with
  | nil => intro i _ h; exact absurd rfl h
  | cons b u ih =>
    intro i hi _ hw
    rw [walk_cons] at hw ⊢
    have hc : child i b < sp.m_num_pages := lt_of_le_of_lt (walk_ge _ u) hw
    have hne := (child_state hsh ht hc).2 hi
    by_cases hu : u = []
    · subst hu; exact hne
    · exact ih (child i b) (by rw [hne]; simp) hu hw

theorem take_succ_walk (t : List Bool) (j : Nat) (hj : j < t.length) :
    ∃ b, walk 0 (t.take (j + 1)) = child (walk 0 (t.take j)) b := by
  refine ⟨t[j], ?_⟩
  rw [List.take_succ, walk_append]
  simp [List.getElem?_eq_getElem hj, walk, List.foldl]

theorem walk_take_le (t : List Bool) (j : Nat) : walk 0 (t.take j) ≤ walk 0 t := by
  conv_rhs => rw [← List.take_append_drop j t]
  rw [walk_append]
  exact walk_ge _ _

/-- Path form of buddy exclusivity, for one superpage that satisfies the
parent/child form. -/
theorem exclusive_on_path {sp : superpage} (hsh : sp.shaped) (ht : sp.tree_ok)
    (t : List Bool) (hleaf : sp.is_leaf (walk 0 t)) :
    ∃ k, k ≤ t.length ∧
      (sp.m_pages (walk 0 (t.take k)) = .VACANT ∨
        sp.m_pages (walk 0 (t.take k)) = .OCCUPIED) ∧
      (∀ j, j ≤ t.length →
        (sp.m_pages (walk 0 (t.take j)) = .VACANT ∨
          sp.m_pages (walk 0 (t.take j)) = .OCCUPIED) → j = k) ∧
      (∀ j, j < k → sp.m_pages (walk 0 (t.take j)) = .SPLIT) ∧
      (∀ j, k < j → j ≤ t.length → sp.m_pages (walk 0 (t.take j)) = .NON_EXTANT) ∧
      (∀ u, u ≠ [] → walk (walk 0 (t.take k)) u < sp.m_num_pages →
        sp.m_pages (walk (walk 0 (t.take k)) u) = .NON_EXTANT) := by
  have hvalid : ∀ j, walk 0 (t.take j) < sp.m_num_pages := fun j =>
    lt_of_le_of_lt (walk_take_le t j) hleaf.1
  -- the states met along the path, up to position `j`
  have key : ∀ j, j ≤ t.length →
      (∀ i, i ≤ j → sp.m_pages (walk 0 (t.take i)) = .SPLIT) ∨
      (∃ k, k ≤ j ∧
        (sp.m_pages (walk 0 (t.take k)) = .VACANT ∨
          sp.m_pages (walk 0 (t.take k)) = .OCCUPIED) ∧
        (∀ i, i < k → sp.m_pages (walk 0 (t.take i)) = .SPLIT) ∧
        (∀ i, k < i → i ≤ j → sp.m_pages (walk 0 (t.take i)) = .NON_EXTANT)) := by
    intro j
    induction j with
    | zero =>
      intro _
      have hroot : sp.m_pages (walk 0 (t.take 0)) ≠ .NON_EXTANT := by
        simp only [List.take_zero, walk_nil]; exact ht.1
      cases hst : sp.m_pages (walk 0 (t.take 0)) with
      | NON_EXTANT => exact absurd hst hroot
      | SPLIT =>
        left
        intro i hi
        have : i = 0 := by omega
        rw [this]; exact hst
      | VACANT =>
        right
        exact ⟨0, le_refl _, Or.inl hst, fun i hi => by omega, fun i h1 h2 => by omega⟩
      | OCCUPIED =>
        right
        exact ⟨0, le_refl _, Or.inr hst, fun i hi => by omega, fun i h1 h2 => by omega⟩
    | succ j ih =>
      intro hj
      obtain ⟨b, hb⟩ := take_succ_walk t j (by omega)
      have hc : child (walk 0 (t.take j)) b < sp.m_num_pages := by
        rw [← hb]; exact hvalid (j + 1)
      have hcs := child_state hsh ht hc
      rw [← hb] at hcs
      rcases ih (by omega) with hall | ⟨k, hk, h1, h2, h3⟩
      · have hne := hcs.1 (hall j (le_refl _))
        cases hst : sp.m_pages (walk 0 (t.take (j + 1))) with
        | NON_EXTANT => exact absurd hst hne
        | SPLIT =>
          left
          intro i hi
          rcases Nat.eq_or_lt_of_le hi with e | l
          · rw [e]; exact hst
          · exact hall i (by omega)
        | VACANT =>
          right
          exact ⟨j + 1, le_refl _, Or.inl hst, fun i hi => hall i (by omega),
            fun i h1 h2 => by omega⟩
        | OCCUPIED =>
          right
          exact ⟨j + 1, le_refl _, Or.inr hst, fun i hi => hall i (by omega),
            fun i h1 h2 => by omega⟩
      · right
        have hns : sp.m_pages (walk 0 (t.take j)) ≠ .SPLIT := by
          rcases Nat.eq_or_lt_of_le hk with e | l
          · rw [← e]; rcases h1 with h | h <;> rw [h] <;> simp
          · rw [h3 j l (le_refl _)]; simp
        refine ⟨k, by omega, h1, h2, fun i hi1 hi2 => ?_⟩
        rcases Nat.eq_or_lt_of_le hi2 with e | l
        · rw [e]; exact hcs.2 hns
        · exact h3 i hi1 (by omega)
  rcases key t.length (le_refl _) with hall | ⟨k, hk, h1, h2, h3⟩
  · exfalso
    have hs := hall t.length (le_refl _)
    rw [List.take_length] at hs
    exact ht.2.2 _ hleaf.1 (by have := hleaf.2; omega) hs
  · refine ⟨k, hk, h1, fun j hj hst => ?_, h2, h3, fun u hu hw => ?_⟩
    · by_contra hne
      rcases Nat.lt_or_gt_of_ne hne with l | l
      · rw [h2 j l] at hst; rcases hst with h | h <;> cases h
      · rw [h3 j l hj] at hst; rcases hst with h | h <;> cases h
    · apply descendants_non_extant hsh ht u _ _ hu hw
      rcases h1 with h | h <;> rw [h] <;> simp

/-! ## The claims -/

theorem fresh_upstream_ctor (up : memory_resource) :
    fresh_upstream up binary_page_memory_resource_impl.ctor := by
  intro bytes base _ sp hsp
  simp [binary_page_memory_resource_impl.ctor] at hsp

/-- C2 (buddy exclusivity): in every state reachable from a fresh engine by
`do_allocate` calls and `do_deallocate` calls on live (pointer, size) pairs,
every superpage has a root that is not `NON_EXTANT`, and on every root-to-leaf
path exactly one node is `VACANT` or `OCCUPIED`, the nodes above it are `SPLIT`
and all its descendants are `NON_EXTANT`. -/
theorem buddy_exclusivity (m : binary_page_memory_resource_impl) (live : List allocation)
    (h : reachable m live) : ∀ sp ∈ m.m_superpages, sp.buddy_exclusive := by
  intro sp hsp
  obtain ⟨hsh, ht, _⟩ := (engine_ok_of_reachable h).1 sp hsp
  exact ⟨ht.1, fun t hleaf => exclusive_on_path hsh ht t hleaf⟩

set_option maxRecDepth 100000 in
/-- Witness of C2: the engine after one `do_allocate(256)` on a fresh engine
holds one superpage, and that superpage is buddy-exclusive. -/
theorem buddy_exclusivity_witness :
    (do_allocate (upstream_at 4096) host_granting
        binary_page_memory_resource_impl.ctor 256).2.m_superpages.length = 1 ∧
      ∀ sp ∈ (do_allocate (upstream_at 4096) host_granting
          binary_page_memory_resource_impl.ctor 256).2.m_superpages, sp.buddy_exclusive :=
  ⟨by decide!,
    buddy_exclusivity _ _
      (reachable.allocate (upstream_at 4096) host_granting 256 reachable.fresh
        (fresh_upstream_ctor _))⟩

theorem pairwise_getElem_lt {α : Type} {R : α → α → Prop} :
    ∀ {l : List α} {i j : Nat} {a b : α}, l.Pairwise R → l[i]? = some a → l[j]? = some b →
      i < j → R a b := by
  intro l
  induction l with
  | nil => intro i j a b _ h; simp at h
  | cons x xs ih =>
    intro i j a b hp hi hj hlt
    rw [List.pairwise_cons] at hp
    cases j with
    | zero => omega
    | succ j =>
      simp only [List.getElem?_cons_succ] at hj
      cases i with
      | zero =>
        simp only [List.getElem?_cons_zero, Option.some.injEq] at hi
        rw [← hi]
        exact hp.1 b (List.getElem?_mem hj)
      | succ i =>
        simp only [List.getElem?_cons_succ] at hi
        exact ih hp.2 hi hj (by omega)

/-- Two superpages at different positions of the list do not share memory. -/
theorem disjoint_of_ne {l : List superpage} (hp : l.Pairwise disjoint_memory) {i j : Nat}
    {a b : superpage} (hi : l[i]? = some a) (hj : l[j]? = some b) (hne : i ≠ j) :
    disjoint_memory a b := by
  rcases Nat.lt_or_gt_of_ne hne with h | h
  · exact pairwise_getElem_lt hp hi hj h
  · exact (pairwise_getElem_lt hp hj hi h).symm

/-- C3 (address validity): in every reachable state, a pointer `p` returned by
`do_allocate(n)` lies in the memory of one superpage of the engine, at an offset
that is a multiple of `2 ^ goal` and with `offset + 2 ^ goal ≤ 2 ^ m_size`; no
other superpage of the engine contains `p`.  Moreover `get_addr` of every valid
page index of every superpage points into that superpage's memory, and so does
the end of the page. -/
theorem address_validity (m : binary_page_memory_resource_impl) (live : List allocation)
    (h : reachable m live) (up : memory_resource) (host : host_heap)
    (hup : fresh_upstream up m) (n p : Nat) (hp : (do_allocate up host m n).1 = .ok p) :
    ∃ (k : Nat) (sp : superpage), (do_allocate up host m n).2.m_superpages[k]? = some sp ∧
      sp.m_memory ≤ p ∧
      2 ^ goal_of n ∣ p - sp.m_memory ∧
      (p - sp.m_memory) + 2 ^ goal_of n ≤ 2 ^ sp.m_size ∧
      (∀ (k2 : Nat) (sp2 : superpage),
        (do_allocate up host m n).2.m_superpages[k2]? = some sp2 →
        sp2.m_memory ≤ p → p < sp2.m_memory + 2 ^ sp2.m_size → k2 = k) ∧
      ∀ sp3 ∈ m.m_superpages, ∀ i, i < sp3.m_num_pages →
        sp3.m_memory ≤ page_ref.get_addr sp3 i ∧
        page_ref.get_addr sp3 i + 2 ^ page_ref.get_size sp3 i ≤ sp3.m_memory + 2 ^ sp3.m_size := by
  have hok := engine_ok_of_reachable h
  have hall : ∀ sp3 ∈ m.m_superpages, ∀ i, i < sp3.m_num_pages →
      sp3.m_memory ≤ page_ref.get_addr sp3 i ∧
      page_ref.get_addr sp3 i + 2 ^ page_ref.get_size sp3 i ≤
        sp3.m_memory + 2 ^ sp3.m_size := by
    intro sp3 hsp3 i hi
    obtain ⟨r, hr1, hr2, _⟩ := get_addr_bounds (hok.1 sp3 hsp3).1 hi
    omega
  rcases do_allocate_outcome hok hup n with
    ⟨_, _, _, h4⟩ | ⟨m1, k, q, sp, f, c, _, _, hpl, _, h5, h6⟩
  · rw [h4] at hp; cases hp
  · rw [h5] at hp ⊢
    simp only [Except.ok.injEq] at hp
    obtain ⟨E1, E2, E3, _⟩ := h6
    obtain ⟨sp1, a1, a2, _, a4, a5⟩ := E3 _ (List.mem_cons_self _ _)
    simp only at a1 a2 a4 a5
    have hsh := (E1 sp1 (List.getElem?_mem a1)).1
    obtain ⟨r, hr1, hr2, _⟩ := get_addr_bounds hsh a2
    rw [a4, a5, hp] at hr1
    rw [a4] at hr2
    have hpos : 0 < 2 ^ goal_of n := by positivity
    refine ⟨k, sp1, a1, by omega, ?_, ?_, fun k2 sp2 hk2 hlo hhi => ?_, hall⟩
    · rw [hr1, Nat.add_sub_cancel_left]
      exact Dvd.intro_left r rfl
    · rw [hr1, Nat.add_sub_cancel_left]
      exact hr2
    · by_contra hne
      have hd := disjoint_of_ne E2 hk2 a1 hne
      unfold disjoint_memory at hd
      omega

theorem fresh_upstream_refusing (m : binary_page_memory_resource_impl) :
    fresh_upstream upstream_refusing m := by
  intro bytes base hb
  cases hb

/-- Scenario B1, after its first allocation, is a reachable state. -/
theorem scenario_b1_reachable : reachable scenario_b1 scenario_b1_live := by
  unfold scenario_b1 scenario_b1_live
  exact reachable.allocate (upstream_at 4096) host_granting 256 reachable.fresh
    (fresh_upstream_ctor _)

set_option maxRecDepth 100000 in
/-- Witness of C3 (scenario B1): the second `do_allocate(256)` on an engine that
holds one superpage at address 4096 returns 4096 + 256. -/
theorem address_validity_witness :
    (do_allocate upstream_refusing host_granting scenario_b1 256).1 = .ok 4352 ∧
    scenario_b1.m_superpages.length = 1 ∧
    ∃ (k : Nat) (sp : superpage),
      (do_allocate upstream_refusing host_granting scenario_b1 256).2.m_superpages[k]?
        = some sp ∧
      sp.m_memory ≤ 4352 ∧
      2 ^ goal_of 256 ∣ 4352 - sp.m_memory ∧
      (4352 - sp.m_memory) + 2 ^ goal_of 256 ≤ 2 ^ sp.m_size ∧
      (∀ (k2 : Nat) (sp2 : superpage),
        (do_allocate upstream_refusing host_granting scenario_b1 256).2.m_superpages[k2]?
          = some sp2 →
        sp2.m_memory ≤ 4352 → 4352 < sp2.m_memory + 2 ^ sp2.m_size → k2 = k) ∧
      ∀ sp3 ∈ scenario_b1.m_superpages, ∀ i, i < sp3.m_num_pages →
        sp3.m_memory ≤ page_ref.get_addr sp3 i ∧
        page_ref.get_addr sp3 i + 2 ^ page_ref.get_size sp3 i ≤ sp3.m_memory + 2 ^ sp3.m_size :=
  ⟨by decide!, by decide!,
    address_validity scenario_b1 scenario_b1_live scenario_b1_reachable upstream_refusing
      host_granting (fresh_upstream_refusing _) 256 4352 (by decide!)⟩

/-- C4 (deallocate pointer routing): in every reachable state, for every live
allocation `e` (pointer `e.p` returned by `do_allocate(e.bytes)`, page `e.page`
marked `OCCUPIED` by that call), `do_deallocate(e.p, e.bytes)` returns, the list
of superpages keeps its length, sizes and memory, and the only page state that
changes is that of `e.page`, from `OCCUPIED` to `VACANT`; in particular no
`SPLIT` ancestor is unsplit. -/
theorem deallocate_routing (m : binary_page_memory_resource_impl) (live : List allocation)
    (h : reachable m live) (e : allocation) (he : e ∈ live) :
    (do_deallocate m e.p e.bytes).1 = .ok () ∧
    (do_deallocate m e.p e.bytes).2.m_superpages.length = m.m_superpages.length ∧
    (∃ sp : superpage, m.m_superpages[e.page.m_superpage]? = some sp ∧
      e.page.m_page < sp.m_num_pages ∧ sp.m_pages e.page.m_page = .OCCUPIED) ∧
    ∀ (k : Nat) (sp0 : superpage), m.m_superpages[k]? = some sp0 →
      ∃ sp1 : superpage, (do_deallocate m e.p e.bytes).2.m_superpages[k]? = some sp1 ∧
        sp1.m_size = sp0.m_size ∧ sp1.m_num_pages = sp0.m_num_pages ∧
        sp1.m_memory = sp0.m_memory ∧
        ∀ i, sp1.m_pages i =
          if k = e.page.m_superpage ∧ i = e.page.m_page then .VACANT else sp0.m_pages i := by
  have hok := engine_ok_of_reachable h
  obtain ⟨sp, hsp, hi, hocc, hd⟩ := do_deallocate_spec hok he
  rw [hd]
  refine ⟨rfl, by simp, ⟨sp, hsp, hi, hocc⟩, fun k sp0 hk => ?_⟩
  by_cases hke : k = e.page.m_superpage
  · have hsame : sp0 = sp := by
      rw [hke, hsp] at hk; exact (Option.some.inj hk).symm
    subst hsame
    refine ⟨sp0.with_pages (set_page sp0.m_pages e.page.m_page .VACANT), ?_, rfl, rfl, rfl,
      fun i => ?_⟩
    · show (m.m_superpages.set e.page.m_superpage _)[k]? = _
      rw [hke, List.getElem?_set_self (getElem?_lt hsp)]
    · simp only [with_pages_pages, set_page, hke, true_and]
  · refine ⟨sp0, ?_, rfl, rfl, rfl, fun i => ?_⟩
    · show (m.m_superpages.set e.page.m_superpage _)[k]? = _
      rw [List.getElem?_set_ne (fun hc => hke hc.symm)]
      exact hk
    · simp [hke]

/-- Scenario B4 is a reachable state. -/
theorem scenario_b4_reachable : reachable scenario_b4 scenario_b4_live := by
  unfold scenario_b4 scenario_b4_live
  exact reachable.allocate upstream_refusing host_granting 256
    (reachable.allocate upstream_refusing host_granting 1024
      (reachable.allocate (upstream_at 4096) host_granting 256 reachable.fresh
        (fresh_upstream_ctor _))
      (fresh_upstream_refusing _))
    (fresh_upstream_refusing _)

set_option maxRecDepth 100000 in
/-- Witness of C4 (scenario B4): 256, 1024 and 256 bytes are allocated in turn on
a fresh engine whose upstream hands out the block at address 4096; the middle
allocation (pointer 4096 + 1024, page 1024 of superpage 0) is live, and
deallocating it changes that page alone. -/
theorem deallocate_routing_witness :
    scenario_b4_middle ∈ scenario_b4_live ∧
    (do_deallocate scenario_b4 scenario_b4_middle.p scenario_b4_middle.bytes).1 = .ok () ∧
    (do_deallocate scenario_b4 scenario_b4_middle.p
      scenario_b4_middle.bytes).2.m_superpages.length = scenario_b4.m_superpages.length ∧
    (∃ sp : superpage,
      scenario_b4.m_superpages[scenario_b4_middle.page.m_superpage]? = some sp ∧
      scenario_b4_middle.page.m_page < sp.m_num_pages ∧
      sp.m_pages scenario_b4_middle.page.m_page = .OCCUPIED) ∧
    ∀ (k : Nat) (sp0 : superpage), scenario_b4.m_superpages[k]? = some sp0 →
      ∃ sp1 : superpage,
        (do_deallocate scenario_b4 scenario_b4_middle.p
          scenario_b4_middle.bytes).2.m_superpages[k]? = some sp1 ∧
        sp1.m_size = sp0.m_size ∧ sp1.m_num_pages = sp0.m_num_pages ∧
        sp1.m_memory = sp0.m_memory ∧
        ∀ i, sp1.m_pages i =
          if k = scenario_b4_middle.page.m_superpage ∧ i = scenario_b4_middle.page.m_page
          then .VACANT else sp0.m_pages i :=
  ⟨by decide!,
    deallocate_routing scenario_b4 scenario_b4_live scenario_b4_reachable
      scenario_b4_middle (by decide!)⟩

set_option maxRecDepth 100000 in
/-- C1 (evaluation at the failing input): on a fresh engine `do_allocate(2 ^ 31 + 1)`
succeeds; `round_up` yields 0, so the goal is 8, the superpage acquired has
`2 ^ 20` bytes and the page marked `OCCUPIED` (page 4095) has `2 ^ 8` bytes,
both fewer than the bytes requested. -/
theorem oversized_request_gets_small_page :
    round_up (2 ^ 31 + 1) = 0 ∧ goal_of (2 ^ 31 + 1) = 8 ∧
    (do_allocate (upstream_at 4096) host_granting
        binary_page_memory_resource_impl.ctor (2 ^ 31 + 1)).1 = .ok 4096 ∧
    (do_allocate_cand (upstream_at 4096) host_granting
        binary_page_memory_resource_impl.ctor (2 ^ 31 + 1)).1 = .ok ⟨0, 4095⟩ ∧
    (do_allocate (upstream_at 4096) host_granting
        binary_page_memory_resource_impl.ctor (2 ^ 31 + 1)).2.m_superpages.map
      (fun sp => (sp.m_size, sp.m_pages 4095, page_ref.get_size sp 4095))
      = [(20, .OCCUPIED, 8)] ∧
    2 ^ 8 < 2 ^ 31 + 1 ∧ 2 ^ 20 < 2 ^ 31 + 1 := by
  decide!

set_option maxRecDepth 100000 in
/-- C5 (evaluation at the failing input): on a fresh engine, after
`do_allocate(2 ^ 19)` (returning address 4096) and its `do_deallocate`, the root
of the only superpage is still `SPLIT` and `find_free_page(20)` finds nothing;
`do_allocate(2 ^ 20)` therefore asks the upstream for a second superpage and
returns its base, and throws `std::bad_alloc` when the upstream refuses. -/
theorem no_lazy_unsplit :
    (do_allocate (upstream_at 4096) host_granting
        binary_page_memory_resource_impl.ctor (2 ^ 19)).1 = .ok 4096 ∧
    (do_deallocate
      (do_allocate (upstream_at 4096) host_granting
        binary_page_memory_resource_impl.ctor (2 ^ 19)).2
      4096 (2 ^ 19)).1 = .ok () ∧
    scenario_b2.m_superpages.map (fun sp => (sp.m_memory, sp.m_pages 0, sp.m_pages 1))
      = [(4096, .SPLIT, .VACANT)] ∧
    find_free_page scenario_b2 (goal_of (2 ^ 20)) = .ok none ∧
    (do_allocate (upstream_at (4096 + 2 ^ 20)) host_granting scenario_b2 (2 ^ 20)).1
      = .ok (4096 + 2 ^ 20) ∧
    (do_allocate (upstream_at (4096 + 2 ^ 20)) host_granting
        scenario_b2 (2 ^ 20)).2.m_superpages.length = 2 ∧
    (do_allocate upstream_refusing host_granting scenario_b2 (2 ^ 20)).1 = .error .bad_alloc := by
  decide!

theorem addr_of_ne_bad_alloc (m : binary_page_memory_resource_impl) (c : page_ref) :
    addr_of m c ≠ .error .bad_alloc := by
  unfold addr_of
  split <;> simp

theorem occupy_error_state {m m1 : binary_page_memory_resource_impl} {goal : Nat}
    {c : page_ref} {e : fault} (h : occupy m goal c = (.error e, m1)) : m1 = m := by
  unfold occupy at h
  split at h
  · simp only [Prod.mk.injEq] at h; exact h.2.symm
  · split at h
    · simp only [Prod.mk.injEq] at h; exact h.2.symm
    · simp only [Prod.mk.injEq] at h; cases h.1

/-- C9 (strong exception safety): for every engine state, if `do_allocate(n)`
throws `std::bad_alloc` while the upstream refuses the block the engine asks it
for (`1UL << max(goal, new_page_size)` bytes), the engine after the call equals
the engine before it. -/
theorem failed_allocate_keeps_state (up : memory_resource) (host : host_heap)
    (m : binary_page_memory_resource_impl) (n : Nat)
    (hfail : (do_allocate up host m n).1 = .error .bad_alloc)
    (hup : up (shl64 1 (max (goal_of n) new_page_size)) = none) :
    (do_allocate up host m n).2 = m := by
  have hau : allocate_upstream up host m (goal_of n) = .error .bad_alloc := by
    unfold allocate_upstream superpage.ctor
    simp only [hup]
    split_ifs <;> rfl
  unfold do_allocate at hfail ⊢
  unfold do_allocate_cand at hfail ⊢
  simp only [hau] at hfail ⊢
  cases hf : find_free_page m (goal_of n) with
  | error e => simp only [hf]
  | ok r =>
    cases r with
    | none => simp only [hf]
    | some c =>
      simp only [hf] at hfail ⊢
      cases ho : occupy m (goal_of n) c with
      | mk r1 m1 =>
        cases r1 with
        | error e =>
          simp only [ho]
          exact occupy_error_state ho
        | ok c1 =>
          simp only [ho] at hfail
          exact absurd hfail (addr_of_ne_bad_alloc _ _)

/-- Witness of C9: a fresh engine whose upstream refuses. -/
theorem failed_allocate_keeps_state_witness :
    (do_allocate upstream_refusing host_granting binary_page_memory_resource_impl.ctor 256).1
      = .error .bad_alloc ∧
    upstream_refusing (shl64 1 (max (goal_of 256) new_page_size)) = none ∧
    (do_allocate upstream_refusing host_granting binary_page_memory_resource_impl.ctor 256).2
      = binary_page_memory_resource_impl.ctor :=
  ⟨by decide!, rfl,
    failed_allocate_keeps_state upstream_refusing host_granting
      binary_page_memory_resource_impl.ctor 256 (by decide!) rfl⟩

/-- On well-shaped, tree-invariant superpages `do_allocate` either returns a
pointer or throws `std::bad_alloc`; no assertion fails. -/
theorem do_allocate_no_fault {m : binary_page_memory_resource_impl}
    (hok : ∀ sp ∈ m.m_superpages, sp.shaped ∧ sp.tree_ok) (up : memory_resource)
    (host : host_heap) (n : Nat) :
    (do_allocate up host m n).1 = .error .bad_alloc ∨ ∃ p, (do_allocate up host m n).1 = .ok p := by
  have hall : ∀ sp ∈ m.m_superpages, sp.shaped := fun sp hsp => (hok sp hsp).1
  have hg := goal_of_ge n
  have hg31 := goal_of_le n
  rcases do_allocate_cand_cases up host hall n with
    ⟨s, k, q, h1, _, h3⟩ | ⟨_, _, _, h3⟩ | ⟨base, _, _, h3, h4, _⟩
  · right
    obtain ⟨sp, hsp, hq, hv, hsz, hge⟩ := first_fit_page h1
    obtain ⟨hsh, ht⟩ := hok sp (List.getElem?_mem hsp)
    obtain ⟨f, c, _, hocc⟩ := occupy_spec hg hsp hsh ht hq hv (by rw [hsz]; exact hge)
    rw [hocc] at h3
    rw [do_allocate_of_cand_ok h3]
    exact ⟨_, addr_of_placed hsp f c⟩
  · left
    rw [do_allocate_of_cand_error h3]
  · right
    obtain ⟨sp, hsp, hq, hv, hsz, hge⟩ := first_fit_page h3
    have hmem := List.getElem?_mem hsp
    have hsp_ok : sp.shaped ∧ sp.tree_ok := by
      rcases List.mem_append.1 hmem with e | e
      · exact hok sp e
      · rw [List.mem_singleton.1 e]
        exact ⟨fresh_superpage_shaped (by unfold new_page_size; omega)
          (by unfold new_page_size; omega) base, fresh_superpage_tree_ok _ _⟩
    obtain ⟨f, c, _, hocc⟩ :=
      occupy_spec (m := ⟨m.m_superpages ++ [fresh_superpage (max (goal_of n) new_page_size) base]⟩)
        hg hsp hsp_ok.1 hsp_ok.2 hq hv (by rw [hsz]; exact hge)
    rw [hocc] at h4
    rw [do_allocate_of_cand_ok h4]
    exact ⟨_, addr_of_placed hsp f c⟩

theorem change_state_permitted {a b : page_state} (hab : permitted_transition a b)
    {sp sp1 : superpage} {i : Nat} (h : page_ref.change_state a b sp i = .ok sp1) :
    permitted_transition (sp.m_pages i) (sp1.m_pages i) ∧
      ∀ j, j ≠ i → sp1.m_pages j = sp.m_pages j := by
  obtain ⟨h1, h2⟩ := change_state_inv h
  subst h2
  refine ⟨?_, fun j hj => ?_⟩
  · rw [h1]; simpa using hab
  · simp only [with_pages_pages]
    exact set_page_other _ _ hj

/-- C8 (only legal state transitions): each of the six `change_state_*`
functions, the only writers of `m_pages`, performs one of the six permitted
transitions on its page and leaves every other page alone whenever its
assertion holds; and in every reachable state no assertion fails: `do_allocate`
returns a pointer or throws `std::bad_alloc` (never a failed assertion of a
`change_state_*` function or of the `page_ref` constructor), and
`do_deallocate` on a live (pointer, size) pair returns normally. -/
theorem only_legal_transitions (m : binary_page_memory_resource_impl)
    (live : List allocation) (h : reachable m live) :
    (∀ (sp : superpage) (i : Nat) (sp1 : superpage), state_change sp i sp1 →
      permitted_transition (sp.m_pages i) (sp1.m_pages i) ∧
        ∀ j, j ≠ i → sp1.m_pages j = sp.m_pages j) ∧
    (∀ (up : memory_resource) (host : host_heap) (n : Nat),
      (do_allocate up host m n).1 = .error .bad_alloc ∨
        ∃ p, (do_allocate up host m n).1 = .ok p) ∧
    (∀ e ∈ live, (do_deallocate m e.p e.bytes).1 = .ok ()) := by
  have hok := engine_ok_of_reachable h
  refine ⟨fun sp i sp1 hc => ?_, fun up host n => ?_, fun e he => ?_⟩
  · rcases hc with hc | hc | hc | hc | hc | hc
    · exact change_state_permitted (by unfold permitted_transition; simp) hc
    · exact change_state_permitted (by unfold permitted_transition; simp) hc
    · exact change_state_permitted (by unfold permitted_transition; simp) hc
    · exact change_state_permitted (by unfold permitted_transition; simp) hc
    · exact change_state_permitted (by unfold permitted_transition; simp) hc
    · exact change_state_permitted (by unfold permitted_transition; simp) hc
  · exact do_allocate_no_fault (fun sp hsp => ⟨(hok.1 sp hsp).1, (hok.1 sp hsp).2.1⟩) up host n
  · obtain ⟨sp, _, _, _, hd⟩ := do_deallocate_spec hok he
    rw [hd]

set_option maxRecDepth 100000 in
/-- Witness of C8: scenario B4 (three allocations on a fresh engine) is
reachable and has three live allocations. -/
theorem only_legal_transitions_witness :
    scenario_b4_live.length = 3 ∧
    (∀ (sp : superpage) (i : Nat) (sp1 : superpage), state_change sp i sp1 →
      permitted_transition (sp.m_pages i) (sp1.m_pages i) ∧
        ∀ j, j ≠ i → sp1.m_pages j = sp.m_pages j) ∧
    (∀ (up : memory_resource) (host : host_heap) (n : Nat),
      (do_allocate up host scenario_b4 n).1 = .error .bad_alloc ∨
        ∃ p, (do_allocate up host scenario_b4 n).1 = .ok p) ∧
    (∀ e ∈ scenario_b4_live, (do_deallocate scenario_b4 e.p e.bytes).1 = .ok ()) :=
  ⟨by decide!, only_legal_transitions scenario_b4 scenario_b4_live scenario_b4_reachable⟩

/-! ## Arena: deallocating a pointer the arena does not know -/

/-- C10 (arena invalid deallocate): for every arena state, a pointer `p` that is
the key of no entry of `allocated_blocks` makes `arena::deallocate(p, bytes)`
return `false` and leave the arena (its free blocks, allocated blocks, current
size and superblock size) unchanged; for a `p` that is the key of an entry it
returns `true`. -/
theorem arena_invalid_deallocate (a : arena) (p bytes : Nat) :
    ((∀ b ∈ a.allocated_blocks, b.pointer ≠ p) → a.deallocate p bytes = (false, a)) ∧
    ((∃ b ∈ a.allocated_blocks, b.pointer = p) → (a.deallocate p bytes).1 = true) := by
  constructor
  · intro h
    have hnone : a.allocated_blocks.find? (fun b => decide (b.pointer = p)) = none := by
      rw [List.find?_eq_none]
      intro b hb
      simpa using h b hb
    unfold arena.deallocate
    simp only [hnone]
  · rintro ⟨b, hb, hp⟩
    cases hf : a.allocated_blocks.find? (fun b => decide (b.pointer = p)) with
    | none =>
      rw [List.find?_eq_none] at hf
      have := hf b hb
      simp [hp] at this
    | some c =>
      unfold arena.deallocate
      simp only [hf]

/-- Witness of C10: in `arena_example` pointer 512 is the key of no allocated
block and pointer 256 is the key of one. -/
theorem arena_invalid_deallocate_witness :
    (∀ b ∈ arena_example.allocated_blocks, b.pointer ≠ 512) ∧
    arena_example.deallocate 512 100 = (false, arena_example) ∧
    (∃ b ∈ arena_example.allocated_blocks, b.pointer = 256) ∧
    (arena_example.deallocate 256 100).1 = true :=
  ⟨by decide, (arena_invalid_deallocate arena_example 512 100).1 (by decide), by decide,
    (arena_invalid_deallocate arena_example 256 100).2 (by decide)⟩

/-! ## Round trip: allocate, deallocate, allocate again -/

theorem set_page_undo {f : Nat → page_state} {c : Nat} (h : f c = .VACANT) :
    set_page (set_page f c .OCCUPIED) c .VACANT = f := by
  funext j
  by_cases hj : j = c
  · rw [hj, set_page_same, h]
  · rw [set_page_other _ _ hj, set_page_other _ _ hj]

/-- Deallocating what was just placed gives back the page table the split loop
left. -/
theorem deallocate_placed {m1 : binary_page_memory_resource_impl} {live : List allocation}
    {n k c : Nat} {sp : superpage} {f : Nat → page_state}
    (hsp : m1.m_superpages[k]? = some sp) (hfc : f c = .VACANT)
    (hok : engine_ok (placed_state m1 k sp f c)
      (⟨page_ref.get_addr sp c, n, ⟨k, c⟩⟩ :: live)) :
    do_deallocate (placed_state m1 k sp f c) (page_ref.get_addr sp c) n =
      (.ok (), ⟨m1.m_superpages.set k (sp.with_pages f)⟩) := by
  obtain ⟨sp1, h1, _, _, hd⟩ := do_deallocate_spec hok (List.mem_cons_self _ _)
  simp only at h1 hd
  have hsp1 : sp1 = sp.with_pages (set_page f c .OCCUPIED) := by
    unfold placed_state at h1
    simp only [List.getElem?_set_self (getElem?_lt hsp)] at h1
    exact (Option.some.inj h1).symm
  rw [hd, hsp1]
  unfold placed_state
  simp only [List.set_set, with_pages_with_pages, with_pages_pages, set_page_undo hfc]

/-- After the round trip the page that was handed out is again the first fit,
now at exactly the size of the request. -/
theorem first_fit_after_round_trip {m1 : binary_page_memory_resource_impl} {n k q c : Nat}
    {sp : superpage} {f : Nat → page_state} (hpl : placement m1 n k q sp f c) :
    first_fit (m1.m_superpages.set k (sp.with_pages f)) (goal_of n) (goal_of n) k c := by
  obtain ⟨⟨s, hff⟩, hsp, hq, hv, p1, p2, p3, p4, p5, p6, p7, p8⟩ := hpl
  obtain ⟨a1, ⟨sp0, a2, a3⟩, a4, a5⟩ := hff
  have hsame : sp0 = sp := by rw [hsp] at a2; exact (Option.some.inj a2).symm
  subst hsame
  have hmem := List.getElem?_mem hsp
  -- below `c`, no page of the size of the request was `VACANT` before the call
  have hbefore : ∀ j, j < c → page_ref.get_size sp0 j = goal_of n →
      sp0.m_pages j ≠ .VACANT := by
    intro j hj hsz
    rcases Nat.eq_or_lt_of_le a1 with e | l
    · have hcq : c = q := by
        rw [a3.2.1, ← e, Nat.sub_self, Nat.pow_zero, Nat.one_mul] at p5
        omega
      rw [e] at hsz
      exact a3.2.2.2 j (by omega) hsz
    · exact a5 (goal_of n) (le_refl _) l sp0 hmem j (by omega) hsz
  have hother : ∀ j sp2, j < k → m1.m_superpages[j]? = some sp2 →
      sp2.no_vacant (goal_of n) := by
    intro j sp2 hj hget
    rcases Nat.eq_or_lt_of_le a1 with e | l
    · rw [e]; exact a4 j sp2 hj hget
    · exact a5 (goal_of n) (le_refl _) l sp2 (List.getElem?_mem hget)
  refine ⟨le_refl _, ⟨sp0.with_pages f, ?_, ?_⟩, fun j sp2 hj hget => ?_,
    fun t h1 h2 => by omega⟩
  · rw [List.getElem?_set_self (getElem?_lt hsp)]
  · refine ⟨p2, p3, p4, fun j hj hsz => ?_⟩
    simp only [get_size_with_pages] at hsz
    simp only [with_pages_pages]
    by_cases hfj : f j = sp0.m_pages j
    · rw [hfj]; exact hbefore j hj hsz
    · obtain ⟨_, _, _, g4⟩ := p8 j hfj
      omega
  · rw [List.getElem?_set_ne (by omega)] at hget
    exact hother j sp2 hj hget

/-- Allocating on the page that is the first fit at exactly the requested size:
the page itself is handed out and the list of superpages keeps its length. -/
theorem do_allocate_exact_fit {m : binary_page_memory_resource_impl} {live : List allocation}
    (hok : engine_ok m live) {n k c : Nat}
    (hff : first_fit m.m_superpages (goal_of n) (goal_of n) k c) (up : memory_resource)
    (host : host_heap) :
    ∃ sp, m.m_superpages[k]? = some sp ∧
      (do_allocate up host m n).1 = .ok (page_ref.get_addr sp c) ∧
      (do_allocate_cand up host m n).1 = .ok ⟨k, c⟩ ∧
      (do_allocate up host m n).2 = placed_state m k sp sp.m_pages c ∧
      (do_allocate up host m n).2.m_superpages.length = m.m_superpages.length := by
  have hall : ∀ sp ∈ m.m_superpages, sp.shaped := fun sp hsp => (hok.1 sp hsp).1
  have hfind := find_free_page_of_first_fit hall (goal_of_ge n) hff
  obtain ⟨sp, f, c2, a1, a2, a3, a4, a5, a6, _⟩ := engine_ok_occupy hok n hff
  have hc : c2 = c := by
    have := a5.2.2.2.2.1
    rw [a4, Nat.sub_self, Nat.pow_zero, Nat.one_mul] at this
    omega
  have hf : f = sp.m_pages := a5.2.2.2.2.2.2.1 a4
  subst hc
  subst hf
  have hcand : do_allocate_cand up host m n = (.ok ⟨k, c2⟩, placed_state m k sp sp.m_pages c2) := by
    unfold do_allocate_cand
    simp only [hfind]
    exact a6
  refine ⟨sp, a1, ?_, by rw [hcand], ?_, ?_⟩
  · rw [do_allocate_of_cand_ok hcand]
    exact addr_of_placed a1 _ _
  · rw [do_allocate_of_cand_ok hcand]
  · rw [do_allocate_of_cand_ok hcand]
    simp [placed_state]

theorem occupied_set_iff {m1 : binary_page_memory_resource_impl} {k : Nat} {sp : superpage}
    (hsp : m1.m_superpages[k]? = some sp) {f : Nat → page_state}
    (hf : ∀ i, f i = .OCCUPIED ↔ sp.m_pages i = .OCCUPIED) (k2 i : Nat) :
    occupied ⟨m1.m_superpages.set k (sp.with_pages f)⟩ k2 i ↔ occupied m1 k2 i := by
  unfold occupied
  by_cases hk : k2 = k
  · subst hk
    simp only [List.getElem?_set_self (getElem?_lt hsp), hsp, Option.some.injEq]
    constructor
    · rintro ⟨sp2, e, h1, h2⟩
      subst e
      exact ⟨sp, rfl, h1, (hf i).1 h2⟩
    · rintro ⟨sp2, e, h1, h2⟩
      subst e
      exact ⟨_, rfl, h1, (hf i).2 h2⟩
  · simp only [List.getElem?_set_ne (fun hc => hk hc.symm)]

theorem occupied_candidate_state {up : memory_resource} {host : host_heap}
    {m m1 : binary_page_memory_resource_impl} {n : Nat} (h : candidate_state up host m m1 n)
    (k i : Nat) : occupied m1 k i ↔ occupied m k i := by
  rcases h with ⟨_, e⟩ | ⟨base, _, _, e, _⟩
  · rw [e]
  · subst e
    unfold occupied
    simp only
    by_cases hk : k < m.m_superpages.length
    · rw [List.getElem?_append_left hk]
    · constructor
      · rintro ⟨sp, h1, h2, h3⟩
        rw [List.getElem?_append_right (by omega)] at h1
        have hmem := List.getElem?_mem h1
        rw [List.mem_singleton.1 hmem] at h3
        simp only [fresh_superpage] at h3
        split_ifs at h3
      · rintro ⟨sp, h1, _⟩
        rw [List.getElem?_eq_none (by omega)] at h1
        cases h1

/-- C7 (round trip): in every reachable state, when `do_allocate(n)` returns
`p`, the immediately following `do_deallocate(p, n)` returns, the set of
`OCCUPIED` pages is then the one before the allocation, and an immediately
repeated `do_allocate(n)` returns the same pointer `p`, whatever the upstream
and the host heap would answer, with the list of superpages as long as before
it. -/
theorem allocate_deallocate_round_trip (m : binary_page_memory_resource_impl)
    (live : List allocation) (h : reachable m live) (up : memory_resource) (host : host_heap)
    (hup : fresh_upstream up m) (n p : Nat) (hp : (do_allocate up host m n).1 = .ok p) :
    (do_deallocate (do_allocate up host m n).2 p n).1 = .ok () ∧
    (∀ k i, occupied (do_deallocate (do_allocate up host m n).2 p n).2 k i ↔ occupied m k i) ∧
    ∀ (up2 : memory_resource) (host2 : host_heap),
      (do_allocate up2 host2 (do_deallocate (do_allocate up host m n).2 p n).2 n).1 = .ok p ∧
      (do_allocate up2 host2
          (do_deallocate (do_allocate up host m n).2 p n).2 n).2.m_superpages.length
        = (do_deallocate (do_allocate up host m n).2 p n).2.m_superpages.length := by
  have hok := engine_ok_of_reachable h
  rcases do_allocate_outcome hok hup n with
    ⟨_, _, _, h4⟩ | ⟨m1, k, q, sp, f, c, hcs, hok1, hpl, _, h5, h6⟩
  · rw [h4] at hp; cases hp
  · rw [h5] at hp ⊢
    simp only [Except.ok.injEq] at hp
    subst hp
    have hsp := hpl.2.1
    have hfc : f c = .VACANT := hpl.2.2.2.2.2.2.2.1
    have hframe := hpl.2.2.2.2.2.2.2.2.2.2.2
    have hd := deallocate_placed hsp hfc h6
    simp only [hd]
    have hok2 : engine_ok ⟨m1.m_superpages.set k (sp.with_pages f)⟩ live := by
      have := engine_ok_deallocate h6 (List.mem_cons_self _ _)
      simp only [hd, List.erase_cons_head] at this
      exact this
    refine ⟨trivial, fun k2 i => ?_, fun up2 host2 => ?_⟩
    · rw [occupied_set_iff hsp _ k2 i]
      · exact occupied_candidate_state hcs k2 i
      · intro j
        by_cases hfj : f j = sp.m_pages j
        · rw [hfj]
        · obtain ⟨_, g2, g3, _⟩ := hframe j hfj
          constructor
          · intro hc; rw [hc] at g3; rcases g3 with t | t <;> cases t
          · intro hc; rw [hc] at g2; rcases g2 with t | t <;> cases t
    · obtain ⟨sp2, b1, b2, _, _, b5⟩ :=
        do_allocate_exact_fit hok2 (first_fit_after_round_trip hpl) up2 host2
      simp only [List.getElem?_set_self (getElem?_lt hsp), Option.some.injEq] at b1
      subst b1
      exact ⟨b2, b5⟩

set_option maxRecDepth 100000 in
/-- Witness of C7: the first `do_allocate(256)` on a fresh engine whose upstream
hands out the block at address 4096. -/
theorem allocate_deallocate_round_trip_witness :
    (do_allocate (upstream_at 4096) host_granting
      binary_page_memory_resource_impl.ctor 256).1 = .ok 4096 ∧
    (do_deallocate (do_allocate (upstream_at 4096) host_granting
      binary_page_memory_resource_impl.ctor 256).2 4096 256).1 = .ok () ∧
    (∀ k i, occupied (do_deallocate (do_allocate (upstream_at 4096) host_granting
        binary_page_memory_resource_impl.ctor 256).2 4096 256).2 k i ↔
      occupied binary_page_memory_resource_impl.ctor k i) ∧
    ∀ (up2 : memory_resource) (host2 : host_heap),
      (do_allocate up2 host2 (do_deallocate (do_allocate (upstream_at 4096) host_granting
        binary_page_memory_resource_impl.ctor 256).2 4096 256).2 256).1 = .ok 4096 ∧
      (do_allocate up2 host2 (do_deallocate (do_allocate (upstream_at 4096) host_granting
        binary_page_memory_resource_impl.ctor 256).2 4096 256).2 256).2.m_superpages.length
        = (do_deallocate (do_allocate (upstream_at 4096) host_granting
          binary_page_memory_resource_impl.ctor 256).2 4096 256).2.m_superpages.length :=
  ⟨by decide!,
    allocate_deallocate_round_trip _ _ reachable.fresh (upstream_at 4096) host_granting
      (fresh_upstream_ctor _) 256 4096 (by decide!)⟩

/-! ## Exact fit on a fresh engine -/

theorem round_up_loop_le_of_le (size k : Nat) (hk : k ≤ 31) (hs : size ≤ 2 ^ k) :
    ∀ n i, i + n = 32 → i ≤ k → round_up_loop size n i ≤ k := by
  intro n
  induction n with
  | zero => intro i hi hik; omega
  | succ n ih =>
    intro i hi hik
    unfold round_up_loop
    rw [shl64_one (by omega)]
    split
    · exact hik
    · rename_i hlt
      have hne : i ≠ k := by
        intro e; rw [e] at hlt; exact hlt hs
      exact ih (i + 1) (by omega) (by omega)

theorem goal_of_le_of_le {n k : Nat} (h8 : 8 ≤ k) (hk : k ≤ 31) (hn : n ≤ 2 ^ k) :
    goal_of n ≤ k := by
  have := round_up_loop_le_of_le n k hk hn 32 0 (by norm_num) (Nat.zero_le _)
  unfold goal_of round_up min_page_size
  omega

theorem find_free_page_ctor (g : Nat) :
    find_free_page binary_page_memory_resource_impl.ctor g = .ok none := rfl

/-- C6 (exact fit on a fresh engine): for every `n` with `1 ≤ n ≤ 2 ^ 19`, on a
fresh engine whose upstream hands out the block at `base` for `2 ^ 20` bytes
(the host heap granting the storage for the first superpage and its
`2 * 2 ^ 12 - 1` page states), `do_allocate(n)` returns `base` and leaves
exactly one superpage, of log2 size 20 on that block; a second `do_allocate(n)`
returns `base + 2 ^ goal` whatever the upstream and the host heap would answer,
and the engine still holds that one superpage.  For `n = 256` the goal is 8 and
the two pointers are `base` and `base + 256`. -/
theorem exact_fit_on_fresh_engine (up : memory_resource) (host : host_heap) (base n : Nat)
    (_h1 : 1 ≤ n) (h2 : n ≤ 2 ^ 19) (hup : up (2 ^ 20) = some base)
    (hhost : host.superpages 0 = true ∧ host.page_states (2 * 2 ^ 12 - 1) = true) :
    (do_allocate up host binary_page_memory_resource_impl.ctor n).1 = .ok base ∧
    (∃ sp : superpage,
      (do_allocate up host binary_page_memory_resource_impl.ctor n).2.m_superpages = [sp] ∧
      sp.m_size = 20 ∧ sp.m_memory = base) ∧
    ∀ (up2 : memory_resource) (host2 : host_heap),
      (do_allocate up2 host2
          (do_allocate up host binary_page_memory_resource_impl.ctor n).2 n).1
        = .ok (base + 2 ^ goal_of n) ∧
      ∃ sp2 : superpage,
        (do_allocate up2 host2
          (do_allocate up host binary_page_memory_resource_impl.ctor n).2 n).2.m_superpages
            = [sp2] ∧
        sp2.m_size = 20 ∧ sp2.m_memory = base := by
  have hg8 := goal_of_ge n
  have hg19 : goal_of n ≤ 19 := goal_of_le_of_le (by norm_num) (by norm_num) h2
  have hmax : max (goal_of n) new_page_size = 20 := by unfold new_page_size; omega
  have hh : host_grants host binary_page_memory_resource_impl.ctor (goal_of n) := by
    unfold host_grants
    rw [hmax]
    exact hhost
  rcases @do_allocate_outcome up host _ _ engine_ok_fresh (fresh_upstream_ctor up) n with
    ⟨_, h0, _, _⟩ | ⟨m1, k, q, sp, f, c, hcs, hok1, hpl, _, h5, h6⟩
  · rcases h0 with h0 | h0
    · exact absurd hh h0
    · rw [hmax, hup] at h0; cases h0
  · rcases hcs with ⟨⟨c0, hc0⟩, _⟩ | ⟨base2, hnone, hb2, hm1, _⟩
    · rw [find_free_page_ctor] at hc0; cases hc0
    · rw [hmax, hup] at hb2
      have hbase : base2 = base := (Option.some.inj hb2).symm
      subst hbase
      rw [hmax] at hm1
      have hff0 := first_fit_after_upstream (m := binary_page_memory_resource_impl.ctor)
        (fun sp hsp => by simp [binary_page_memory_resource_impl.ctor] at hsp) hg8 (by omega)
        hnone base2
      rw [hmax] at hff0
      subst hm1
      obtain ⟨⟨s, hff⟩, hsp, hq, hv, p1, p2, p3, p4, p5, p6, p7, p8⟩ := hpl
      obtain ⟨es, ek, eq⟩ := first_fit_unique hff hff0
      have hk0 : k = 0 := by rw [ek]; rfl
      subst hk0
      subst eq
      have hspe : sp = fresh_superpage 20 base2 := by
        simp [binary_page_memory_resource_impl.ctor] at hsp
        exact hsp.symm
      have hsh : sp.shaped := by
        rw [hspe]; exact fresh_superpage_shaped (by norm_num) (by norm_num) _
      have hS : sp.m_size = 20 := by rw [hspe]; rfl
      have hM : sp.m_memory = base2 := by rw [hspe]; rfl
      have hroot : page_ref.get_size sp 0 = 20 := by
        have := @get_size_eq sp 0 0 (by omega) (Nat.zero_le _) at_depth_zero
        rw [this, hS]
      rw [hroot, Nat.mul_one] at p5
      have hpow : 2 ≤ 2 ^ (20 - goal_of n) := by
        have : 2 ^ 1 ≤ 2 ^ (20 - goal_of n) := Nat.pow_le_pow_right (by norm_num) (by omega)
        simpa using this
      -- first call
      obtain ⟨r, hr1, _, hr3⟩ := get_addr_bounds hsh p2
      rw [p3, hS] at hr3
      have hr0 : r = 0 := by omega
      rw [hr0, Nat.zero_mul, Nat.add_zero, hM] at hr1
      rw [h5, hr1]
      refine ⟨rfl, ⟨sp.with_pages (set_page f c .OCCUPIED), ?_, hS, hM⟩, fun up2 host2 => ?_⟩
      · simp [placed_state, binary_page_memory_resource_impl.ctor]
      -- second call
      · have hcls := size_class_iff hsh hg8 (by omega : goal_of n ≤ sp.m_size)
        rw [hS] at hcls
        have hc1 := (hcls (c + 1)).1 ⟨by omega, by omega⟩
        have hff2 : first_fit
            (placed_state ⟨binary_page_memory_resource_impl.ctor.m_superpages ++
              [fresh_superpage 20 base2]⟩ 0 sp f c).m_superpages
            (goal_of n) (goal_of n) 0 (c + 1) := by
          refine ⟨le_refl _, ⟨sp.with_pages (set_page f c .OCCUPIED), ?_, ?_⟩,
            fun j sp2 hj => by omega, fun t ht1 ht2 => by omega⟩
          · simp [placed_state, binary_page_memory_resource_impl.ctor]
          · refine ⟨hc1.1, hc1.2, ?_, fun j hj hsz => ?_⟩
            · simp only [with_pages_pages]
              rw [set_page_other _ _ (by omega)]
              exact p6 (by omega)
            · simp only [get_size_with_pages] at hsz
              simp only [with_pages_pages]
              by_cases hjn : j < sp.m_num_pages
              · have := (hcls j).2 ⟨hjn, hsz⟩
                have hjc : j = c := by omega
                rw [hjc, set_page_same]
                simp
              · omega
        obtain ⟨sp2, b1, b2, _, b4, _⟩ := do_allocate_exact_fit h6 hff2 up2 host2
        have hsp2 : sp2 = sp.with_pages (set_page f c .OCCUPIED) := by
          simp [placed_state, binary_page_memory_resource_impl.ctor] at b1
          exact b1.symm
        obtain ⟨r2, hs1, _, hs3⟩ := get_addr_bounds hsh hc1.1
        rw [hc1.2, hS] at hs3
        have hr1' : r2 = 1 := by omega
        rw [hr1', Nat.one_mul, hM, hc1.2] at hs1
        rw [b2, hsp2, get_addr_with_pages, hs1]
        refine ⟨rfl, sp2.with_pages (set_page sp2.m_pages (c + 1) .OCCUPIED), ?_, ?_, ?_⟩
        · rw [b4]
          simp [placed_state, binary_page_memory_resource_impl.ctor]
        · rw [hsp2]; exact hS
        · rw [hsp2]; exact hM

/-- Witness of C6 (scenario B1): `n = 256` on a fresh engine whose upstream hands
out the block at address 4096; the goal is 8, so the two pointers are 4096 and
4096 + 256. -/
theorem exact_fit_on_fresh_engine_witness :
    goal_of 256 = 8 ∧
    (do_allocate (upstream_at 4096) host_granting
      binary_page_memory_resource_impl.ctor 256).1 = .ok 4096 ∧
    (∃ sp : superpage,
      (do_allocate (upstream_at 4096) host_granting
        binary_page_memory_resource_impl.ctor 256).2.m_superpages = [sp] ∧
      sp.m_size = 20 ∧ sp.m_memory = 4096) ∧
    ∀ (up2 : memory_resource) (host2 : host_heap),
      (do_allocate up2 host2 (do_allocate (upstream_at 4096) host_granting
        binary_page_memory_resource_impl.ctor 256).2 256).1 = .ok (4096 + 2 ^ goal_of 256) ∧
      ∃ sp2 : superpage,
        (do_allocate up2 host2 (do_allocate (upstream_at 4096) host_granting
          binary_page_memory_resource_impl.ctor 256).2 256).2.m_superpages = [sp2] ∧
        sp2.m_size = 20 ∧ sp2.m_memory = 4096 :=
  ⟨by decide,
    exact_fit_on_fresh_engine (upstream_at 4096) host_granting 4096 256 (by decide) (by decide)
      rfl ⟨rfl, rfl⟩⟩

/-! ## Arena growth bound -/

theorem take_block_current_size (a : arena) (b : block) (need : Nat) :
    (a.take_block b need).2.current_size = a.current_size ∧
      (a.take_block b need).2.maximum_size = a.maximum_size := ⟨rfl, rfl⟩

theorem deallocate_current_size (a : arena) (p bytes : Nat) :
    (a.deallocate p bytes).2.current_size = a.current_size ∧
      (a.deallocate p bytes).2.maximum_size = a.maximum_size := by
  unfold arena.deallocate
  split <;> exact ⟨rfl, rfl⟩

/-- An expansion for a request within the growth quantum ends below the cap. -/
theorem expand_arena_within_cap {up : memory_resource} {a a1 : arena} {size : Nat}
    (hq : align_up size ≤ a.size_superblocks) (h : a.expand_arena up size = some a1) :
    a1.current_size ≤ sub64 a1.maximum_size arena.reserverd_size := by
  unfold arena.expand_arena at h
  simp only at h
  split at h
  · rename_i hcap
    split at h
    · cases h
    · simp only [Option.some.injEq] at h
      subst h
      simp only [Nat.max_eq_right hq]
      exact hcap
  · cases h

theorem expand_arena_maximum_size {up : memory_resource} {a a1 : arena} {size : Nat}
    (h : a.expand_arena up size = some a1) : a1.maximum_size = a.maximum_size := by
  unfold arena.expand_arena at h
  simp only at h
  split at h
  · split at h
    · cases h
    · simp only [Option.some.injEq] at h
      subst h
      rfl
  · cases h

theorem allocate_maximum_size (up : memory_resource) (a : arena) (bytes : Nat) :
    (a.allocate up bytes).2.maximum_size = a.maximum_size := by
  unfold arena.allocate
  simp only
  cases hf : arena.first_fit a.free_blocks (align_up bytes) with
  | some b => rfl
  | none =>
    simp only
    cases he : a.expand_arena up (align_up bytes) with
    | none => rfl
    | some a1 =>
      simp only
      cases hf1 : arena.first_fit a1.free_blocks (align_up bytes) with
      | none => exact expand_arena_maximum_size he
      | some b =>
        simp only
        rw [(take_block_current_size a1 b _).2]
        exact expand_arena_maximum_size he

/-- One `allocate` within the growth quantum keeps the bound. -/
theorem allocate_within_cap (up : memory_resource) (a : arena) (bytes : Nat)
    (hq : a.within_quantum bytes)
    (h : a.current_size ≤ sub64 a.maximum_size arena.reserverd_size) :
    (a.allocate up bytes).2.current_size ≤
      sub64 (a.allocate up bytes).2.maximum_size arena.reserverd_size := by
  unfold arena.allocate
  simp only
  cases hf : arena.first_fit a.free_blocks (align_up bytes) with
  | some b =>
    simp only
    rw [(take_block_current_size a b _).1, (take_block_current_size a b _).2]
    exact h
  | none =>
    have hq2 : align_up bytes ≤ a.size_superblocks := by
      rcases hq with hq | hq
      · rw [hf] at hq; cases hq
      · exact hq
    have haa : align_up (align_up bytes) = align_up bytes := by
      unfold align_up allocation_alignment add64
      have h1 : (bytes + (256 - 1)) % 2 ^ 64 < 2 ^ 64 := Nat.mod_lt _ (by positivity)
      generalize (bytes + (256 - 1)) % 2 ^ 64 = t at h1 ⊢
      have e : (t / 256 * 256 + (256 - 1)) % 2 ^ 64 = t / 256 * 256 + (256 - 1) :=
        Nat.mod_eq_of_lt (by omega)
      rw [e]
      omega
    simp only
    cases he : a.expand_arena up (align_up bytes) with
    | none => exact h
    | some a1 =>
      have h1 := expand_arena_within_cap (by rw [haa]; exact hq2) he
      simp only
      cases hf1 : arena.first_fit a1.free_blocks (align_up bytes) with
      | none => exact h1
      | some b =>
        simp only
        rw [(take_block_current_size a1 b _).1, (take_block_current_size a1 b _).2]
        exact h1

/-- Where the growth check does its work: in every state reachable from
construction with `(initial_size, maximum_size)` by `deallocate` calls and by
`allocate` calls that are served from a free block or whose aligned size does
not exceed the growth quantum `superblock_size` (so that the bytes acquired are
the bytes tested), `current_size ≤ maximum_size − RESERVED`, the subtraction
taken modulo `2 ^ 64`; this holds for every `maximum_size`, also below
`2 ^ 26`. -/
theorem arena_growth_bound (initial_size maximum_size : Nat) (a : arena)
    (h : arena.reachable_within_quantum initial_size maximum_size a) :
    a.maximum_size = maximum_size ∧
      a.current_size ≤ sub64 maximum_size arena.reserverd_size := by
  induction h with
  | ctor => exact ⟨rfl, Nat.zero_le _⟩
  | @allocate a0 up bytes _ hq ih =>
    have hb := allocate_within_cap up a0 bytes hq (by rw [ih.1]; exact ih.2)
    have hm := allocate_maximum_size up a0 bytes
    rw [hm, ih.1] at hb
    exact ⟨by rw [hm]; exact ih.1, hb⟩
  | @deallocate a0 p bytes _ ih =>
    rw [(deallocate_current_size a0 p bytes).1, (deallocate_current_size a0 p bytes).2]
    exact ih

/-- Scenario A2: constructed with `(2 ^ 18, 3 * 2 ^ 18)`, after
one `allocate` of 100 KiB the arena holds `2 ^ 18` bytes; `maximum_size` is below
`2 ^ 26`, so the cap is `2 ^ 64 − 2 ^ 26 + 3 * 2 ^ 18`. -/
theorem arena_growth_bound_witness :
    arena_a2.current_size = 2 ^ 18 ∧
    sub64 (3 * 2 ^ 18) arena.reserverd_size = 2 ^ 64 - 2 ^ 26 + 3 * 2 ^ 18 ∧
    arena_a2.maximum_size = 3 * 2 ^ 18 ∧
    arena_a2.current_size ≤ sub64 (3 * 2 ^ 18) arena.reserverd_size :=
  ⟨by decide!, by decide!,
    arena_growth_bound (2 ^ 18) (3 * 2 ^ 18) arena_a2
      (arena.reachable_within_quantum.allocate (upstream_at 4096) 102400
        arena.reachable_within_quantum.ctor (Or.inr (by decide!)))⟩

/-! ## Goal computation -/

/-- For requests of at most `2 ^ 31` bytes `round_up` is the least exponent:
`size ≤ 2 ^ round_up size`, and `round_up size ≤ i` whenever `size ≤ 2 ^ i`. -/
theorem round_up_is_least {size : Nat} (hs : size ≤ 2 ^ 31) :
    size ≤ 2 ^ round_up size ∧ ∀ i, size ≤ 2 ^ i → round_up size ≤ i := by
  refine ⟨le_two_pow_round_up hs, fun i hi => ?_⟩
  by_cases h31 : i ≤ 31
  · exact round_up_loop_le_of_le size i h31 hi 32 0 (by norm_num) (Nat.zero_le _)
  · exact le_trans (round_up_le size) (by omega)

/-- C12 (evaluation at the failing input): for `bytes = 2 ^ 31 + 1` the least
`i` with `2 ^ i ≥ bytes` is 32, but `round_up` runs out of its 32 iterations and
returns 0, so the goal is `max(8, 0) = 8` instead of 32; the same happens for
the largest `size_t` value. -/
theorem round_up_gives_up_above_two_pow_31 :
    round_up (2 ^ 31 + 1) = 0 ∧ goal_of (2 ^ 31 + 1) = 8 ∧
    ¬ 2 ^ 31 + 1 ≤ 2 ^ round_up (2 ^ 31 + 1) ∧
    2 ^ 31 + 1 ≤ 2 ^ 32 ∧ (∀ i, i < 32 → ¬ 2 ^ 31 + 1 ≤ 2 ^ i) ∧
    round_up (2 ^ 64 - 1) = 0 ∧ goal_of (2 ^ 64 - 1) = 8 := by
  decide

/-! ## `find_free_page` prefers the exact size -/

/-- C13 (`find_free_page` prefers exact size): for every engine whose superpages
have the shape their constructor gives them and every `goal ≥ 8`,
`find_free_page(goal)` returns; it returns a page exactly when some superpage
holds a `VACANT` page of size at least `goal`, and missing exactly when none
does.  The page returned is `VACANT`; its size is the smallest size `≥ goal` at
which any superpage has a `VACANT` page; no earlier superpage has a `VACANT`
page of that size, and it has the lowest index among the `VACANT` pages of that
size in its superpage. -/
theorem find_free_page_prefers_exact_size (m : binary_page_memory_resource_impl)
    (hall : ∀ sp ∈ m.m_superpages, sp.shaped) (goal : Nat) (hg : 8 ≤ goal) :
    (find_free_page m goal = .ok none ∨ ∃ c, find_free_page m goal = .ok (some c)) ∧
    ((∃ c, find_free_page m goal = .ok (some c)) ↔
      ∃ sp ∈ m.m_superpages, ∃ i, i < sp.m_num_pages ∧ sp.m_pages i = .VACANT ∧
        goal ≤ page_ref.get_size sp i) ∧
    (find_free_page m goal = .ok none ↔
      ∀ sp ∈ m.m_superpages, ∀ i, i < sp.m_num_pages → goal ≤ page_ref.get_size sp i →
        sp.m_pages i ≠ .VACANT) ∧
    (∀ c, find_free_page m goal = .ok (some c) →
      ∃ sp : superpage, m.m_superpages[c.m_superpage]? = some sp ∧
        c.m_page < sp.m_num_pages ∧ sp.m_pages c.m_page = .VACANT ∧
        goal ≤ page_ref.get_size sp c.m_page ∧
        (∀ sp2 ∈ m.m_superpages, ∀ i, i < sp2.m_num_pages → sp2.m_pages i = .VACANT →
          goal ≤ page_ref.get_size sp2 i →
          page_ref.get_size sp c.m_page ≤ page_ref.get_size sp2 i) ∧
        (∀ (k2 : Nat) (sp2 : superpage), k2 < c.m_superpage →
          m.m_superpages[k2]? = some sp2 → ∀ i, i < sp2.m_num_pages →
          page_ref.get_size sp2 i = page_ref.get_size sp c.m_page →
          sp2.m_pages i ≠ .VACANT) ∧
        (∀ i, i < c.m_page → page_ref.get_size sp i = page_ref.get_size sp c.m_page →
          sp.m_pages i ≠ .VACANT)) := by
  have hsome : ∀ c, find_free_page m goal = .ok (some c) →
      ∃ sp : superpage, m.m_superpages[c.m_superpage]? = some sp ∧
        c.m_page < sp.m_num_pages ∧ sp.m_pages c.m_page = .VACANT ∧
        goal ≤ page_ref.get_size sp c.m_page ∧
        (∀ sp2 ∈ m.m_superpages, ∀ i, i < sp2.m_num_pages → sp2.m_pages i = .VACANT →
          goal ≤ page_ref.get_size sp2 i →
          page_ref.get_size sp c.m_page ≤ page_ref.get_size sp2 i) ∧
        (∀ (k2 : Nat) (sp2 : superpage), k2 < c.m_superpage →
          m.m_superpages[k2]? = some sp2 → ∀ i, i < sp2.m_num_pages →
          page_ref.get_size sp2 i = page_ref.get_size sp c.m_page →
          sp2.m_pages i ≠ .VACANT) ∧
        (∀ i, i < c.m_page → page_ref.get_size sp i = page_ref.get_size sp c.m_page →
          sp.m_pages i ≠ .VACANT) := by
    intro c hc
    obtain ⟨s, a1, ⟨sp, a2, a3, a4, a5, a6⟩, a7, a8⟩ := first_fit_of_find_free_page hall hg hc
    refine ⟨sp, a2, a3, a5, by rw [a4]; exact a1, fun sp2 hsp2 i hi hv hge => ?_,
      fun k2 sp2 hk2 hget i hi hsz => ?_, fun i hi hsz => ?_⟩
    · rw [a4]
      by_contra hlt
      exact a8 (page_ref.get_size sp2 i) hge (by omega) sp2 hsp2 i hi rfl hv
    · rw [a4] at hsz
      exact a7 k2 sp2 hk2 hget i hi hsz
    · rw [a4] at hsz
      exact a6 i hi hsz
  have hnone : find_free_page m goal = .ok none →
      ∀ sp ∈ m.m_superpages, ∀ i, i < sp.m_num_pages → goal ≤ page_ref.get_size sp i →
        sp.m_pages i ≠ .VACANT := by
    intro h sp hsp i hi hge
    exact no_vacant_of_find_free_page hall hg h _ hge sp hsp i hi rfl
  have htotal : find_free_page m goal = .ok none ∨ ∃ c, find_free_page m goal = .ok (some c) := by
    rcases find_free_page_spec hall hg with ⟨h1, _⟩ | ⟨s, k, x, _, h2⟩
    · exact Or.inl h1
    · exact Or.inr ⟨_, h2⟩
  refine ⟨htotal, ⟨?_, ?_⟩, ⟨hnone, ?_⟩, hsome⟩
  · rintro ⟨c, hc⟩
    obtain ⟨sp, b1, b2, b3, b4, _⟩ := hsome c hc
    exact ⟨sp, List.getElem?_mem b1, c.m_page, b2, b3, b4⟩
  · rintro ⟨sp, hsp, i, hi, hv, hge⟩
    rcases htotal with h | h
    · exact absurd hv (hnone h sp hsp i hi hge)
    · exact h
  · intro h
    rcases htotal with h1 | ⟨c, hc⟩
    · exact h1
    · obtain ⟨sp, b1, b2, b3, b4, _⟩ := hsome c hc
      exact absurd b3 (h sp (List.getElem?_mem b1) c.m_page b2 b4)

set_option maxRecDepth 100000 in
/-- Witness of C13: the engine of scenario B1 (one superpage of log2 size 20,
page 4095 `OCCUPIED`) and goal 8: `find_free_page(8)` returns page 4096. -/
theorem find_free_page_prefers_exact_size_witness :
    find_free_page scenario_b1 8 = .ok (some ⟨0, 4096⟩) ∧
    (find_free_page scenario_b1 8 = .ok none ∨
      ∃ c, find_free_page scenario_b1 8 = .ok (some c)) ∧
    ((∃ c, find_free_page scenario_b1 8 = .ok (some c)) ↔
      ∃ sp ∈ scenario_b1.m_superpages, ∃ i, i < sp.m_num_pages ∧ sp.m_pages i = .VACANT ∧
        8 ≤ page_ref.get_size sp i) ∧
    (find_free_page scenario_b1 8 = .ok none ↔
      ∀ sp ∈ scenario_b1.m_superpages, ∀ i, i < sp.m_num_pages →
        8 ≤ page_ref.get_size sp i → sp.m_pages i ≠ .VACANT) ∧
    (∀ c, find_free_page scenario_b1 8 = .ok (some c) →
      ∃ sp : superpage, scenario_b1.m_superpages[c.m_superpage]? = some sp ∧
        c.m_page < sp.m_num_pages ∧ sp.m_pages c.m_page = .VACANT ∧
        8 ≤ page_ref.get_size sp c.m_page ∧
        (∀ sp2 ∈ scenario_b1.m_superpages, ∀ i, i < sp2.m_num_pages →
          sp2.m_pages i = .VACANT → 8 ≤ page_ref.get_size sp2 i →
          page_ref.get_size sp c.m_page ≤ page_ref.get_size sp2 i) ∧
        (∀ (k2 : Nat) (sp2 : superpage), k2 < c.m_superpage →
          scenario_b1.m_superpages[k2]? = some sp2 → ∀ i, i < sp2.m_num_pages →
          page_ref.get_size sp2 i = page_ref.get_size sp c.m_page →
          sp2.m_pages i ≠ .VACANT) ∧
        (∀ i, i < c.m_page → page_ref.get_size sp i = page_ref.get_size sp c.m_page →
          sp.m_pages i ≠ .VACANT)) :=
  ⟨by decide!,
    find_free_page_prefers_exact_size scenario_b1
      (fun sp hsp => ((engine_ok_of_reachable scenario_b1_reachable).1 sp hsp).1) 8
      (le_refl 8)⟩

/-! ## The page size formula -/

/-- `get_size` of a page at depth `d`, for any `size_t` value of `m_size`. -/
theorem get_size_of_depth {sp : superpage} {i d : Nat} (hS : sp.m_size < 2 ^ 64)
    (hd63 : d ≤ 63) (hd : d ≤ sp.m_size) (h : at_depth i d) :
    sub64 (8 * 8 - 1) (clzl (add64 i 1)) = d ∧ page_ref.get_size sp i = sp.m_size - d := by
  have hlt : i + 1 < 2 ^ 64 :=
    lt_of_lt_of_le h.2 (Nat.pow_le_pow_right (by norm_num) (by omega))
  have h1 : sub64 (8 * 8 - 1) (clzl (add64 i 1)) = d := by
    rw [add64_eq hlt, clzl_eq hd63 h.1 h.2, sub64_eq (by omega) (by norm_num)]; omega
  refine ⟨h1, ?_⟩
  unfold page_ref.get_size
  rw [h1, sub64_eq hd hS]

theorem log2_unique {i d : Nat} (h : at_depth i d) : Nat.log2 (i + 1) = d :=
  at_depth_unique (at_depth_log2 i) h

/-- C14 (page size formula): for every superpage with `m_size = S ≥ 8` and
`m_num_pages = 2 * 2 ^ (S - 8) - 1` (a `size_t` value) and every index
`i < m_num_pages`: `63 - clzl(i + 1)` is `floor(log2(i + 1))`, `get_size()` is
`S - floor(log2(i + 1))` and lies between 8 and `S`; and when `get_size()` is
above 8, the children `2 * i + 1` and `2 * i + 2` (computed without overflow) are
valid indices whose `get_size()` is one less. -/
theorem page_size_formula (sp : superpage) (h8 : 8 ≤ sp.m_size)
    (hnum : sp.m_num_pages = 2 * 2 ^ (sp.m_size - 8) - 1) (hrep : sp.m_num_pages < 2 ^ 64)
    (i : Nat) (hi : i < sp.m_num_pages) :
    sub64 (8 * 8 - 1) (clzl (add64 i 1)) = Nat.log2 (i + 1) ∧
    page_ref.get_size sp i = sp.m_size - Nat.log2 (i + 1) ∧
    8 ≤ page_ref.get_size sp i ∧ page_ref.get_size sp i ≤ sp.m_size ∧
    (8 < page_ref.get_size sp i →
      page_ref.left_child sp i = .ok (2 * i + 1) ∧
      page_ref.right_child sp i = .ok (2 * i + 2) ∧
      2 * i + 2 < sp.m_num_pages ∧
      page_ref.get_size sp (2 * i + 1) = page_ref.get_size sp i - 1 ∧
      page_ref.get_size sp (2 * i + 2) = page_ref.get_size sp i - 1) := by
  have hpos : 0 < 2 ^ (sp.m_size - 8) := by positivity
  have hnum1 : sp.m_num_pages + 1 = 2 ^ (sp.m_size - 8 + 1) := by
    rw [hnum, Nat.pow_succ]; omega
  -- the table is a `size_t`, so `S ≤ 71`
  have hS71 : sp.m_size - 8 + 1 ≤ 64 := by
    by_contra hc
    have : 2 ^ 65 ≤ 2 ^ (sp.m_size - 8 + 1) := Nat.pow_le_pow_right (by norm_num) (by omega)
    omega
  have hS : sp.m_size < 2 ^ 64 := by omega
  have hdep := at_depth_log2 i
  have hlog : Nat.log2 (i + 1) < sp.m_size - 8 + 1 :=
    (Nat.log2_lt (by omega)).2 (by omega)
  obtain ⟨e1, e2⟩ := @get_size_of_depth sp _ _ hS (by omega) (by omega) hdep
  refine ⟨e1, e2, by omega, by omega, fun hgt => ?_⟩
  have hd1 : Nat.log2 (i + 1) + 1 ≤ sp.m_size - 8 := by omega
  have hl := at_depth_left hdep
  have hr := at_depth_right hdep
  have hpow : 2 ^ (Nat.log2 (i + 1) + 1 + 1) ≤ 2 ^ (sp.m_size - 8 + 1) :=
    Nat.pow_le_pow_right (by norm_num) (by omega)
  have hrv : 2 * i + 2 < sp.m_num_pages := by
    have := hr.2
    omega
  have hi64 : 2 * i + 2 < 2 ^ 64 := by omega
  obtain ⟨_, l2⟩ := @get_size_of_depth sp _ _ hS (by omega) (by omega) hl
  obtain ⟨_, r2⟩ := @get_size_of_depth sp _ _ hS (by omega) (by omega) hr
  have hli : add64 (mul64 2 i) 1 = 2 * i + 1 := by
    rw [mul64_eq (by omega), add64_eq (by omega)]
  have hri : add64 (mul64 2 i) 2 = 2 * i + 2 := by
    rw [mul64_eq (by omega), add64_eq (by omega)]
  refine ⟨?_, ?_, hrv, by rw [l2, e2]; omega, by rw [r2, e2]; omega⟩
  · unfold page_ref.left_child
    rw [hli, page_ref_ctor_ok (by omega)]
  · unfold page_ref.right_child
    rw [hri, page_ref_ctor_ok hrv]

/-- Witness of C14: page 5 of a superpage of log2 size 20 lies at depth 2 and
has log2 size 18. -/
theorem page_size_formula_witness :
    Nat.log2 (5 + 1) = 2 ∧
    sub64 (8 * 8 - 1) (clzl (add64 5 1)) = Nat.log2 (5 + 1) ∧
    page_ref.get_size (fresh_superpage 20 4096) 5
      = (fresh_superpage 20 4096).m_size - Nat.log2 (5 + 1) ∧
    8 ≤ page_ref.get_size (fresh_superpage 20 4096) 5 ∧
    page_ref.get_size (fresh_superpage 20 4096) 5 ≤ (fresh_superpage 20 4096).m_size ∧
    (8 < page_ref.get_size (fresh_superpage 20 4096) 5 →
      page_ref.left_child (fresh_superpage 20 4096) 5 = .ok (2 * 5 + 1) ∧
      page_ref.right_child (fresh_superpage 20 4096) 5 = .ok (2 * 5 + 2) ∧
      2 * 5 + 2 < (fresh_superpage 20 4096).m_num_pages ∧
      page_ref.get_size (fresh_superpage 20 4096) (2 * 5 + 1)
        = page_ref.get_size (fresh_superpage 20 4096) 5 - 1 ∧
      page_ref.get_size (fresh_superpage 20 4096) (2 * 5 + 2)
        = page_ref.get_size (fresh_superpage 20 4096) 5 - 1) :=
  ⟨log2_unique (by unfold at_depth; decide),
    page_size_formula (fresh_superpage 20 4096) (by decide) (by decide) (by decide) 5
      (by decide)⟩

/-! ## Superpage acquisition -/

theorem occupy_length (m : binary_page_memory_resource_impl) (goal : Nat) (c : page_ref) :
    (occupy m goal c).2.m_superpages.length = m.m_superpages.length := by
  unfold occupy
  split
  · rfl
  · split
    · rfl
    · simp

theorem set_append_last {α : Type} (l : List α) (a b : α) :
    (l ++ [a]).set l.length b = l ++ [b] := by
  induction l with
  | nil => rfl
  | cons x xs ih => simp [List.set, ih]

/-- C15 (superpage acquisition): on an engine whose superpages have the shape
their constructor gives them, `do_allocate(n)` asks the upstream only when
`find_free_page(goal)` is missing.  When a page is found, the call is the same
for every upstream and every host heap, and the list keeps its length.  When
none is found and the upstream (or the host heap) refuses, the call throws
`std::bad_alloc` and the engine is unchanged.  When none is found, the host
heap grants its requests and the upstream hands out the block at `base`,
`allocate_upstream` appends exactly one superpage at the end of the list, with
`m_size = max(goal, new_page_size)`, `m_num_pages = 2 * 2 ^ (m_size - 8) - 1`,
page 0 `VACANT`, every other page `NON_EXTANT` and memory `base`; after the call
the earlier superpages are unchanged and in the same order, followed by that one
superpage.  In every case the list does not shrink. -/
theorem superpage_acquisition (m : binary_page_memory_resource_impl)
    (hall : ∀ sp ∈ m.m_superpages, sp.shaped) (up : memory_resource) (host : host_heap)
    (n : Nat) :
    ((∃ c, find_free_page m (goal_of n) = .ok (some c)) →
      (∀ (up2 : memory_resource) (host2 : host_heap),
        do_allocate up2 host2 m n = do_allocate up host m n) ∧
      (do_allocate up host m n).2.m_superpages.length = m.m_superpages.length) ∧
    (find_free_page m (goal_of n) = .ok none →
      (¬ host_grants host m (goal_of n) ∨
        up (shl64 1 (max (goal_of n) new_page_size)) = none) →
      (do_allocate up host m n).1 = .error .bad_alloc ∧ (do_allocate up host m n).2 = m) ∧
    (∀ base, find_free_page m (goal_of n) = .ok none →
      up (shl64 1 (max (goal_of n) new_page_size)) = some base →
      host_grants host m (goal_of n) →
      ∃ sp0 : superpage,
        allocate_upstream up host m (goal_of n) = .ok ⟨m.m_superpages ++ [sp0]⟩ ∧
        sp0.m_size = max (goal_of n) new_page_size ∧
        sp0.m_num_pages = 2 * 2 ^ (sp0.m_size - 8) - 1 ∧
        sp0.m_pages 0 = .VACANT ∧ (∀ i, i ≠ 0 → sp0.m_pages i = .NON_EXTANT) ∧
        sp0.m_memory = base ∧
        ∃ sp1 : superpage,
          (do_allocate up host m n).2.m_superpages = m.m_superpages ++ [sp1] ∧
          sp1.m_size = sp0.m_size ∧ sp1.m_num_pages = sp0.m_num_pages ∧
          sp1.m_memory = base) ∧
    m.m_superpages.length ≤ (do_allocate up host m n).2.m_superpages.length := by
  have hg := goal_of_ge n
  have hg31 := goal_of_le n
  have h63 : max (goal_of n) new_page_size ≤ 63 := by unfold new_page_size; omega
  have hshl : shl64 1 (max (goal_of n) new_page_size) = 2 ^ max (goal_of n) new_page_size :=
    shl64_one h63
  have hstate : ∀ (up1 : memory_resource) (host1 : host_heap) (c : page_ref),
      find_free_page m (goal_of n) = .ok (some c) →
      do_allocate_cand up1 host1 m n = occupy m (goal_of n) c := by
    intro up1 host1 c hc
    unfold do_allocate_cand
    simp only [hc]
  refine ⟨?_, ?_, ?_, ?_⟩
  · rintro ⟨c, hc⟩
    constructor
    · intro up2 host2
      unfold do_allocate
      rw [hstate up2 host2 c hc, hstate up host c hc]
    · unfold do_allocate
      rw [hstate up host c hc]
      have := occupy_length m (goal_of n) c
      split <;> rename_i heq <;> rw [heq] at this <;> exact this
  · intro hnone hup
    rw [hshl] at hup
    rcases do_allocate_cand_cases up host hall n with
      ⟨s, k, q, _, h2, _⟩ | ⟨_, _, _, h3⟩ | ⟨base, _, h2, _, _, hh⟩
    · rw [hnone] at h2; cases h2
    · rw [do_allocate_of_cand_error h3]
      exact ⟨rfl, rfl⟩
    · rcases hup with hup | hup
      · exact absurd hh hup
      · rw [hup] at h2; cases h2
  · intro base hnone hup hgr
    rw [hshl] at hup
    have hau := allocate_upstream_eq up (show goal_of n ≤ 63 by omega) hgr
    rw [hup] at hau
    refine ⟨fresh_superpage (max (goal_of n) new_page_size) base, hau, rfl, rfl, rfl,
      fun i hi => by simp [fresh_superpage, hi], rfl, ?_⟩
    rcases do_allocate_cand_cases up host hall n with
      ⟨s, k, q, _, h2, _⟩ | ⟨_, h2, _⟩ | ⟨base2, _, h2, h3, h4, _⟩
    · rw [hnone] at h2; cases h2
    · rcases h2 with h2 | h2
      · exact absurd hgr h2
      · rw [hup] at h2; cases h2
    · rw [hup] at h2
      have hb : base2 = base := (Option.some.inj h2).symm
      subst hb
      obtain ⟨sp, hsp, hq, hv, hsz, hge⟩ := first_fit_page h3
      have hspe : sp = fresh_superpage (max (goal_of n) new_page_size) base2 := by
        rw [List.getElem?_append_right (le_refl _)] at hsp
        simp at hsp
        exact hsp.symm
      have hsh : sp.shaped := by
        rw [hspe]
        exact fresh_superpage_shaped (by unfold new_page_size; omega) h63 base2
      have ht : sp.tree_ok := by rw [hspe]; exact fresh_superpage_tree_ok _ _
      obtain ⟨f, c, _, hocc⟩ := occupy_spec hg hsp hsh ht hq hv (by rw [hsz]; exact hge)
      rw [hocc] at h4
      rw [do_allocate_of_cand_ok h4]
      refine ⟨sp.with_pages (set_page f c .OCCUPIED), ?_, ?_, ?_, ?_⟩
      · simp only
        exact set_append_last _ _ _
      · rw [hspe]; rfl
      · rw [hspe]; rfl
      · rw [hspe]; rfl
  · rcases do_allocate_cand_cases up host hall n with
      ⟨s, k, q, _, _, h3⟩ | ⟨_, _, _, h3⟩ | ⟨base, _, _, _, h4, _⟩
    · unfold do_allocate
      have := occupy_length m (goal_of n) ⟨k, q⟩
      rw [← h3] at this
      split <;> rename_i heq <;> rw [heq] at this <;> simp only at this ⊢ <;> omega
    · rw [do_allocate_of_cand_error h3]
    · unfold do_allocate
      have := occupy_length
        ⟨m.m_superpages ++ [fresh_superpage (max (goal_of n) new_page_size) base]⟩
        (goal_of n) ⟨m.m_superpages.length, 0⟩
      rw [← h4] at this
      simp only [List.length_append, List.length_singleton] at this
      split <;> rename_i heq <;> rw [heq] at this <;> simp only at this ⊢ <;> omega

/-- Witness of C15: on a fresh engine `find_free_page` is missing; with an
upstream that hands out the block at address 4096 and a host heap that grants
its requests, `do_allocate(256)` appends one superpage of log2 size 20. -/
theorem superpage_acquisition_witness :
    find_free_page binary_page_memory_resource_impl.ctor (goal_of 256) = .ok none ∧
    upstream_at 4096 (shl64 1 (max (goal_of 256) new_page_size)) = some 4096 ∧
    max (goal_of 256) new_page_size = 20 ∧
    host_grants host_granting binary_page_memory_resource_impl.ctor (goal_of 256) ∧
    ∃ sp0 : superpage,
      allocate_upstream (upstream_at 4096) host_granting
          binary_page_memory_resource_impl.ctor (goal_of 256)
        = .ok ⟨binary_page_memory_resource_impl.ctor.m_superpages ++ [sp0]⟩ ∧
      sp0.m_size = max (goal_of 256) new_page_size ∧
      sp0.m_num_pages = 2 * 2 ^ (sp0.m_size - 8) - 1 ∧
      sp0.m_pages 0 = .VACANT ∧ (∀ i, i ≠ 0 → sp0.m_pages i = .NON_EXTANT) ∧
      sp0.m_memory = 4096 ∧
      ∃ sp1 : superpage,
        (do_allocate (upstream_at 4096) host_granting
          binary_page_memory_resource_impl.ctor 256).2.m_superpages
          = binary_page_memory_resource_impl.ctor.m_superpages ++ [sp1] ∧
        sp1.m_size = sp0.m_size ∧ sp1.m_num_pages = sp0.m_num_pages ∧
        sp1.m_memory = 4096 :=
  ⟨rfl, rfl, by decide, host_grants_granting _ _,
    (superpage_acquisition binary_page_memory_resource_impl.ctor
      (fun sp hsp => by simp [binary_page_memory_resource_impl.ctor] at hsp)
      (upstream_at 4096) host_granting 256).2.2.1 4096 rfl rfl (host_grants_granting _ _)⟩

/-! ## Splitting down the left spine -/

theorem leftmost_zero (q : Nat) : leftmost q 0 = q := by
  unfold leftmost; simp

theorem leftmost_succ (q j : Nat) : leftmost q (j + 1) = leftmost (2 * q + 1) j := by
  unfold leftmost
  rw [Nat.pow_succ]
  have : 2 ^ j * 2 * (q + 1) = 2 ^ j * (2 * q + 1 + 1) := by ring
  rw [this]

theorem leftmost_step (q j : Nat) : leftmost q (j + 1) = 2 * leftmost q j + 1 := by
  unfold leftmost
  rw [Nat.pow_succ]
  have hpos : 0 < 2 ^ j * (q + 1) := by positivity
  have : 2 ^ j * 2 * (q + 1) = 2 * (2 ^ j * (q + 1)) := by ring
  rw [this]
  omega

theorem leftmost_ge (q j : Nat) : q ≤ leftmost q j := by
  induction j with
  | zero => rw [leftmost_zero]
  | succ j ih => rw [leftmost_step]; omega

theorem leftmost_ge_of_pos (q : Nat) {j : Nat} (hj : 1 ≤ j) : 2 * q + 1 ≤ leftmost q j := by
  obtain ⟨k, rfl⟩ : ∃ k, j = k + 1 := ⟨j - 1, by omega⟩
  rw [leftmost_step]
  have := leftmost_ge q k
  omega

theorem leftmost_ge_of_two (q : Nat) {j : Nat} (hj : 2 ≤ j) : 4 * q + 3 ≤ leftmost q j := by
  obtain ⟨k, rfl⟩ : ∃ k, j = k + 1 := ⟨j - 1, by omega⟩
  rw [leftmost_step]
  have := leftmost_ge_of_pos q (show 1 ≤ k by omega)
  omega

/-- Effect of `t` splits down from a `VACANT` page `q` of size `goal + t`: the
split loop performs exactly these `t` splits; the spine `leftmost q j`, `j < t`,
is `SPLIT`, the right children `leftmost q j + 1`, `1 ≤ j ≤ t`, were
`NON_EXTANT` and are `VACANT`, the page `leftmost q t` is `VACANT`, and no other
page changes. -/
theorem split_times_spec {goal : Nat} (hg : 8 ≤ goal) :
    ∀ (t : Nat) (sp : superpage) (q : Nat), sp.shaped → sp.tree_ok → q < sp.m_num_pages →
      sp.m_pages q = .VACANT → page_ref.get_size sp q = goal + t →
      ∃ f, split_times t sp q = .ok (sp.with_pages f, leftmost q t) ∧
        (∀ n, t < n → split_loop goal n sp q = split_times t sp q) ∧
        (∀ j, j < t → f (leftmost q j) = .SPLIT) ∧
        (∀ j, 1 ≤ j → j ≤ t →
          sp.m_pages (leftmost q j + 1) = .NON_EXTANT ∧ f (leftmost q j + 1) = .VACANT) ∧
        f (leftmost q t) = .VACANT ∧
        (∀ i, (∀ j, j ≤ t → i ≠ leftmost q j) →
          (∀ j, 1 ≤ j → j ≤ t → i ≠ leftmost q j + 1) → f i = sp.m_pages i) := by
  intro t
  induction t with
  | zero =>
    intro sp q _ _ _ hv hsz
    refine ⟨sp.m_pages, ?_, fun n hn => ?_, fun j hj => by omega, fun j h1 h2 => by omega,
      by rw [leftmost_zero]; exact hv, fun i _ _ => rfl⟩
    · rw [leftmost_zero]; rfl
    · obtain ⟨k, rfl⟩ : ∃ k, n = k + 1 := ⟨n - 1, by omega⟩
      unfold split_loop split_times
      rw [if_neg (by omega)]
  | succ t ih =>
    intro sp q hsh ht hq hv hsz
    have hs8 : 8 < page_ref.get_size sp q := by omega
    obtain ⟨hc, hl, hr⟩ := children_valid hsh hq hs8
    have hne := (ht.2.1 q hc).2 (by rw [hv]; simp)
    have hsplit := split_ok hsh ht hq hs8 hv
    have hleft : page_ref.left_child (sp.with_pages (split_pages sp.m_pages q)) q
        = .ok (2 * q + 1) :=
      left_child_ok (shaped_with_pages hsh _) (by simp only [with_pages_num]; omega)
    obtain ⟨f, h1, h2, h3, h4, h5, h6⟩ :=
      ih (sp.with_pages (split_pages sp.m_pages q)) (2 * q + 1) (shaped_with_pages hsh _)
        (tree_ok_split ht hc hv) (by simp only [with_pages_num]; omega)
        (by simp only [with_pages_pages]; exact split_pages_left _ _)
        (by simp only [get_size_with_pages]; omega)
    simp only [with_pages_with_pages, with_pages_pages] at h1 h4 h6
    refine ⟨f, ?_, fun n hn => ?_, fun j hj => ?_, fun j hj1 hj2 => ?_, ?_, fun i hi1 hi2 => ?_⟩
    · unfold split_times
      rw [hsplit]
      simp only [hleft]
      rw [leftmost_succ]
      exact h1
    · obtain ⟨k, rfl⟩ : ∃ k, n = k + 1 := ⟨n - 1, by omega⟩
      unfold split_loop
      rw [if_pos (by omega), hsplit]
      simp only [hleft]
      rw [h2 k (by omega)]
      conv_rhs => unfold split_times
      rw [hsplit]
      simp only [hleft]
    · cases j with
      | zero =>
        rw [leftmost_zero]
        have e := h6 q
          (fun j _ => by have := leftmost_ge (2 * q + 1) j; omega)
          (fun j _ _ => by have := leftmost_ge (2 * q + 1) j; omega)
        rw [e]
        exact split_pages_self _ _
      | succ j =>
        rw [leftmost_succ]
        exact h3 j (by omega)
    · obtain ⟨k, rfl⟩ : ∃ k, j = k + 1 := ⟨j - 1, by omega⟩
      rw [leftmost_succ]
      cases k with
      | zero =>
        rw [leftmost_zero]
        refine ⟨hne.2, ?_⟩
        have e := h6 (2 * q + 1 + 1)
          (fun j _ => by
            rcases Nat.eq_zero_or_pos j with h0 | hpos
            · rw [h0, leftmost_zero]; omega
            · have := leftmost_ge_of_pos (2 * q + 1) hpos; omega)
          (fun j hj _ => by have := leftmost_ge_of_pos (2 * q + 1) hj; omega)
        rw [e]
        exact split_pages_right _ _
      | succ k =>
        have := h4 (k + 1) (by omega) (by omega)
        refine ⟨?_, this.2⟩
        have hbig := leftmost_ge_of_pos (2 * q + 1) (show 1 ≤ k + 1 by omega)
        rw [← this.1]
        exact (split_pages_other _ (by omega) (by omega) (by omega)).symm
    · rw [leftmost_succ]; exact h5
    · have e := h6 i
        (fun j hj => by have := hi1 (j + 1) (by omega); rw [leftmost_succ] at this; exact this)
        (fun j hj1 hj2 => by
          have := hi2 (j + 1) (by omega) (by omega); rw [leftmost_succ] at this; exact this)
      rw [e]
      have h0 := hi1 0 (by omega)
      have h1' := hi1 1 (by omega)
      have h2' := hi2 1 (by omega) (by omega)
      rw [leftmost_zero] at h0
      rw [leftmost_succ, leftmost_zero] at h1' h2'
      exact split_pages_other _ h0 h1' h2'

theorem walk_left_spine (q j : Nat) : walk q (List.replicate j false) = leftmost q j := by
  induction j generalizing q with
  | zero => rw [leftmost_zero]; rfl
  | succ j ih =>
    rw [List.replicate_succ, walk_cons, leftmost_succ]
    have : child q false = 2 * q + 1 := by simp [child]
    rw [this, ih]

theorem in_subtree_leftmost (q j : Nat) : in_subtree q (leftmost q j) :=
  ⟨List.replicate j false, (walk_left_spine q j).symm⟩

theorem in_subtree_right_of_spine (q : Nat) {j : Nat} (hj : 1 ≤ j) :
    in_subtree q (leftmost q j + 1) := by
  obtain ⟨k, rfl⟩ : ∃ k, j = k + 1 := ⟨j - 1, by omega⟩
  refine ⟨List.replicate k false ++ [true], ?_⟩
  rw [walk_append, walk_left_spine, leftmost_step]
  simp [walk, child]

theorem at_depth_leftmost {q d : Nat} (h : at_depth q d) (t : Nat) :
    at_depth (leftmost q t) (d + t) := by
  induction t with
  | zero => rw [leftmost_zero]; exact h
  | succ t ih =>
    rw [leftmost_step]
    exact at_depth_left ih

/-- The leftmost descendant of a page starts at the address of the page. -/
theorem get_addr_leftmost {sp : superpage} (hsh : sp.shaped) {q t : Nat}
    (hq : q < sp.m_num_pages) (hc : leftmost q t < sp.m_num_pages) :
    page_ref.get_addr sp (leftmost q t) = page_ref.get_addr sp q := by
  obtain ⟨d, hd1, _, _, haq⟩ := get_addr_eq hsh hq
  obtain ⟨e, he1, he2, _, hac⟩ := get_addr_eq hsh hc
  have hde : e = d + t := at_depth_unique he1 (at_depth_leftmost hd1 t)
  subst hde
  rw [haq, hac]
  congr 1
  have hpos : 0 < 2 ^ t * (q + 1) := by positivity
  have e1 : leftmost q t + 1 = 2 ^ t * (q + 1) := by unfold leftmost; omega
  have e2 : sp.m_size - d = t + (sp.m_size - (d + t)) := by
    have h8 : 8 ≤ sp.m_size := hsh.1
    omega
  rw [e1, e2, pow_add 2 d t, pow_add 2 t, Nat.mul_comm (2 ^ d) (2 ^ t), ← Nat.mul_sub]
  ring

/-- Lines 105-128 of `do_allocate` on a `VACANT` candidate `q` of size
`goal + t`: `t` splits, then the page `leftmost q t` is marked `OCCUPIED`. -/
theorem occupy_candidate_spine {goal : Nat} (hg : 8 ≤ goal) {sp : superpage} {q t : Nat}
    (hsh : sp.shaped) (ht : sp.tree_ok) (hq : q < sp.m_num_pages)
    (hv : sp.m_pages q = .VACANT) (hsz : page_ref.get_size sp q = goal + t) :
    ∃ f, split_loop goal 64 sp q = split_times t sp q ∧
      split_times t sp q = .ok (sp.with_pages f, leftmost q t) ∧
      occupy_candidate goal sp q =
        .ok (sp.with_pages (set_page f (leftmost q t) .OCCUPIED), leftmost q t) ∧
      (∀ j, j < t → f (leftmost q j) = .SPLIT) ∧
      (∀ j, 1 ≤ j → j ≤ t →
        sp.m_pages (leftmost q j + 1) = .NON_EXTANT ∧ f (leftmost q j + 1) = .VACANT) ∧
      f (leftmost q t) = .VACANT ∧
      (∀ i, (∀ j, j ≤ t → i ≠ leftmost q j) →
        (∀ j, 1 ≤ j → j ≤ t → i ≠ leftmost q j + 1) → f i = sp.m_pages i) := by
  have h63 : page_ref.get_size sp q ≤ 63 := le_trans (get_size_ge hsh hq).2 hsh.2.1
  obtain ⟨f, h1, h2, h3, h4, h5, h6⟩ := split_times_spec hg t sp q hsh ht hq hv hsz
  have hloop := h2 64 (by omega)
  refine ⟨f, hloop, h1, ?_, h3, h4, h5, h6⟩
  unfold occupy_candidate
  have hns : ¬ page_ref.get_state sp q = .SPLIT := by
    unfold page_ref.get_state; rw [hv]; simp
  rw [if_neg hns]
  simp only [bind, Except.bind, pure, Except.pure, hloop, h1]
  unfold page_ref.change_state_vacant_to_occupied
  rw [change_state_ok (by simp only [with_pages_pages]; exact h5)]
  rfl

theorem leftmost_lt {q j t : Nat} (h : j < t) : leftmost q j < leftmost q t := by
  induction t with
  | zero => omega
  | succ t ih =>
    rw [leftmost_step]
    rcases Nat.lt_or_ge j t with h1 | h1
    · have := ih h1; omega
    · have e : j = t := by omega
      subst e; omega

theorem right_of_spine_ne {q j t : Nat} (hj : 1 ≤ j) (_hjt : j ≤ t) :
    leftmost q t ≠ leftmost q j + 1 := by
  have h1 := leftmost_ge_of_pos q hj
  rcases Nat.lt_or_ge j t with h | h
  · have h2 : leftmost q (j + 1) ≤ leftmost q t := by
      rcases Nat.lt_or_ge (j + 1) t with h3 | h3
      · exact le_of_lt (leftmost_lt h3)
      · have e : t = j + 1 := by omega
        rw [e]
    rw [leftmost_step] at h2
    omega
  · have e : j = t := by omega
    subst e; omega

theorem get_size_leftmost {sp : superpage} (hsh : sp.shaped) {q g t : Nat} (hg : 8 ≤ g)
    (hq : q < sp.m_num_pages) (hsz : page_ref.get_size sp q = g + t) {j : Nat} (hj : j ≤ t) :
    leftmost q j < sp.m_num_pages ∧ page_ref.get_size sp (leftmost q j) = g + t - j := by
  obtain ⟨d, hd1, hd2, hd3⟩ := get_size_valid hsh hq
  have h8 : 8 ≤ sp.m_size := hsh.1
  have hdj : d + j ≤ sp.m_size - 8 := by omega
  have hdep := at_depth_leftmost hd1 j
  refine ⟨valid_of_depth hsh hdj hdep, ?_⟩
  rw [get_size_eq hsh.2.1 (by omega) hdep]
  omega

/-- On the engine `m1` on which the candidate is chosen, `do_allocate(n)` is
lines 105-141 applied to the page `find_free_page` returned. -/
theorem do_allocate_cand_of_candidate {up : memory_resource} {host : host_heap}
    {m m1 : binary_page_memory_resource_impl} {n : Nat} (hcs : candidate_state up host m m1 n)
    {c : page_ref} (hfind : find_free_page m1 (goal_of n) = .ok (some c)) :
    do_allocate_cand up host m n = occupy m1 (goal_of n) c := by
  have hg31 := goal_of_le n
  rcases hcs with ⟨_, rfl⟩ | ⟨base, hnone, hb, rfl, hh⟩
  · unfold do_allocate_cand
    simp only [hfind]
  · unfold do_allocate_cand
    simp only [hnone, allocate_upstream_eq up (show goal_of n ≤ 63 by omega) hh, hb, hfind]

theorem candidate_state_shaped {up : memory_resource} {host : host_heap}
    {m m1 : binary_page_memory_resource_impl} {n : Nat} (hcs : candidate_state up host m m1 n)
    (hall : ∀ sp ∈ m.m_superpages, sp.shaped ∧ sp.tree_ok) :
    ∀ sp ∈ m1.m_superpages, sp.shaped ∧ sp.tree_ok := by
  have hg31 := goal_of_le n
  rcases hcs with ⟨_, rfl⟩ | ⟨base, _, _, rfl, _⟩
  · exact hall
  · intro sp hsp
    simp only [List.mem_append, List.mem_singleton] at hsp
    rcases hsp with h | rfl
    · exact hall sp h
    · exact ⟨fresh_superpage_shaped (by unfold new_page_size; omega)
        (by unfold new_page_size; omega) _, fresh_superpage_tree_ok _ _⟩

/-- C16 (split down the left spine): in an engine reachable from a fresh one,
let page `q` of superpage `sp` (number `k`) be the candidate `find_free_page`
hands to `do_allocate(n)`, on the engine `m1` on which it is chosen.  Then `q`
is `VACANT` of some size `goal + t`, the split loop is exactly `t` calls of
`split` followed by `left_child`, and the call returns the address of `q`.  In
the page table `f` after the call the pages `leftmost q j`, `j < t`, of sizes
`goal + t - j`, are `SPLIT`; the right child at each level `1 ≤ j ≤ t` was
`NON_EXTANT` and is `VACANT`; the leftmost descendant of size `goal` is
`OCCUPIED`; every page outside the subtree of `q` is unchanged.  For `t = 1`
the table is that of one `split` (`q` to `SPLIT`, both children from
`NON_EXTANT` to `VACANT`) with the left child then marked `OCCUPIED`. -/
theorem split_down_left_spine {m : binary_page_memory_resource_impl} {live : List allocation}
    (hr : reachable m live) (up : memory_resource) (host : host_heap) (n : Nat)
    (m1 : binary_page_memory_resource_impl) (k q : Nat)
    (hcs : candidate_state up host m m1 n)
    (hfind : find_free_page m1 (goal_of n) = .ok (some ⟨k, q⟩)) :
    ∃ (sp : superpage) (t : Nat) (f : Nat → page_state),
      m1.m_superpages[k]? = some sp ∧ q < sp.m_num_pages ∧ sp.m_pages q = .VACANT ∧
      page_ref.get_size sp q = goal_of n + t ∧
      split_loop (goal_of n) 64 sp q = split_times t sp q ∧
      do_allocate up host m n =
        (.ok (page_ref.get_addr sp q), ⟨m1.m_superpages.set k (sp.with_pages f)⟩) ∧
      (∀ j, j < t → f (leftmost q j) = .SPLIT ∧
        page_ref.get_size sp (leftmost q j) = goal_of n + t - j) ∧
      (∀ j, 1 ≤ j → j ≤ t →
        sp.m_pages (leftmost q j + 1) = .NON_EXTANT ∧ f (leftmost q j + 1) = .VACANT) ∧
      f (leftmost q t) = .OCCUPIED ∧ page_ref.get_size sp (leftmost q t) = goal_of n ∧
      (∀ i, ¬ in_subtree q i → f i = sp.m_pages i) ∧
      (t = 1 → f = set_page (split_pages sp.m_pages q) (2 * q + 1) .OCCUPIED ∧
        sp.m_pages (2 * q + 1) = .NON_EXTANT ∧ sp.m_pages (2 * q + 2) = .NON_EXTANT) := by
  have hg := goal_of_ge n
  have hok := engine_ok_of_reachable hr
  have hall1 := candidate_state_shaped hcs (fun sp hsp => ⟨(hok.1 sp hsp).1, (hok.1 sp hsp).2.1⟩)
  obtain ⟨s, hff⟩ := first_fit_of_find_free_page (fun sp hsp => (hall1 sp hsp).1) hg hfind
  obtain ⟨sp, hsp, hq, hv, hsz, hgs⟩ := first_fit_page hff
  simp only at hsp hq hv hsz
  have hmem : sp ∈ m1.m_superpages := List.getElem?_mem hsp
  obtain ⟨hsh, ht⟩ := hall1 sp hmem
  obtain ⟨t, ht0⟩ : ∃ t, s = goal_of n + t := ⟨s - goal_of n, by omega⟩
  rw [ht0] at hsz
  obtain ⟨f0, hloop, hst, hocc, h3, h4, h5, h6⟩ := occupy_candidate_spine hg hsh ht hq hv hsz
  have hcv := get_size_leftmost hsh hg hq hsz (le_refl t)
  have hcand := do_allocate_cand_of_candidate hcs hfind
  have hdo : do_allocate up host m n =
      (.ok (page_ref.get_addr sp q),
        ⟨m1.m_superpages.set k (sp.with_pages (set_page f0 (leftmost q t) .OCCUPIED))⟩) := by
    have hk : k < m1.m_superpages.length := getElem?_lt hsp
    unfold do_allocate
    rw [hcand]
    unfold occupy
    simp only [hsp, hocc]
    unfold addr_of
    simp only [List.getElem?_set_self hk]
    rw [get_addr_with_pages, get_addr_leftmost hsh hq hcv.1]
  refine ⟨sp, t, set_page f0 (leftmost q t) .OCCUPIED, hsp, hq, hv, hsz, hloop, hdo, ?_, ?_,
    set_page_same _ _ _, ?_, ?_, ?_⟩
  · intro j hj
    refine ⟨?_, (get_size_leftmost hsh hg hq hsz (le_of_lt hj)).2⟩
    rw [set_page_other _ _ (ne_of_lt (leftmost_lt hj))]
    exact h3 j hj
  · intro j hj1 hjt
    refine ⟨(h4 j hj1 hjt).1, ?_⟩
    rw [set_page_other _ _ (Ne.symm (right_of_spine_ne hj1 hjt))]
    exact (h4 j hj1 hjt).2
  · rw [hcv.2]; omega
  · intro i hi
    have hne : ∀ j, i ≠ leftmost q j := fun j e => hi (e ▸ in_subtree_leftmost q j)
    rw [set_page_other _ _ (hne t)]
    exact h6 i (fun j _ => hne j)
      (fun j hj1 _ e => hi (e ▸ in_subtree_right_of_spine q hj1))
  · intro e1
    subst e1
    have hs8 : 8 < page_ref.get_size sp q := by omega
    have hsplit := split_ok hsh ht hq hs8 hv
    have hcard := valid_lt_card hsh hq
    have hl1 : leftmost q 1 = 2 * q + 1 := by rw [leftmost_step, leftmost_zero]
    have hst1 : split_times 1 sp q =
        .ok (sp.with_pages (split_pages sp.m_pages q), 2 * q + 1) := by
      unfold split_times
      simp only [hsplit]
      unfold page_ref.left_child
      simp only [left_index hcard]
      rw [page_ref_ctor_ok (by simp only [with_pages_num]; rw [← hl1]; exact hcv.1)]
      rfl
    rw [hst] at hst1
    have hf0 : f0 = split_pages sp.m_pages q := by
      have := congrArg (fun r => r.1.m_pages) (Except.ok.inj hst1)
      simpa using this
    obtain ⟨hc, _, _⟩ := children_valid hsh hq hs8
    refine ⟨by rw [hf0, hl1], ?_, ?_⟩
    · have := descendants_non_extant hsh ht [false] q (by rw [hv]; simp) (by simp)
        (by simp only [walk, List.foldl, child]; simp; omega)
      simpa [walk, child] using this
    · have := descendants_non_extant hsh ht [true] q (by rw [hv]; simp) (by simp)
        (by simp only [walk, List.foldl, child]; simp; omega)
      simpa [walk, child] using this
theorem scenario_fresh_block_candidate :
    candidate_state (upstream_at 4096) host_granting binary_page_memory_resource_impl.ctor
      scenario_fresh_block 256 :=
  Or.inr ⟨4096, find_free_page_ctor _, rfl, rfl, host_grants_granting _ _⟩

set_option maxRecDepth 100000 in
theorem scenario_fresh_block_find :
    find_free_page scenario_fresh_block (goal_of 256) = .ok (some ⟨0, 0⟩) := by
  decide!

/-- Witness of C16: 256 bytes on a fresh engine whose upstream hands out the
block at 4096; the candidate is the root of the new superpage. -/
theorem split_down_left_spine_witness :
    ∃ (sp : superpage) (t : Nat) (f : Nat → page_state),
      scenario_fresh_block.m_superpages[0]? = some sp ∧ 0 < sp.m_num_pages ∧
      sp.m_pages 0 = .VACANT ∧
      page_ref.get_size sp 0 = goal_of 256 + t ∧
      split_loop (goal_of 256) 64 sp 0 = split_times t sp 0 ∧
      do_allocate (upstream_at 4096) host_granting binary_page_memory_resource_impl.ctor 256 =
        (.ok (page_ref.get_addr sp 0),
          ⟨scenario_fresh_block.m_superpages.set 0 (sp.with_pages f)⟩) ∧
      (∀ j, j < t → f (leftmost 0 j) = .SPLIT ∧
        page_ref.get_size sp (leftmost 0 j) = goal_of 256 + t - j) ∧
      (∀ j, 1 ≤ j → j ≤ t →
        sp.m_pages (leftmost 0 j + 1) = .NON_EXTANT ∧ f (leftmost 0 j + 1) = .VACANT) ∧
      f (leftmost 0 t) = .OCCUPIED ∧ page_ref.get_size sp (leftmost 0 t) = goal_of 256 ∧
      (∀ i, ¬ in_subtree 0 i → f i = sp.m_pages i) ∧
      (t = 1 → f = set_page (split_pages sp.m_pages 0) (2 * 0 + 1) .OCCUPIED ∧
        sp.m_pages (2 * 0 + 1) = .NON_EXTANT ∧ sp.m_pages (2 * 0 + 2) = .NON_EXTANT) :=
  split_down_left_spine reachable.fresh (upstream_at 4096) host_granting 256
    scenario_fresh_block 0 0
    scenario_fresh_block_candidate scenario_fresh_block_find
/-! ## Subtrees -/

theorem at_depth_walk {i d : Nat} (h : at_depth i d) (u : List Bool) :
    at_depth (walk i u) (d + u.length) := by
  induction u generalizing i d with
  | nil => exact h
  | cons b u ih =>
    rw [walk_cons, List.length_cons]
    have hc : at_depth (child i b) (d + 1) := by
      cases b
      · simpa [child] using at_depth_left h
      · simpa [child] using at_depth_right h
    have := ih hc
    rwa [show d + (u.length + 1) = d + 1 + u.length by omega]

/-- The indices below `q` after `|u|` turns form the block
`2 ^ |u| * (q + 1) - 1 .. 2 ^ |u| * (q + 2) - 2`. -/
theorem walk_bounds (q : Nat) (u : List Bool) :
    2 ^ u.length * (q + 1) ≤ walk q u + 1 ∧ walk q u + 1 < 2 ^ u.length * (q + 2) := by
  induction u generalizing q with
  | nil => simp [walk]
  | cons b u ih =>
    rw [walk_cons, List.length_cons, Nat.pow_succ]
    obtain ⟨h1, h2⟩ := ih (child q b)
    have e1 : 2 ^ u.length * 2 * (q + 1) = 2 ^ u.length * (2 * q + 2) := by ring
    have e2 : 2 ^ u.length * 2 * (q + 2) = 2 ^ u.length * (2 * q + 4) := by ring
    rw [e1, e2]
    rcases child_cases q b with e | e
    · rw [e] at h1 h2 ⊢
      rw [show 2 * q + 1 + 1 = 2 * q + 2 by omega] at h1
      have h3 : 2 ^ u.length * (2 * q + 1 + 2) ≤ 2 ^ u.length * (2 * q + 4) :=
        Nat.mul_le_mul_left _ (by omega)
      exact ⟨h1, lt_of_lt_of_le h2 h3⟩
    · rw [e] at h1 h2 ⊢
      rw [show 2 * q + 2 + 2 = 2 * q + 4 by omega] at h2
      have h3 : 2 ^ u.length * (2 * q + 2) ≤ 2 ^ u.length * (2 * q + 2 + 1) :=
        Nat.mul_le_mul_left _ (by omega)
      exact ⟨le_trans h3 h1, h2⟩

theorem in_subtree_self (q : Nat) : in_subtree q q := ⟨[], rfl⟩

theorem in_subtree_ge {q i : Nat} (h : in_subtree q i) : q ≤ i := by
  obtain ⟨u, rfl⟩ := h
  exact walk_ge q u

theorem in_subtree_left {q i : Nat} (h : in_subtree (2 * q + 1) i) : in_subtree q i := by
  obtain ⟨u, rfl⟩ := h
  exact ⟨false :: u, by rw [walk_cons]; simp [child]⟩

theorem in_subtree_right {q i : Nat} (h : in_subtree (2 * q + 2) i) : in_subtree q i := by
  obtain ⟨u, rfl⟩ := h
  exact ⟨true :: u, by rw [walk_cons]; simp [child]⟩

theorem in_subtree_cases {q i : Nat} (h : in_subtree q i) :
    i = q ∨ in_subtree (2 * q + 1) i ∨ in_subtree (2 * q + 2) i := by
  obtain ⟨u, rfl⟩ := h
  cases u with
  | nil => left; rfl
  | cons b u =>
    right
    rw [walk_cons]
    cases b
    · left; exact ⟨u, by simp [child]⟩
    · right; exact ⟨u, by simp [child]⟩

/-- The subtrees of the two children of a page do not meet. -/
theorem sibling_subtrees_disjoint {q i : Nat} (hl : in_subtree (2 * q + 1) i)
    (hr : in_subtree (2 * q + 2) i) : False := by
  obtain ⟨u, hu⟩ := hl
  obtain ⟨v, hv⟩ := hr
  obtain ⟨a1, a2⟩ := walk_bounds (2 * q + 1) u
  obtain ⟨b1, b2⟩ := walk_bounds (2 * q + 2) v
  rw [← hu] at a1 a2
  rw [← hv] at b1 b2
  rcases Nat.lt_or_ge v.length u.length with h | h
  · have h1 : 2 ^ (v.length + 1) ≤ 2 ^ u.length := Nat.pow_le_pow_right (by norm_num) h
    have h2 : 2 ^ (v.length + 1) * (2 * q + 1 + 1) ≤ 2 ^ u.length * (2 * q + 1 + 1) :=
      Nat.mul_le_mul_right _ h1
    have h3 : 2 ^ v.length * (2 * q + 2 + 2) = 2 ^ (v.length + 1) * (q + 2) := by
      rw [Nat.pow_succ]; ring
    have h4 : 2 ^ (v.length + 1) * (q + 2) ≤ 2 ^ (v.length + 1) * (2 * q + 1 + 1) :=
      Nat.mul_le_mul_left _ (by omega)
    omega
  · have h1 : 2 ^ u.length ≤ 2 ^ v.length := Nat.pow_le_pow_right (by norm_num) h
    have h2 : 2 ^ u.length * (2 * q + 1 + 2) ≤ 2 ^ v.length * (2 * q + 2 + 1) :=
      Nat.mul_le_mul_right _ h1
    omega

/-! ## `unsplit` -/

theorem right_child_ok {sp : superpage} (hsh : sp.shaped) {i : Nat}
    (hc : 2 * i + 2 < sp.m_num_pages) : page_ref.right_child sp i = .ok (2 * i + 2) := by
  unfold page_ref.right_child
  rw [right_index (valid_lt_card hsh (show i < sp.m_num_pages by omega)), page_ref_ctor_ok hc]

theorem empty_below_congr {sp sp2 : superpage} :
    ∀ (h c : Nat), (∀ i, in_subtree c i → i ≠ c → sp2.m_pages i = sp.m_pages i) →
      sp.empty_below h c → sp2.empty_below h c := by
  intro h
  induction h with
  | zero => intro c _ _; trivial
  | succ h ih =>
    intro c hc he
    simp only [superpage.empty_below] at he ⊢
    obtain ⟨e1, e2, e3, e4⟩ := he
    refine ⟨?_, ?_, ?_, ?_⟩
    · rw [hc _ (in_subtree_left (in_subtree_self _)) (by omega)]; exact e1
    · rw [hc _ (in_subtree_right (in_subtree_self _)) (by omega)]; exact e2
    · exact ih _ (fun i hi _ => hc i (in_subtree_left hi)
        (by have := in_subtree_ge hi; omega)) e3
    · exact ih _ (fun i hi _ => hc i (in_subtree_right hi)
        (by have := in_subtree_ge hi; omega)) e4

theorem free_at_congr {sp sp2 : superpage} :
    ∀ (h c : Nat), (∀ i, in_subtree c i → sp2.m_pages i = sp.m_pages i) →
      sp.free_at h c → sp2.free_at h c := by
  intro h
  induction h with
  | zero =>
    intro c hc hf
    simp only [superpage.free_at] at hf ⊢
    rw [hc c (in_subtree_self c)]; exact hf
  | succ h ih =>
    intro c hc hf
    simp only [superpage.free_at] at hf ⊢
    rcases hf with ⟨h1, h2⟩ | ⟨h1, h2, h3⟩
    · left
      exact ⟨by rw [hc c (in_subtree_self c)]; exact h1,
        empty_below_congr (h + 1) c (fun i hi _ => hc i hi) h2⟩
    · right
      exact ⟨by rw [hc c (in_subtree_self c)]; exact h1,
        ih _ (fun i hi => hc i (in_subtree_left hi)) h2,
        ih _ (fun i hi => hc i (in_subtree_right hi)) h3⟩

theorem empty_below_walk {sp : superpage} :
    ∀ (h c : Nat), sp.empty_below h c → ∀ u : List Bool, u ≠ [] → u.length ≤ h →
      sp.m_pages (walk c u) = .NON_EXTANT := by
  intro h
  induction h with
  | zero =>
    intro c _ u hu hl
    cases u with
    | nil => exact absurd rfl hu
    | cons b u => simp at hl
  | succ h ih =>
    intro c he u hu hl
    simp only [superpage.empty_below] at he
    obtain ⟨e1, e2, e3, e4⟩ := he
    cases u with
    | nil => exact absurd rfl hu
    | cons b u =>
      rw [walk_cons]
      simp only [List.length_cons] at hl
      cases b
      · have hcb : child c false = 2 * c + 1 := by simp [child]
        rw [hcb]
        cases u with
        | nil => exact e1
        | cons b2 u2 => exact ih _ e3 (b2 :: u2) (by simp) (by simpa using hl)
      · have hcb : child c true = 2 * c + 2 := by simp [child]
        rw [hcb]
        cases u with
        | nil => exact e2
        | cons b2 u2 => exact ih _ e4 (b2 :: u2) (by simp) (by simpa using hl)

theorem except_bind_ok {ε α β : Type} (a : α) (f : α → Except ε β) :
    Except.bind (.ok a) f = f a := rfl

theorem ite_bind_except {ε α β : Type} {c : Prop} [Decidable c] (a b : Except ε α)
    (f : α → Except ε β) :
    (if c then Except.bind a f else Except.bind b f) = Except.bind (if c then a else b) f := by
  split <;> rfl

/-- One level of `unsplit`, written with explicit binds. -/
theorem unsplit_succ (k : Nat) (sp : superpage) (n : Nat) :
    page_ref.unsplit (k + 1) sp n =
      Except.bind (page_ref.left_child sp n) (fun l =>
      Except.bind (if page_ref.get_state sp l = .SPLIT then page_ref.unsplit k sp l
        else pure sp) (fun sp1 =>
      Except.bind (page_ref.right_child sp1 n) (fun r =>
      Except.bind (if page_ref.get_state sp1 r = .SPLIT then page_ref.unsplit k sp1 r
        else pure sp1) (fun sp2 =>
      Except.bind (page_ref.change_state_split_to_vacant sp2 n) (fun sp3 =>
      Except.bind (page_ref.left_child sp3 n) (fun l3 =>
      Except.bind (page_ref.change_state_vacant_to_non_extant sp3 l3) (fun sp4 =>
      Except.bind (page_ref.right_child sp4 n) (fun r4 =>
      page_ref.change_state_vacant_to_non_extant sp4 r4)))))))) := by
  conv_lhs => unfold page_ref.unsplit
  simp only [bind, ite_bind_except]

/-- One `unsplit` call on a `SPLIT` page whose children have free subtrees,
given the effect of the two conditional recursive calls. -/
theorem unsplit_node_spec (h : Nat)
    (IH : ∀ (sp : superpage) (c fuel : Nat), sp.shaped → c < sp.m_num_pages →
      page_ref.get_size sp c = 8 + h → h ≤ fuel → sp.free_at h c →
      ∃ f, (if page_ref.get_state sp c = .SPLIT then page_ref.unsplit fuel sp c
          else (pure sp : Except fault superpage)) = .ok (sp.with_pages f) ∧
        f c = .VACANT ∧ (sp.with_pages f).empty_below h c ∧
        (∀ i, ¬ in_subtree c i → f i = sp.m_pages i) ∧
        (∀ i, Relation.ReflTransGen permitted_transition (sp.m_pages i) (f i)))
    (sp : superpage) (n fuel : Nat) (hsh : sp.shaped) (hn : n < sp.m_num_pages)
    (hsz : page_ref.get_size sp n = 8 + (h + 1)) (hfuel : h + 1 ≤ fuel)
    (hs : sp.m_pages n = .SPLIT) (hl : sp.free_at h (2 * n + 1))
    (hr : sp.free_at h (2 * n + 2)) :
    ∃ f, page_ref.unsplit fuel sp n = .ok (sp.with_pages f) ∧
      f n = .VACANT ∧ (sp.with_pages f).empty_below (h + 1) n ∧
      (∀ i, ¬ in_subtree n i → f i = sp.m_pages i) ∧
      (∀ i, Relation.ReflTransGen permitted_transition (sp.m_pages i) (f i)) := by
  obtain ⟨k, rfl⟩ : ∃ k, fuel = k + 1 := ⟨fuel - 1, by omega⟩
  obtain ⟨hc, hszl, hszr⟩ := children_valid hsh hn (by omega)
  have hcl : 2 * n + 1 < sp.m_num_pages := by omega
  obtain ⟨f1, a1, a2, a3, a4, a5⟩ :=
    IH sp (2 * n + 1) k hsh hcl (by omega) (by omega) hl
  have hr1 : (sp.with_pages f1).free_at h (2 * n + 2) :=
    free_at_congr h _ (fun i hi => a4 i (fun hli => sibling_subtrees_disjoint hli hi)) hr
  obtain ⟨f2, b1, b2, b3, b4, b5⟩ :=
    IH (sp.with_pages f1) (2 * n + 2) k (shaped_with_pages hsh f1) hc
      (by rw [get_size_with_pages]; omega) (by omega) hr1
  simp only [with_pages_with_pages, with_pages_pages] at b1 b3 b4 b5
  have hnl : ¬ in_subtree (2 * n + 1) n := fun hi => by have := in_subtree_ge hi; omega
  have hnr : ¬ in_subtree (2 * n + 2) n := fun hi => by have := in_subtree_ge hi; omega
  have hlr : ¬ in_subtree (2 * n + 2) (2 * n + 1) :=
    fun hi => by have := in_subtree_ge hi; omega
  have c1 : f2 n = .SPLIT := by rw [b4 n hnr, a4 n hnl]; exact hs
  have c2 : f2 (2 * n + 1) = .VACANT := by rw [b4 _ hlr]; exact a2
  refine ⟨set_page (set_page (set_page f2 n .VACANT) (2 * n + 1) .NON_EXTANT) (2 * n + 2)
    .NON_EXTANT, ?_, ?_, ?_, ?_, ?_⟩
  · rw [unsplit_succ, left_child_ok hsh hcl, except_bind_ok, a1, except_bind_ok,
      right_child_ok (shaped_with_pages hsh f1) hc, except_bind_ok, b1, except_bind_ok]
    unfold page_ref.change_state_split_to_vacant page_ref.change_state_vacant_to_non_extant
    rw [change_state_ok (show (sp.with_pages f2).m_pages n = .SPLIT from c1), except_bind_ok,
      with_pages_with_pages, with_pages_pages,
      left_child_ok (shaped_with_pages hsh (set_page f2 n .VACANT)) hcl, except_bind_ok,
      change_state_ok (show (sp.with_pages (set_page f2 n .VACANT)).m_pages (2 * n + 1)
        = .VACANT by
          simp only [with_pages_pages]
          rw [set_page_other _ _ (by omega)]; exact c2), except_bind_ok,
      with_pages_with_pages, with_pages_pages,
      right_child_ok (shaped_with_pages hsh
        (set_page (set_page f2 n .VACANT) (2 * n + 1) .NON_EXTANT)) hc, except_bind_ok,
      change_state_ok (show (sp.with_pages (set_page (set_page f2 n .VACANT) (2 * n + 1)
        .NON_EXTANT)).m_pages (2 * n + 2) = .VACANT by
          simp only [with_pages_pages]
          rw [set_page_other _ _ (by omega), set_page_other _ _ (by omega)]; exact b2),
      with_pages_with_pages, with_pages_pages]
  · rw [set_page_other _ _ (by omega), set_page_other _ _ (by omega), set_page_same]
  · simp only [superpage.empty_below, with_pages_pages]
    refine ⟨?_, set_page_same _ _ _, ?_, ?_⟩
    · rw [set_page_other _ _ (by omega), set_page_same]
    · refine empty_below_congr h _ (fun i hi hne => ?_) a3
      have hge := in_subtree_ge hi
      have h22 : i ≠ 2 * n + 2 :=
        fun e => sibling_subtrees_disjoint hi (e ▸ in_subtree_self _)
      simp only [with_pages_pages]
      rw [set_page_other _ _ h22, set_page_other _ _ hne,
        set_page_other _ _ (by omega)]
      exact b4 i (fun hri => sibling_subtrees_disjoint hi hri)
    · refine empty_below_congr h _ (fun i hi hne => ?_) b3
      have hge := in_subtree_ge hi
      simp only [with_pages_pages]
      rw [set_page_other _ _ (by omega), set_page_other _ _ (by omega),
        set_page_other _ _ (by omega)]
  · intro i hi
    have h0 : i ≠ n := fun e => hi (e ▸ in_subtree_self n)
    have h1 : ¬ in_subtree (2 * n + 1) i := fun hli => hi (in_subtree_left hli)
    have h2 : ¬ in_subtree (2 * n + 2) i := fun hri => hi (in_subtree_right hri)
    have h3 : i ≠ 2 * n + 1 := fun e => h1 (e ▸ in_subtree_self _)
    have h4 : i ≠ 2 * n + 2 := fun e => h2 (e ▸ in_subtree_self _)
    rw [set_page_other _ _ h4, set_page_other _ _ h3, set_page_other _ _ h0, b4 i h2, a4 i h1]
  · intro i
    refine Relation.ReflTransGen.trans ((a5 i).trans (b5 i)) ?_
    by_cases e2 : i = 2 * n + 2
    · subst e2
      rw [set_page_same, b2]
      exact Relation.ReflTransGen.single (by unfold permitted_transition; simp)
    · rw [set_page_other _ _ e2]
      by_cases e1 : i = 2 * n + 1
      · subst e1
        rw [set_page_same, c2]
        exact Relation.ReflTransGen.single (by unfold permitted_transition; simp)
      · rw [set_page_other _ _ e1]
        by_cases e0 : i = n
        · subst e0
          rw [set_page_same, c1]
          exact Relation.ReflTransGen.single (by unfold permitted_transition; simp)
        · rw [set_page_other _ _ e0]

/-- Effect of the conditional recursive call `if (c.get_state() == SPLIT)
c.unsplit()` on a page `c` of height `h` whose subtree is free. -/
theorem unsplit_child_spec :
    ∀ (h : Nat) (sp : superpage) (c fuel : Nat), sp.shaped → c < sp.m_num_pages →
      page_ref.get_size sp c = 8 + h → h ≤ fuel → sp.free_at h c →
      ∃ f, (if page_ref.get_state sp c = .SPLIT then page_ref.unsplit fuel sp c
          else (pure sp : Except fault superpage)) = .ok (sp.with_pages f) ∧
        f c = .VACANT ∧ (sp.with_pages f).empty_below h c ∧
        (∀ i, ¬ in_subtree c i → f i = sp.m_pages i) ∧
        (∀ i, Relation.ReflTransGen permitted_transition (sp.m_pages i) (f i)) := by
  intro h
  induction h with
  | zero =>
    intro sp c fuel _ _ _ _ hf
    simp only [superpage.free_at] at hf
    refine ⟨sp.m_pages, ?_, hf, trivial, fun _ _ => rfl, fun _ => Relation.ReflTransGen.refl⟩
    unfold page_ref.get_state
    rw [hf]; rfl
  | succ h ih =>
    intro sp c fuel hsh hc hsz hfuel hf
    simp only [superpage.free_at] at hf
    rcases hf with ⟨h1, h2⟩ | ⟨h1, h2, h3⟩
    · refine ⟨sp.m_pages, ?_, h1, h2, fun _ _ => rfl, fun _ => Relation.ReflTransGen.refl⟩
      unfold page_ref.get_state
      rw [h1]; rfl
    · obtain ⟨f, a1, a2⟩ := unsplit_node_spec h ih sp c fuel hsh hc hsz hfuel h1 h2 h3
      refine ⟨f, ?_, a2⟩
      unfold page_ref.get_state
      rw [h1, if_pos rfl]; exact a1

/-- Outside the tree invariant `unsplit` can fail: in `superpage_half_split` the
root is `SPLIT`, its left child is `NON_EXTANT` and its right child is `VACANT`,
and `unsplit` of the root fails the assertion of
`change_state_vacant_to_non_extant` on the left child, whatever the fuel.  The
state violates the tree invariant (a `SPLIT` page has no `NON_EXTANT` child), so
no run of the engine produces it. -/
theorem unsplit_asserts_on_non_extant_child :
    superpage_half_split.m_pages 0 = .SPLIT ∧
    superpage_half_split.m_pages 1 = .NON_EXTANT ∧
    superpage_half_split.m_pages 2 = .VACANT ∧
    ¬ superpage_half_split.tree_ok ∧
    page_ref.unsplit 64 superpage_half_split 0 = .error .assert_failed ∧
    ∀ (fuel : Nat) (sp1 : superpage),
      page_ref.unsplit fuel superpage_half_split 0 ≠ .ok sp1 := by
  refine ⟨rfl, rfl, rfl, fun ht => ?_, rfl, fun fuel sp1 => ?_⟩
  · exact (ht.2.1 0 (by decide)).1 rfl |>.1 rfl
  · cases fuel with
    | zero => intro h; cases h
    | succ k =>
      have : page_ref.unsplit (k + 1) superpage_half_split 0 = .error .assert_failed := rfl
      rw [this]
      intro h; cases h

/-- `unsplit` of a `SPLIT` page of size `min_page_size + (h + 1)` both of whose
children have a free subtree (`VACANT` with nothing below, or `SPLIT` with free
children): it returns without a failed assertion; afterwards the page is
`VACANT`, its two children and every deeper descendant are `NON_EXTANT`, every
page outside its subtree is unchanged, and every page went through permitted
transitions only. -/
theorem unsplit_of_free_children (sp : superpage) (hsh : sp.shaped) (n h : Nat)
    (hn : n < sp.m_num_pages) (hsz : page_ref.get_size sp n = min_page_size + (h + 1))
    (hs : sp.m_pages n = .SPLIT) (hl : sp.free_at h (2 * n + 1))
    (hr : sp.free_at h (2 * n + 2)) :
    ∃ f, page_ref.unsplit 64 sp n = .ok (sp.with_pages f) ∧
      f n = .VACANT ∧ f (2 * n + 1) = .NON_EXTANT ∧ f (2 * n + 2) = .NON_EXTANT ∧
      (∀ i, in_subtree n i → i ≠ n → i < sp.m_num_pages → f i = .NON_EXTANT) ∧
      (∀ i, ¬ in_subtree n i → f i = sp.m_pages i) ∧
      (∀ i, Relation.ReflTransGen permitted_transition (sp.m_pages i) (f i)) := by
  unfold min_page_size at hsz
  obtain ⟨d, hd1, hd2, hd3⟩ := get_size_valid hsh hn
  have h63 : sp.m_size ≤ 63 := hsh.2.1
  obtain ⟨f, a1, a2, a3, a4, a5⟩ :=
    unsplit_node_spec h (unsplit_child_spec h) sp n 64 hsh hn hsz (by omega) hs hl hr
  have hw := empty_below_walk (h + 1) n a3
  simp only [with_pages_pages] at hw
  refine ⟨f, a1, a2, ?_, ?_, ?_, a4, a5⟩
  · simpa [walk, child] using hw [false] (by simp) (by simp)
  · simpa [walk, child] using hw [true] (by simp) (by simp)
  · rintro i ⟨u, rfl⟩ hne hi
    have hu : u ≠ [] := fun e => hne (by rw [e]; rfl)
    obtain ⟨e, he1, he2⟩ := depth_of_valid hsh hi
    have := at_depth_unique he2 (at_depth_walk hd1 u)
    exact hw u hu (by omega)

/-- Under the tree invariant nothing exists below a page that is not `SPLIT`. -/
theorem empty_below_of_tree_ok {sp : superpage} (hsh : sp.shaped) (ht : sp.tree_ok) :
    ∀ (h c : Nat), c < sp.m_num_pages → page_ref.get_size sp c = 8 + h →
      sp.m_pages c ≠ .SPLIT → sp.empty_below h c := by
  intro h
  induction h with
  | zero => intro c _ _ _; trivial
  | succ h ih =>
    intro c hc hsz hns
    obtain ⟨hv, hl, hr⟩ := children_valid hsh hc (by omega)
    obtain ⟨e1, e2⟩ := (ht.2.1 c hv).2 hns
    simp only [superpage.empty_below]
    exact ⟨e1, e2, ih _ (by omega) (by omega) (by rw [e1]; simp),
      ih _ hv (by omega) (by rw [e2]; simp)⟩

/-- Under the tree invariant, the subtree of a page that exists and has no
`OCCUPIED` page in it is free. -/
theorem free_at_of_tree_ok {sp : superpage} (hsh : sp.shaped) (ht : sp.tree_ok) :
    ∀ (h c : Nat), c < sp.m_num_pages → page_ref.get_size sp c = 8 + h →
      sp.m_pages c ≠ .NON_EXTANT →
      (∀ i, in_subtree c i → i < sp.m_num_pages → sp.m_pages i ≠ .OCCUPIED) →
      sp.free_at h c := by
  intro h
  induction h with
  | zero =>
    intro c hc hsz hne hocc
    have hleaf := leaf_of_size hsh hc (by omega)
    have hns := ht.2.2 c hc (by omega)
    have hno := hocc c (in_subtree_self c) hc
    simp only [superpage.free_at]
    cases hp : sp.m_pages c with
    | NON_EXTANT => exact absurd hp hne
    | VACANT => rfl
    | OCCUPIED => exact absurd hp hno
    | SPLIT => exact absurd hp hns
  | succ h ih =>
    intro c hc hsz hne hocc
    obtain ⟨hv, hl, hr⟩ := children_valid hsh hc (by omega)
    have hno := hocc c (in_subtree_self c) hc
    simp only [superpage.free_at]
    cases hp : sp.m_pages c with
    | NON_EXTANT => exact absurd hp hne
    | VACANT =>
      left
      exact ⟨rfl, empty_below_of_tree_ok hsh ht (h + 1) c hc hsz (by rw [hp]; simp)⟩
    | OCCUPIED => exact absurd hp hno
    | SPLIT =>
      right
      obtain ⟨e1, e2⟩ := (ht.2.1 c hv).1 hp
      exact ⟨rfl, ih _ (by omega) (by omega) e1
          (fun i hi hlt => hocc i (in_subtree_left hi) hlt),
        ih _ hv (by omega) e2 (fun i hi hlt => hocc i (in_subtree_right hi) hlt)⟩

/-- Under the tree invariant the subtree of a child of a `SPLIT` page is free as
soon as the child is `VACANT`, or `SPLIT` without an `OCCUPIED` page below it; a
`NON_EXTANT` child does not occur. -/
theorem free_at_child {sp : superpage} (hsh : sp.shaped) (ht : sp.tree_ok) {h c : Nat}
    (hc : c < sp.m_num_pages) (hsz : page_ref.get_size sp c = 8 + h)
    (hne : sp.m_pages c ≠ .NON_EXTANT)
    (hs : sp.m_pages c = .VACANT ∨ sp.m_pages c = .NON_EXTANT ∨
      (sp.m_pages c = .SPLIT ∧
        ∀ i, in_subtree c i → i < sp.m_num_pages → sp.m_pages i ≠ .OCCUPIED)) :
    sp.free_at h c := by
  rcases hs with hv | hx | ⟨_, hocc⟩
  · refine free_at_of_tree_ok hsh ht h c hc hsz hne (fun i hi hlt => ?_)
    rcases hi with ⟨u, rfl⟩
    by_cases hu : u = []
    · rw [hu, walk_nil, hv]; simp
    · rw [descendants_non_extant hsh ht u c (by rw [hv]; simp) hu hlt]; simp
  · exact absurd hx hne
  · exact free_at_of_tree_ok hsh ht h c hc hsz hne hocc

/-- C17 (unsplit effect): for every superpage of the constructor's shape that
satisfies the tree invariant and every page `n` that is `SPLIT` and whose each
child is `VACANT`, `NON_EXTANT`, or itself `SPLIT` with no `OCCUPIED` page in
its subtree, `unsplit` returns without a failed assertion; afterwards `n` is
`VACANT`, both children of `n` and every deeper descendant are `NON_EXTANT`,
every page outside the subtree of `n` is unchanged, and every page went through
permitted transitions only. -/
theorem unsplit_effect (sp : superpage) (hsh : sp.shaped) (ht : sp.tree_ok) (n : Nat)
    (hn : n < sp.m_num_pages) (hs : sp.m_pages n = .SPLIT)
    (hl : sp.m_pages (2 * n + 1) = .VACANT ∨ sp.m_pages (2 * n + 1) = .NON_EXTANT ∨
      (sp.m_pages (2 * n + 1) = .SPLIT ∧ ∀ i, in_subtree (2 * n + 1) i →
        i < sp.m_num_pages → sp.m_pages i ≠ .OCCUPIED))
    (hr : sp.m_pages (2 * n + 2) = .VACANT ∨ sp.m_pages (2 * n + 2) = .NON_EXTANT ∨
      (sp.m_pages (2 * n + 2) = .SPLIT ∧ ∀ i, in_subtree (2 * n + 2) i →
        i < sp.m_num_pages → sp.m_pages i ≠ .OCCUPIED)) :
    ∃ f, page_ref.unsplit 64 sp n = .ok (sp.with_pages f) ∧
      f n = .VACANT ∧ f (2 * n + 1) = .NON_EXTANT ∧ f (2 * n + 2) = .NON_EXTANT ∧
      (∀ i, in_subtree n i → i ≠ n → i < sp.m_num_pages → f i = .NON_EXTANT) ∧
      (∀ i, ¬ in_subtree n i → f i = sp.m_pages i) ∧
      (∀ i, Relation.ReflTransGen permitted_transition (sp.m_pages i) (f i)) := by
  have hint : 2 * n + 2 < sp.m_num_pages := by
    by_contra hc
    exact ht.2.2 n hn (by omega) hs
  have hsize := internal_size hsh hint
  obtain ⟨_, hszl, hszr⟩ := children_valid hsh hn hsize
  obtain ⟨e1, e2⟩ := (ht.2.1 n hint).1 hs
  obtain ⟨h, hh⟩ : ∃ h, page_ref.get_size sp n = 8 + (h + 1) :=
    ⟨page_ref.get_size sp n - 9, by omega⟩
  exact unsplit_of_free_children sp hsh n h hn hh hs
    (free_at_child hsh ht (by omega) (by omega) e1 hl)
    (free_at_child hsh ht hint (by omega) e2 hr)

theorem superpage_split_twice_shaped : superpage_split_twice.shaped :=
  ⟨by decide, by decide, by decide⟩

theorem superpage_split_twice_tree_ok : superpage_split_twice.tree_ok := by
  refine ⟨by decide, fun i hi => ?_, fun i h1 h2 => ?_⟩
  · have hi7 : 2 * i + 2 < 7 := hi
    have : i = 0 ∨ i = 1 ∨ i = 2 := by omega
    rcases this with rfl | rfl | rfl <;> simp [superpage_split_twice]
  · have h17 : i < 7 := h1
    have h27 : 7 ≤ 2 * i + 2 := h2
    have : i = 3 ∨ i = 4 ∨ i = 5 ∨ i = 6 := by omega
    rcases this with rfl | rfl | rfl | rfl <;> simp [superpage_split_twice]

/-- Witness of C17: `unsplit` of the root of `superpage_split_twice`, whose left
child is `SPLIT` with two `VACANT` children and whose right child is `VACANT`. -/
theorem unsplit_effect_witness :
    ∃ f, page_ref.unsplit 64 superpage_split_twice 0 = .ok (superpage_split_twice.with_pages f) ∧
      f 0 = .VACANT ∧ f (2 * 0 + 1) = .NON_EXTANT ∧ f (2 * 0 + 2) = .NON_EXTANT ∧
      (∀ i, in_subtree 0 i → i ≠ 0 → i < superpage_split_twice.m_num_pages →
        f i = .NON_EXTANT) ∧
      (∀ i, ¬ in_subtree 0 i → f i = superpage_split_twice.m_pages i) ∧
      (∀ i, Relation.ReflTransGen permitted_transition (superpage_split_twice.m_pages i)
        (f i)) :=
  unsplit_effect superpage_split_twice superpage_split_twice_shaped
    superpage_split_twice_tree_ok 0 (by decide) rfl
    (Or.inr (Or.inr ⟨rfl, fun i _ _ => by
      simp only [superpage_split_twice]
      split_ifs <;> simp⟩))
    (Or.inl rfl)

/-! ## Live allocations never overlap -/

/-- A page at depth `e` has an ancestor `k` levels up, for every `k ≤ e`. -/
theorem ancestor_at_depth :
    ∀ (k j e : Nat), at_depth j e → k ≤ e →
      ∃ (a : Nat) (u : List Bool), u.length = k ∧ j = walk a u ∧ at_depth a (e - k) := by
  intro k
  induction k with
  | zero => intro j e hj _; exact ⟨j, [], rfl, rfl, hj⟩
  | succ k ih =>
    intro j e hj hk
    obtain ⟨a, u, hu, hw, ha⟩ := ih j e hj (by omega)
    obtain ⟨d, hd⟩ : ∃ d, e - k = d + 1 := ⟨e - k - 1, by omega⟩
    rw [hd] at ha
    have hd2 : e - (k + 1) = d := by omega
    rw [hd2]
    unfold at_depth at ha ⊢
    have e1 : 2 ^ (d + 1) = 2 * 2 ^ d := by rw [Nat.pow_succ]; omega
    have e2 : 2 ^ (d + 1 + 1) = 4 * 2 ^ d := by rw [Nat.pow_succ, Nat.pow_succ]; omega
    have hpos : 0 < 2 ^ d := by positivity
    rcases Nat.even_or_odd a with hev | hod
    · obtain ⟨r, hr⟩ := hev
      refine ⟨r - 1, true :: u, by simp [hu], ?_, by omega⟩
      rw [walk_cons, hw]
      have : child (r - 1) true = a := by simp [child]; omega
      rw [this]
    · obtain ⟨r, hr⟩ := hod
      refine ⟨r, false :: u, by simp [hu], ?_, by omega⟩
      rw [walk_cons, hw]
      have : child r false = a := by simp [child]; omega
      rw [this]

/-- Two blocks of `K * T` bytes numbered `I` and `A ≠ I` (counted from `D`) do
not meet, and neither does any block of `T` bytes inside block `A`. -/
theorem block_disjoint (I D A K J T : Nat) (hA : A ≠ I) (hDI : D ≤ I) (hDA : D ≤ A)
    (h1 : K * A ≤ J) (h2 : J < K * (A + 1)) :
    (I - D) * (K * T) + K * T ≤ (J - K * D) * T ∨
      (J - K * D) * T + T ≤ (I - D) * (K * T) := by
  have hKD : K * D ≤ K * A := Nat.mul_le_mul_left _ hDA
  rcases Nat.lt_or_gt_of_ne hA with h | h
  · right
    have h3 : K * (A + 1) ≤ K * I := Nat.mul_le_mul_left _ h
    have h4 : J - K * D + 1 ≤ K * I - K * D := by omega
    calc (J - K * D) * T + T = (J - K * D + 1) * T := by ring
      _ ≤ (K * I - K * D) * T := Nat.mul_le_mul_right _ h4
      _ = (I - D) * (K * T) := by rw [← mul_tsub]; ring
  · left
    have h3 : K * (I + 1) ≤ K * A := Nat.mul_le_mul_left _ h
    have h4 : K * (I + 1) - K * D ≤ J - K * D := by omega
    have h5 : I - D + 1 = I + 1 - D := by omega
    calc (I - D) * (K * T) + K * T = (K * (I - D + 1)) * T := by ring
      _ = (K * (I + 1) - K * D) * T := by rw [h5, mul_tsub]
      _ ≤ (J - K * D) * T := Nat.mul_le_mul_right _ h4

/-- In a superpage that satisfies the tree invariant, a page that is not `SPLIT`
and a different page that exists, at the same depth or deeper, cover disjoint
byte ranges. -/
theorem page_ranges_disjoint_of_le {sp : superpage} (hsh : sp.shaped) (ht : sp.tree_ok)
    {i j : Nat} (hi : i < sp.m_num_pages) (hj : j < sp.m_num_pages) (hne : i ≠ j)
    (hsi : sp.m_pages i ≠ .SPLIT) (hej : sp.m_pages j ≠ .NON_EXTANT)
    (hle : page_ref.get_size sp j ≤ page_ref.get_size sp i) :
    page_ref.get_addr sp i + 2 ^ page_ref.get_size sp i ≤ page_ref.get_addr sp j ∨
      page_ref.get_addr sp j + 2 ^ page_ref.get_size sp j ≤ page_ref.get_addr sp i := by
  obtain ⟨d, hd1, hd2, hd3, hd4⟩ := get_addr_eq hsh hi
  obtain ⟨e, he1, he2, he3, he4⟩ := get_addr_eq hsh hj
  have h8 : 8 ≤ sp.m_size := hsh.1
  have hde : d ≤ e := by omega
  obtain ⟨a, u, hu, hw, ha⟩ := ancestor_at_depth (e - d) j e he1 (by omega)
  have hed : e - (e - d) = d := by omega
  rw [hed] at ha
  have hai : a ≠ i := by
    intro hai
    subst hai
    have hune : u ≠ [] := by
      intro hnil
      rw [hnil] at hw
      exact hne hw.symm
    have := descendants_non_extant hsh ht u a hsi hune (by rw [← hw]; exact hj)
    rw [← hw] at this
    exact hej this
  obtain ⟨w1, w2⟩ := walk_bounds a u
  rw [← hw, hu] at w1 w2
  have hE : 2 ^ e = 2 ^ (e - d) * 2 ^ d := by rw [← pow_add]; congr 1; omega
  have hT : 2 ^ (sp.m_size - d) = 2 ^ (e - d) * 2 ^ (sp.m_size - e) := by
    rw [← pow_add]; congr 1; omega
  have hb := block_disjoint (i + 1) (2 ^ d) (a + 1) (2 ^ (e - d)) (j + 1)
    (2 ^ (sp.m_size - e)) (by omega) hd1.1 ha.1 w1 w2
  rw [hd3, he3, hd4, he4, hE, hT]
  omega

theorem page_ranges_disjoint {sp : superpage} (hsh : sp.shaped) (ht : sp.tree_ok)
    {i j : Nat} (hi : i < sp.m_num_pages) (hj : j < sp.m_num_pages) (hne : i ≠ j)
    (hoi : sp.m_pages i = .OCCUPIED) (hoj : sp.m_pages j = .OCCUPIED) :
    page_ref.get_addr sp i + 2 ^ page_ref.get_size sp i ≤ page_ref.get_addr sp j ∨
      page_ref.get_addr sp j + 2 ^ page_ref.get_size sp j ≤ page_ref.get_addr sp i := by
  rcases Nat.le_total (page_ref.get_size sp j) (page_ref.get_size sp i) with h | h
  · exact page_ranges_disjoint_of_le hsh ht hi hj hne (by rw [hoi]; simp) (by rw [hoj]; simp) h
  · exact (page_ranges_disjoint_of_le hsh ht hj hi (Ne.symm hne) (by rw [hoj]; simp)
      (by rw [hoi]; simp) h).symm

/-- The pages of two live allocations on different pages cover disjoint byte
ranges. -/
theorem recorded_ranges_disjoint {m : binary_page_memory_resource_impl}
    {live : List allocation} (hok : engine_ok m live) {a b : allocation}
    (ha : a ∈ live) (hb : b ∈ live) (hne : a.page ≠ b.page) :
    a.p + 2 ^ goal_of a.bytes ≤ b.p ∨ b.p + 2 ^ goal_of b.bytes ≤ a.p := by
  obtain ⟨hE, hD, hR, _⟩ := hok
  obtain ⟨spa, a1, a2, a3, a4, a5⟩ := hR a ha
  obtain ⟨spb, b1, b2, b3, b4, b5⟩ := hR b hb
  rw [← a4, ← a5, ← b4, ← b5]
  by_cases hk : a.page.m_superpage = b.page.m_superpage
  · rw [hk, b1] at a1
    have hsp : spb = spa := Option.some.inj a1
    subst hsp
    obtain ⟨hsh, ht, _⟩ := hE spb (List.getElem?_mem b1)
    have hpg : a.page.m_page ≠ b.page.m_page := by
      intro e
      apply hne
      cases hpa : a.page
      cases hpb : b.page
      rw [hpa, hpb] at hk e
      simp only at hk e
      rw [hk, e]
    exact page_ranges_disjoint hsh ht a2 b2 hpg a3 b3
  · have hdis := disjoint_of_ne hD a1 b1 hk
    obtain ⟨hsha, _, _⟩ := hE spa (List.getElem?_mem a1)
    obtain ⟨hshb, _, _⟩ := hE spb (List.getElem?_mem b1)
    obtain ⟨ra, x1, x2, _⟩ := get_addr_bounds hsha a2
    obtain ⟨rb, y1, y2, _⟩ := get_addr_bounds hshb b2
    unfold disjoint_memory at hdis
    rw [x1, y1]
    omega

/-- C18 (live allocations never overlap): in every state reachable from a fresh
engine, any two distinct `OCCUPIED` pages of one superpage cover disjoint byte
ranges `[get_addr, get_addr + 2 ^ get_size)`; the pages of any two live
allocations cover disjoint byte ranges `[p, p + 2 ^ goal)`; and the requested
ranges `[p, p + bytes)` of two live allocations of at most `2 ^ 31` bytes each
are disjoint. -/
theorem live_allocations_never_overlap {m : binary_page_memory_resource_impl}
    {live : List allocation} (h : reachable m live) :
    (∀ sp ∈ m.m_superpages, ∀ i j, i < sp.m_num_pages → j < sp.m_num_pages → i ≠ j →
      sp.m_pages i = .OCCUPIED → sp.m_pages j = .OCCUPIED →
      page_ref.get_addr sp i + 2 ^ page_ref.get_size sp i ≤ page_ref.get_addr sp j ∨
        page_ref.get_addr sp j + 2 ^ page_ref.get_size sp j ≤ page_ref.get_addr sp i) ∧
    live.Pairwise (fun a b =>
      a.p + 2 ^ goal_of a.bytes ≤ b.p ∨ b.p + 2 ^ goal_of b.bytes ≤ a.p) ∧
    live.Pairwise (fun a b => a.bytes ≤ 2 ^ 31 → b.bytes ≤ 2 ^ 31 →
      a.p + a.bytes ≤ b.p ∨ b.p + b.bytes ≤ a.p) := by
  have hok := engine_ok_of_reachable h
  have hpw : live.Pairwise (fun a b =>
      a.p + 2 ^ goal_of a.bytes ≤ b.p ∨ b.p + 2 ^ goal_of b.bytes ≤ a.p) :=
    List.Pairwise.imp_of_mem (fun {a b} ha hb hne => recorded_ranges_disjoint hok ha hb hne)
      hok.2.2.2
  refine ⟨fun sp hsp i j hi hj hne hoi hoj => ?_, hpw, ?_⟩
  · obtain ⟨hsh, ht, _⟩ := hok.1 sp hsp
    exact page_ranges_disjoint hsh ht hi hj hne hoi hoj
  · refine hpw.imp ?_
    intro a b hab ha hb
    have h1 : a.bytes ≤ 2 ^ goal_of a.bytes :=
      le_trans (le_two_pow_round_up ha)
        (Nat.pow_le_pow_right (by norm_num) (by unfold goal_of; exact le_max_right _ _))
    have h2 : b.bytes ≤ 2 ^ goal_of b.bytes :=
      le_trans (le_two_pow_round_up hb)
        (Nat.pow_le_pow_right (by norm_num) (by unfold goal_of; exact le_max_right _ _))
    omega

/-- Witness of C18: scenario B4 (256, 1024 and 256 bytes allocated in turn,
all three live). -/
theorem live_allocations_never_overlap_witness :
    (∀ sp ∈ scenario_b4.m_superpages, ∀ i j, i < sp.m_num_pages → j < sp.m_num_pages →
      i ≠ j → sp.m_pages i = .OCCUPIED → sp.m_pages j = .OCCUPIED →
      page_ref.get_addr sp i + 2 ^ page_ref.get_size sp i ≤ page_ref.get_addr sp j ∨
        page_ref.get_addr sp j + 2 ^ page_ref.get_size sp j ≤ page_ref.get_addr sp i) ∧
    scenario_b4_live.Pairwise (fun a b =>
      a.p + 2 ^ goal_of a.bytes ≤ b.p ∨ b.p + 2 ^ goal_of b.bytes ≤ a.p) ∧
    scenario_b4_live.Pairwise (fun a b => a.bytes ≤ 2 ^ 31 → b.bytes ≤ 2 ^ 31 →
      a.p + a.bytes ≤ b.p ∨ b.p + b.bytes ≤ a.p) :=
  live_allocations_never_overlap scenario_b4_reachable

/-! ## Index/address round trip -/

/-- C19 (index/address round trip): for a superpage of the constructor's shape
of log2 size `S`, a goal `g` with `8 ≤ g ≤ S` and a valid page `i` of size `g`,
the climbing loop of `do_deallocate` finds `p_min = 2 ^ (S - g) - 1`, and the
index `p_min + (get_addr(i) - m_memory) / (1 << g)` that `do_deallocate`
computes from the address of page `i` is `i`, a valid `page_ref`; two different
valid pages of size `g` have different addresses. -/
theorem index_address_round_trip (sp : superpage) (hsh : sp.shaped) (g : Nat)
    (hg8 : 8 ≤ g) (hgS : g ≤ sp.m_size) (i : Nat) (hi : i < sp.m_num_pages)
    (hsz : page_ref.get_size sp i = g) :
    first_page_of_size sp g 64 0 = .ok (2 ^ (sp.m_size - g) - 1) ∧
    add64 (2 ^ (sp.m_size - g) - 1) ((page_ref.get_addr sp i - sp.m_memory) / shl64 1 g) = i ∧
    page_ref.ctor sp
      (add64 (2 ^ (sp.m_size - g) - 1) ((page_ref.get_addr sp i - sp.m_memory) / shl64 1 g))
      = .ok i ∧
    ∀ j, j < sp.m_num_pages → page_ref.get_size sp j = g → j ≠ i →
      page_ref.get_addr sp j ≠ page_ref.get_addr sp i := by
  have h63 : sp.m_size ≤ 63 := hsh.2.1
  have hpos : 0 < 2 ^ g := by positivity
  obtain ⟨r, hr1, _, hr3⟩ := get_addr_bounds hsh hi
  rw [hsz] at hr1 hr3
  have hcard := valid_lt_card hsh hi
  have hidx : add64 (2 ^ (sp.m_size - g) - 1)
      ((page_ref.get_addr sp i - sp.m_memory) / shl64 1 g) = i := by
    rw [hr1, shl64_one (by omega), Nat.add_sub_cancel_left, Nat.mul_div_cancel _ hpos,
      add64_eq (by omega)]
    exact hr3.symm
  refine ⟨first_page_of_size_eq hsh hg8 hgS, hidx, by rw [hidx]; exact page_ref_ctor_ok hi, ?_⟩
  intro j hj hszj hne heq
  obtain ⟨q, hq1, _, hq3⟩ := get_addr_bounds hsh hj
  rw [hszj] at hq1 hq3
  rw [hq1, hr1] at heq
  have : q = r := Nat.eq_of_mul_eq_mul_right hpos (by omega)
  omega

set_option maxRecDepth 100000 in
/-- Witness of C19: page 4100, of size 8, of a fresh superpage of log2 size 20
on the block at 4096. -/
theorem index_address_round_trip_witness :
    first_page_of_size (fresh_superpage 20 4096) 8 64 0
      = .ok (2 ^ ((fresh_superpage 20 4096).m_size - 8) - 1) ∧
    add64 (2 ^ ((fresh_superpage 20 4096).m_size - 8) - 1)
      ((page_ref.get_addr (fresh_superpage 20 4096) 4100 - (fresh_superpage 20 4096).m_memory)
        / shl64 1 8) = 4100 ∧
    page_ref.ctor (fresh_superpage 20 4096)
      (add64 (2 ^ ((fresh_superpage 20 4096).m_size - 8) - 1)
        ((page_ref.get_addr (fresh_superpage 20 4096) 4100
          - (fresh_superpage 20 4096).m_memory) / shl64 1 8))
      = .ok 4100 ∧
    ∀ j, j < (fresh_superpage 20 4096).m_num_pages →
      page_ref.get_size (fresh_superpage 20 4096) j = 8 → j ≠ 4100 →
      page_ref.get_addr (fresh_superpage 20 4096) j
        ≠ page_ref.get_addr (fresh_superpage 20 4096) 4100 :=
  index_address_round_trip (fresh_superpage 20 4096)
    (fresh_superpage_shaped (by norm_num) (by norm_num) 4096) 8 (by norm_num) (by decide)
    4100 (by decide) (by decide)

/-! ## A page is never unsplit by the engine -/

theorem scan_pages_vacant (sp : superpage) :
    ∀ (n p x : Nat), scan_pages sp n p = .ok (some x) → sp.m_pages x = .VACANT := by
  intro n
  induction n with
  | zero => intro p x h; simp [scan_pages] at h
  | succ n ih =>
    intro p x h
    unfold scan_pages at h
    cases hc : page_ref.ctor sp p with
    | error e => rw [hc] at h; cases h
    | ok pr =>
      rw [hc] at h
      simp only at h
      by_cases hv : page_ref.get_state sp pr = .VACANT
      · rw [if_pos hv] at h
        have e : pr = x := Option.some.inj (Except.ok.inj h)
        rw [← e]; exact hv
      · rw [if_neg hv] at h
        exact ih _ _ h

theorem scan_superpages_vacant (size : Nat) :
    ∀ (l : List superpage) (k : Nat) (found : Bool) (c : page_ref) (b : Bool),
      scan_superpages size l k found = .ok (some c, b) →
      ∃ sp, k ≤ c.m_superpage ∧ l[c.m_superpage - k]? = some sp ∧
        sp.m_pages c.m_page = .VACANT := by
  intro l
  induction l with
  | nil => intro k found c b h; simp [scan_superpages] at h
  | cons sp rest ih =>
    intro k found c b h
    have hrest : ∀ fd, scan_superpages size rest (k + 1) fd = .ok (some c, b) →
        ∃ sp2, k ≤ c.m_superpage ∧ (sp :: rest)[c.m_superpage - k]? = some sp2 ∧
          sp2.m_pages c.m_page = .VACANT := by
      intro fd hfd
      obtain ⟨sp2, h1, h2, h3⟩ := ih (k + 1) fd c b hfd
      refine ⟨sp2, by omega, ?_, h3⟩
      have e : c.m_superpage - k = (c.m_superpage - (k + 1)) + 1 := by omega
      rw [e, List.getElem?_cons_succ]; exact h2
    unfold scan_superpages at h
    by_cases hs : size ≤ sp.m_size
    · rw [if_pos hs] at h
      cases hf : first_page_of_size sp size 64 0 with
      | error e => rw [hf] at h; cases h
      | ok i =>
        rw [hf] at h
        simp only at h
        cases hsc : scan_pages sp (add64 (mul64 2 i) 1 - i) i with
        | error e => rw [hsc] at h; cases h
        | ok o =>
          rw [hsc] at h
          cases o with
          | none => exact hrest true h
          | some x =>
            simp only [Except.ok.injEq, Prod.mk.injEq, Option.some.injEq] at h
            obtain ⟨hc, _⟩ := h
            subst hc
            exact ⟨sp, le_refl _, by simp, scan_pages_vacant sp _ _ _ hsc⟩
    · rw [if_neg hs] at h
      exact hrest found h

theorem find_free_page_loop_vacant (sps : List superpage) :
    ∀ (n size : Nat) (c : page_ref), find_free_page_loop sps n size = .ok (some c) →
      ∃ sp, sps[c.m_superpage]? = some sp ∧ sp.m_pages c.m_page = .VACANT := by
  intro n
  induction n with
  | zero => intro size c h; simp [find_free_page_loop] at h
  | succ n ih =>
    intro size c h
    unfold find_free_page_loop at h
    cases hs : scan_superpages size sps 0 false with
    | error e => rw [hs] at h; cases h
    | ok r =>
      obtain ⟨o, found⟩ := r
      rw [hs] at h
      cases o with
      | some pr =>
        simp only [Except.ok.injEq, Option.some.injEq] at h
        subst h
        obtain ⟨sp, _, h2, h3⟩ := scan_superpages_vacant size sps 0 false pr found hs
        exact ⟨sp, by simpa using h2, h3⟩
      | none =>
        simp only at h
        cases found with
        | true => exact ih _ _ (by simpa using h)
        | false => simp at h

/-- The page `find_free_page` returns is `VACANT`, in every engine and for every
size. -/
theorem find_free_page_vacant (m : binary_page_memory_resource_impl) (size : Nat)
    (c : page_ref) (h : find_free_page m size = .ok (some c)) :
    ∃ sp, m.m_superpages[c.m_superpage]? = some sp ∧ sp.m_pages c.m_page = .VACANT :=
  find_free_page_loop_vacant m.m_superpages 66 size c h

theorem change_state_keeps_split {a b : page_state} (ha : a ≠ .SPLIT) {sp sp1 : superpage}
    {i : Nat} (h : page_ref.change_state a b sp i = .ok sp1) :
    ∀ j, sp.m_pages j = .SPLIT → sp1.m_pages j = .SPLIT := by
  obtain ⟨h1, rfl⟩ := change_state_inv h
  intro j hj
  have hji : j ≠ i := by
    intro e
    rw [e, h1] at hj
    exact ha hj
  simp only [with_pages_pages]
  rw [set_page_other _ _ hji]; exact hj

theorem change_state_to_split_keeps_split {a : page_state} {sp sp1 : superpage}
    {i : Nat} (h : page_ref.change_state a .SPLIT sp i = .ok sp1) :
    ∀ j, sp.m_pages j = .SPLIT → sp1.m_pages j = .SPLIT := by
  obtain ⟨_, rfl⟩ := change_state_inv h
  intro j hj
  simp only [with_pages_pages]
  by_cases hji : j = i
  · rw [hji, set_page_same]
  · rw [set_page_other _ _ hji]; exact hj

theorem except_bind_inv {ε α β : Type} {x : Except ε α} {f : α → Except ε β} {y : β}
    (h : Except.bind x f = .ok y) : ∃ a, x = .ok a ∧ f a = .ok y := by
  cases x with
  | error e => cases h
  | ok a => exact ⟨a, rfl, h⟩

/-- `split` leaves every `SPLIT` page `SPLIT`. -/
theorem split_keeps_split {sp sp1 : superpage} {i : Nat}
    (h : page_ref.split sp i = .ok sp1) :
    ∀ j, sp.m_pages j = .SPLIT → sp1.m_pages j = .SPLIT := by
  unfold page_ref.split at h
  simp only [bind] at h
  obtain ⟨s1, h1, h⟩ := except_bind_inv h
  obtain ⟨l, _, h⟩ := except_bind_inv h
  obtain ⟨s2, h2, h⟩ := except_bind_inv h
  obtain ⟨r, _, h3⟩ := except_bind_inv h
  intro j hj
  exact change_state_keeps_split (by simp) h3 j
    (change_state_keeps_split (by simp) h2 j (change_state_to_split_keeps_split h1 j hj))

/-- The split loop leaves every `SPLIT` page `SPLIT`. -/
theorem split_loop_keeps_split (goal : Nat) :
    ∀ (n : Nat) (sp : superpage) (cand : Nat) (sp1 : superpage) (c : Nat),
      split_loop goal n sp cand = .ok (sp1, c) →
      ∀ j, sp.m_pages j = .SPLIT → sp1.m_pages j = .SPLIT := by
  intro n
  induction n with
  | zero => intro sp cand sp1 c h; simp [split_loop] at h
  | succ n ih =>
    intro sp cand sp1 c h j hj
    unfold split_loop at h
    by_cases hgt : page_ref.get_size sp cand > goal
    · rw [if_pos hgt] at h
      cases hs : page_ref.split sp cand with
      | error e => rw [hs] at h; cases h
      | ok s1 =>
        rw [hs] at h
        simp only at h
        cases hl : page_ref.left_child s1 cand with
        | error e => rw [hl] at h; cases h
        | ok l =>
          rw [hl] at h
          exact ih s1 l sp1 c h j (split_keeps_split hs j hj)
    · rw [if_neg hgt] at h
      simp only [Except.ok.injEq, Prod.mk.injEq] at h
      rw [← h.1]; exact hj

/-- On a candidate that is not `SPLIT`, lines 105-128 of `do_allocate` are the
split loop followed by `change_state_vacant_to_occupied`: `unsplit` is not
called. -/
theorem occupy_candidate_without_unsplit (goal : Nat) {sp : superpage} {cand : Nat}
    (hns : sp.m_pages cand ≠ .SPLIT) :
    occupy_candidate goal sp cand = (do
      let (sp2, c) ← split_loop goal 64 sp cand
      let sp3 ← page_ref.change_state_vacant_to_occupied sp2 c
      pure (sp3, c)) := by
  unfold occupy_candidate page_ref.get_state
  rw [if_neg hns]
  rfl

theorem occupy_candidate_keeps_split (goal : Nat) {sp : superpage} {cand : Nat}
    (hns : sp.m_pages cand ≠ .SPLIT) {sp3 : superpage} {c : Nat}
    (h : occupy_candidate goal sp cand = .ok (sp3, c)) :
    ∀ j, sp.m_pages j = .SPLIT → sp3.m_pages j = .SPLIT := by
  rw [occupy_candidate_without_unsplit goal hns] at h
  simp only [bind] at h
  obtain ⟨r, h1, h⟩ := except_bind_inv h
  obtain ⟨sp2, c2⟩ := r
  simp only at h
  obtain ⟨s3, h2, h3⟩ := except_bind_inv h
  simp only [pure, Except.pure, Except.ok.injEq, Prod.mk.injEq] at h3
  obtain ⟨e1, _⟩ := h3
  subst e1
  intro j hj
  exact change_state_keeps_split (by simp) h2 j
    (split_loop_keeps_split goal 64 sp cand sp2 c2 h1 j hj)

/-- Every `SPLIT` page of `m` is a `SPLIT` page of `m2`, in the same place. -/
theorem keeps_split_set {m : binary_page_memory_resource_impl} {k0 : Nat}
    {sp0 sp1 : superpage} (h0 : m.m_superpages[k0]? = some sp0)
    (hk : ∀ j, sp0.m_pages j = .SPLIT → sp1.m_pages j = .SPLIT) :
    ∀ (k : Nat) (sp : superpage) (i : Nat), m.m_superpages[k]? = some sp →
      sp.m_pages i = .SPLIT →
      ∃ sp2, (m.m_superpages.set k0 sp1)[k]? = some sp2 ∧ sp2.m_pages i = .SPLIT := by
  intro k sp i hsp hs
  by_cases e : k = k0
  · subst e
    rw [h0] at hsp
    have e2 : sp0 = sp := Option.some.inj hsp
    subst e2
    exact ⟨sp1, List.getElem?_set_self (getElem?_lt h0), hk i hs⟩
  · refine ⟨sp, ?_, hs⟩
    rw [List.getElem?_set_ne (Ne.symm e)]; exact hsp

theorem occupy_keeps_split (m : binary_page_memory_resource_impl) (goal : Nat)
    (cand : page_ref)
    (hv : ∀ sp, m.m_superpages[cand.m_superpage]? = some sp → sp.m_pages cand.m_page ≠ .SPLIT) :
    ∀ (k : Nat) (sp : superpage) (i : Nat), m.m_superpages[k]? = some sp →
      sp.m_pages i = .SPLIT →
      ∃ sp2, (occupy m goal cand).2.m_superpages[k]? = some sp2 ∧
        sp2.m_pages i = .SPLIT := by
  intro k sp i hsp hs
  unfold occupy
  cases h0 : m.m_superpages[cand.m_superpage]? with
  | none => exact ⟨sp, hsp, hs⟩
  | some sp0 =>
    simp only
    cases hoc : occupy_candidate goal sp0 cand.m_page with
    | error e => exact ⟨sp, hsp, hs⟩
    | ok r =>
      obtain ⟨sp1, c⟩ := r
      exact keeps_split_set h0 (occupy_candidate_keeps_split goal (hv sp0 h0) hoc) k sp i hsp hs

theorem do_allocate_state (up : memory_resource) (host : host_heap) (m : binary_page_memory_resource_impl)
    (n : Nat) : (do_allocate up host m n).2 = (do_allocate_cand up host m n).2 := by
  unfold do_allocate
  rcases h : do_allocate_cand up host m n with ⟨r, m1⟩
  cases r <;> rfl

theorem find_free_page_not_split {m : binary_page_memory_resource_impl} {size : Nat}
    {c : page_ref} (h : find_free_page m size = .ok (some c)) :
    ∀ sp, m.m_superpages[c.m_superpage]? = some sp → sp.m_pages c.m_page ≠ .SPLIT := by
  intro sp hsp
  obtain ⟨sp2, h1, h2⟩ := find_free_page_vacant m size c h
  rw [hsp] at h1
  have e : sp = sp2 := Option.some.inj h1
  rw [e, h2]; simp

/-- A `do_allocate` call leaves every `SPLIT` page `SPLIT`. -/
theorem do_allocate_keeps_split (up : memory_resource) (host : host_heap)
    (m : binary_page_memory_resource_impl) (n : Nat) :
    ∀ (k : Nat) (sp : superpage) (i : Nat), m.m_superpages[k]? = some sp →
      sp.m_pages i = .SPLIT →
      ∃ sp2, (do_allocate up host m n).2.m_superpages[k]? = some sp2 ∧
        sp2.m_pages i = .SPLIT := by
  intro k sp i hsp hs
  rw [do_allocate_state]
  unfold do_allocate_cand
  simp only
  cases hf : find_free_page m (goal_of n) with
  | error e => exact ⟨sp, hsp, hs⟩
  | ok o =>
    cases o with
    | some cand => exact occupy_keeps_split m _ cand (find_free_page_not_split hf) k sp i hsp hs
    | none =>
      simp only
      cases hu : allocate_upstream up host m (goal_of n) with
      | error e => exact ⟨sp, hsp, hs⟩
      | ok m1 =>
        have hm1 : m1.m_superpages[k]? = some sp := by
          unfold allocate_upstream at hu
          split at hu
          swap
          · cases hu
          cases hc : superpage.ctor (max (goal_of n) new_page_size) up host with
          | error e => rw [hc] at hu; cases hu
          | ok x =>
            rw [hc] at hu
            have e : m1 = ⟨m.m_superpages ++ [x]⟩ := (Except.ok.inj hu).symm
            rw [e]
            simp only
            rw [List.getElem?_append_left (getElem?_lt hsp)]; exact hsp
        simp only
        cases hf1 : find_free_page m1 (goal_of n) with
        | error e => exact ⟨sp, hm1, hs⟩
        | ok o1 =>
          cases o1 with
          | none => exact ⟨sp, hm1, hs⟩
          | some cand =>
            exact occupy_keeps_split m1 _ cand (find_free_page_not_split hf1) k sp i hm1 hs

theorem find_superpage_sound {p : Nat} :
    ∀ (l : List superpage) (k0 k : Nat) (sp : superpage),
      find_superpage p l k0 = some (k, sp) → k0 ≤ k ∧ l[k - k0]? = some sp := by
  intro l
  induction l with
  | nil => intro k0 k sp h; simp [find_superpage] at h
  | cons x xs ih =>
    intro k0 k sp h
    unfold find_superpage at h
    split at h
    · simp only [Option.some.injEq, Prod.mk.injEq] at h
      obtain ⟨e1, e2⟩ := h
      subst e1; subst e2
      exact ⟨le_refl _, by simp⟩
    · obtain ⟨h1, h2⟩ := ih (k0 + 1) k sp h
      refine ⟨by omega, ?_⟩
      have e : k - k0 = (k - (k0 + 1)) + 1 := by omega
      rw [e, List.getElem?_cons_succ]; exact h2

/-- A `do_deallocate` call leaves every `SPLIT` page `SPLIT`. -/
theorem do_deallocate_keeps_split (m : binary_page_memory_resource_impl) (p s : Nat) :
    ∀ (k : Nat) (sp : superpage) (i : Nat), m.m_superpages[k]? = some sp →
      sp.m_pages i = .SPLIT →
      ∃ sp2, (do_deallocate m p s).2.m_superpages[k]? = some sp2 ∧
        sp2.m_pages i = .SPLIT := by
  intro k sp i hsp hs
  unfold do_deallocate
  cases hf : find_superpage p m.m_superpages 0 with
  | none => exact ⟨sp, hsp, hs⟩
  | some r =>
    obtain ⟨k0, sp0⟩ := r
    have h0 : m.m_superpages[k0]? = some sp0 := by
      simpa using (find_superpage_sound _ _ _ _ hf).2
    simp only
    cases h1 : first_page_of_size sp0 (goal_of s) 64 0 with
    | error e => exact ⟨sp, hsp, hs⟩
    | ok p_min =>
      simp only
      cases h2 : page_ref.ctor sp0 (add64 p_min ((p - sp0.m_memory) / shl64 1 (goal_of s))) with
      | error e => exact ⟨sp, hsp, hs⟩
      | ok pr =>
        simp only
        cases h3 : page_ref.change_state_occupied_to_vacant sp0 pr with
        | error e => exact ⟨sp, hsp, hs⟩
        | ok sp1 =>
          exact keeps_split_set h0
            (change_state_keeps_split (by simp) h3) k sp i hsp hs

theorem engine_run_keeps_split {m1 m2 : binary_page_memory_resource_impl}
    (hrun : engine_run m1 m2) :
    ∀ (k : Nat) (sp : superpage) (i : Nat), m1.m_superpages[k]? = some sp →
      sp.m_pages i = .SPLIT →
      ∃ sp2, m2.m_superpages[k]? = some sp2 ∧ sp2.m_pages i = .SPLIT := by
  induction hrun with
  | refl => intro k sp i hsp hs; exact ⟨sp, hsp, hs⟩
  | allocate up host n _ ih =>
    intro k sp i hsp hs
    obtain ⟨sp2, a1, a2⟩ := ih k sp i hsp hs
    exact do_allocate_keeps_split up host _ n k sp2 i a1 a2
  | deallocate p s _ ih =>
    intro k sp i hsp hs
    obtain ⟨sp2, a1, a2⟩ := ih k sp i hsp hs
    exact do_deallocate_keeps_split _ p s k sp2 i a1 a2

/-- C20 (a page is never unsplit by the engine): in every engine and for every
size, the page `find_free_page` returns is `VACANT`; hence for that candidate
lines 105-128 of `do_allocate` are the split loop followed by
`change_state_vacant_to_occupied`, without the `unsplit` call; and in every
run of `do_allocate` and `do_deallocate` calls, with any upstream, any host
heap and any arguments, a page that is `SPLIT` stays `SPLIT`. -/
theorem split_pages_stay_split :
    (∀ (m : binary_page_memory_resource_impl) (size : Nat) (c : page_ref),
      find_free_page m size = .ok (some c) →
      ∃ sp, m.m_superpages[c.m_superpage]? = some sp ∧
        page_ref.get_state sp c.m_page = .VACANT ∧
        ∀ goal, occupy_candidate goal sp c.m_page = (do
          let (sp2, q) ← split_loop goal 64 sp c.m_page
          let sp3 ← page_ref.change_state_vacant_to_occupied sp2 q
          pure (sp3, q))) ∧
    (∀ (m1 m2 : binary_page_memory_resource_impl), engine_run m1 m2 →
      ∀ (k : Nat) (sp : superpage) (i : Nat), m1.m_superpages[k]? = some sp →
        sp.m_pages i = .SPLIT →
        ∃ sp2, m2.m_superpages[k]? = some sp2 ∧ sp2.m_pages i = .SPLIT) := by
  refine ⟨fun m size c h => ?_, fun m1 m2 hrun => engine_run_keeps_split hrun⟩
  obtain ⟨sp, h1, h2⟩ := find_free_page_vacant m size c h
  exact ⟨sp, h1, h2, fun goal => occupy_candidate_without_unsplit goal (by rw [h2]; simp)⟩

/-- Witness of C20: `do_allocate(256)` on `scenario_split_twice`; page 1 of its
superpage is `SPLIT` before the call and after it. -/
theorem split_pages_stay_split_witness :
    ∃ sp2, (do_allocate upstream_refusing host_granting scenario_split_twice 256).2.m_superpages[0]?
        = some sp2 ∧ sp2.m_pages 1 = .SPLIT :=
  split_pages_stay_split.2 scenario_split_twice
    (do_allocate upstream_refusing host_granting scenario_split_twice 256).2
    (engine_run.allocate upstream_refusing host_granting 256 (engine_run.refl scenario_split_twice))
    0 superpage_split_twice 1 rfl rfl

/-! ## The retry after an upstream acquisition -/

/-- After a successful `allocate_upstream(goal)` the engine is the old one
with a constructor-fresh superpage of log2 size `max(goal, new_page_size)`
appended; host heap and upstream have delivered. -/
theorem allocate_upstream_ok {up : memory_resource} {host : host_heap}
    {m m1 : binary_page_memory_resource_impl} {goal : Nat} (hg63 : goal ≤ 63)
    (h : allocate_upstream up host m goal = .ok m1) :
    ∃ base, up (2 ^ max goal new_page_size) = some base ∧
      m1 = ⟨m.m_superpages ++ [fresh_superpage (max goal new_page_size) base]⟩ ∧
      host_grants host m goal := by
  by_cases hh : host_grants host m goal
  · rw [allocate_upstream_eq up hg63 hh] at h
    cases hb : up (2 ^ max goal new_page_size) with
    | none => rw [hb] at h; cases h
    | some base =>
      rw [hb] at h
      exact ⟨base, rfl, (Except.ok.inj h).symm, hh⟩
  · rw [allocate_upstream_refused up hg63 hh] at h
    cases h

theorem find_free_page_after_upstream {up : memory_resource} {host : host_heap}
    {m m1 : binary_page_memory_resource_impl} (hall : ∀ sp ∈ m.m_superpages, sp.shaped)
    {goal : Nat} (hg : 8 ≤ goal) (hg63 : goal ≤ 63)
    (h : allocate_upstream up host m goal = .ok m1) :
    (∃ c, find_free_page m1 goal = .ok (some c)) ∧
    (find_free_page m goal = .ok none →
      find_free_page m1 goal = .ok (some ⟨m.m_superpages.length, 0⟩)) := by
  obtain ⟨base, _, rfl, _⟩ := allocate_upstream_ok hg63 h
  have h8 : 8 ≤ max goal new_page_size := by unfold new_page_size; omega
  have h63 : max goal new_page_size ≤ 63 := by unfold new_page_size; omega
  have hall1 : ∀ sp ∈ m.m_superpages ++ [fresh_superpage (max goal new_page_size) base],
      sp.shaped := by
    intro sp hsp
    rcases List.mem_append.1 hsp with e | e
    · exact hall sp e
    · rw [List.mem_singleton.1 e]; exact fresh_superpage_shaped h8 h63 base
  constructor
  · rcases @find_free_page_spec
      ⟨m.m_superpages ++ [fresh_superpage (max goal new_page_size) base]⟩ hall1 goal hg with
      ⟨_, h2⟩ | ⟨s, k, x, _, h2⟩
    · have hv := fresh_superpage_first_vacant h8 h63 base
      exact absurd hv.2.2.1
        (h2 _ (le_max_left _ _) (fresh_superpage (max goal new_page_size) base)
          (List.mem_append.2 (Or.inr (List.mem_singleton.2 rfl))) 0 hv.1 hv.2.1)
    · exact ⟨_, h2⟩
  · intro hnone
    exact @find_free_page_of_first_fit
      ⟨m.m_superpages ++ [fresh_superpage (max goal new_page_size) base]⟩ hall1 goal _ _ _ hg
      (first_fit_after_upstream hall hg hg63 hnone base)

/-- On well-shaped, tree-invariant superpages a failing `do_allocate` is the
`std::bad_alloc` of `allocate_upstream`: nothing fitted, and the host heap or
the upstream refused. -/
theorem do_allocate_error_cases {m : binary_page_memory_resource_impl}
    (hok : ∀ sp ∈ m.m_superpages, sp.shaped ∧ sp.tree_ok) (up : memory_resource)
    (host : host_heap) (n : Nat) {e : fault} (herr : (do_allocate up host m n).1 = .error e) :
    e = .bad_alloc ∧ find_free_page m (goal_of n) = .ok none ∧
      allocate_upstream up host m (goal_of n) = .error .bad_alloc ∧
      (¬ host_grants host m (goal_of n) ∨
        up (shl64 1 (max (goal_of n) new_page_size)) = none) := by
  have hall : ∀ sp ∈ m.m_superpages, sp.shaped := fun sp hsp => (hok sp hsp).1
  have hg := goal_of_ge n
  have hg31 := goal_of_le n
  have h63 : max (goal_of n) new_page_size ≤ 63 := by unfold new_page_size; omega
  rcases do_allocate_cand_cases up host hall n with
    ⟨s, k, q, h1, _, h3⟩ | ⟨h1, h2, hau, h3⟩ | ⟨base, _, _, h3, h4, _⟩
  · obtain ⟨sp, hsp, hq, hv, hsz, hge⟩ := first_fit_page h1
    obtain ⟨hsh, ht⟩ := hok sp (List.getElem?_mem hsp)
    obtain ⟨f, c, _, hocc⟩ := occupy_spec hg hsp hsh ht hq hv (by rw [hsz]; exact hge)
    rw [hocc] at h3
    rw [do_allocate_of_cand_ok h3] at herr
    have := addr_of_placed hsp f c
    unfold placed_state at this
    simp only at herr
    rw [this] at herr
    cases herr
  · rw [do_allocate_of_cand_error h3] at herr
    simp only [Except.error.injEq] at herr
    refine ⟨herr.symm, h1, hau, ?_⟩
    rw [shl64_one h63]
    exact h2
  · obtain ⟨sp, hsp, hq, hv, hsz, hge⟩ := first_fit_page h3
    have hmem := List.getElem?_mem hsp
    have hsp_ok : sp.shaped ∧ sp.tree_ok := by
      rcases List.mem_append.1 hmem with e1 | e1
      · exact hok sp e1
      · rw [List.mem_singleton.1 e1]
        exact ⟨fresh_superpage_shaped (by unfold new_page_size; omega) h63 base,
          fresh_superpage_tree_ok _ _⟩
    obtain ⟨f, c, _, hocc⟩ :=
      @occupy_spec ⟨m.m_superpages ++ [fresh_superpage (max (goal_of n) new_page_size) base]⟩
        (goal_of n) m.m_superpages.length 0 hg sp hsp hsp_ok.1 hsp_ok.2 hq hv
        (by rw [hsz]; exact hge)
    rw [hocc] at h4
    rw [do_allocate_of_cand_ok h4] at herr
    have := addr_of_placed hsp f c
    unfold placed_state at this
    simp only at herr
    rw [this] at herr
    cases herr

set_option maxRecDepth 100000 in
/-- C21, counterexample to the claim as worded: on a fresh engine whose
upstream hands out the block at 4096 for every request, `do_allocate(256)`
throws `std::bad_alloc` when the host heap refuses the page states of the new
superpage (`std::make_unique<page_state[]>`, line 271), and also when it
refuses the storage `emplace_back` needs; the upstream has not refused. -/
theorem do_allocate_fails_on_host_heap :
    upstream_at 4096 (shl64 1 (max (goal_of 256) new_page_size)) = some 4096 ∧
    (do_allocate (upstream_at 4096) ⟨fun _ => false, fun _ => true⟩
      binary_page_memory_resource_impl.ctor 256).1 = .error .bad_alloc ∧
    (do_allocate (upstream_at 4096) ⟨fun _ => true, fun _ => false⟩
      binary_page_memory_resource_impl.ctor 256).1 = .error .bad_alloc ∧
    (do_allocate (upstream_at 4096) host_refusing
      binary_page_memory_resource_impl.ctor 256).1 = .error .bad_alloc ∧
    (do_allocate (upstream_at 4096) host_granting
      binary_page_memory_resource_impl.ctor 256).1 = .ok 4096 := by
  decide!

/-- C21 (the retry after an upstream acquisition always finds a page), amended:
for an engine whose superpages have the constructor's shape and every goal from
8 to 63 (the range in which `1UL << goal` is defined; `do_allocate` passes goals
from 8 to 31), after `allocate_upstream(goal)` succeeds `find_free_page(goal)`
returns a page, namely the root of the new superpage when the search before the
acquisition found nothing; so the second `throw std::bad_alloc()` of
`do_allocate` is not reached.  If moreover the superpages satisfy the tree
invariant, a `do_allocate` that fails throws the `std::bad_alloc` of
`allocate_upstream`: nothing fitted, and the host heap refused the storage for
the new superpage or the upstream refused the block. -/
theorem retry_after_upstream_finds_page (m : binary_page_memory_resource_impl)
    (hall : ∀ sp ∈ m.m_superpages, sp.shaped) (up : memory_resource) (host : host_heap) :
    (∀ (goal : Nat) (m1 : binary_page_memory_resource_impl), 8 ≤ goal → goal ≤ 63 →
      allocate_upstream up host m goal = .ok m1 →
      (∃ c, find_free_page m1 goal = .ok (some c)) ∧
      (find_free_page m goal = .ok none →
        find_free_page m1 goal = .ok (some ⟨m.m_superpages.length, 0⟩))) ∧
    ((∀ sp ∈ m.m_superpages, sp.tree_ok) → ∀ (n : Nat) (e : fault),
      (do_allocate up host m n).1 = .error e →
      e = .bad_alloc ∧ find_free_page m (goal_of n) = .ok none ∧
        allocate_upstream up host m (goal_of n) = .error .bad_alloc ∧
        (¬ host_grants host m (goal_of n) ∨
          up (shl64 1 (max (goal_of n) new_page_size)) = none)) :=
  ⟨fun _ _ hg hg63 h => find_free_page_after_upstream hall hg hg63 h,
    fun ht n _ herr =>
      do_allocate_error_cases (fun sp hsp => ⟨hall sp hsp, ht sp hsp⟩) up host n herr⟩

theorem scenario_fresh_block_acquired :
    allocate_upstream (upstream_at 4096) host_granting binary_page_memory_resource_impl.ctor 8
      = .ok scenario_fresh_block := by
  rw [allocate_upstream_eq _ (by norm_num) (host_grants_granting _ _)]
  rfl

set_option maxRecDepth 100000 in
/-- Witness of C21: on a fresh engine `allocate_upstream(8)` against an upstream
that hands out the block at 4096 and a granting host heap gives
`scenario_fresh_block`, on which `find_free_page(8)` returns the root of the new
superpage; against a host heap that refuses, `do_allocate(256)` throws
`std::bad_alloc` out of `allocate_upstream`. -/
theorem retry_after_upstream_finds_page_witness :
    ((∃ c, find_free_page scenario_fresh_block 8 = .ok (some c)) ∧
      (find_free_page binary_page_memory_resource_impl.ctor 8 = .ok none →
        find_free_page scenario_fresh_block 8 =
          .ok (some ⟨binary_page_memory_resource_impl.ctor.m_superpages.length, 0⟩))) ∧
    (do_allocate (upstream_at 4096) host_refusing binary_page_memory_resource_impl.ctor 256).1
      = .error .bad_alloc ∧
    (fault.bad_alloc = .bad_alloc ∧
      find_free_page binary_page_memory_resource_impl.ctor (goal_of 256) = .ok none ∧
      allocate_upstream (upstream_at 4096) host_refusing
        binary_page_memory_resource_impl.ctor (goal_of 256) = .error .bad_alloc ∧
      (¬ host_grants host_refusing binary_page_memory_resource_impl.ctor (goal_of 256) ∨
        upstream_at 4096 (shl64 1 (max (goal_of 256) new_page_size)) = none)) :=
  ⟨(retry_after_upstream_finds_page binary_page_memory_resource_impl.ctor
      (fun sp hsp => absurd hsp (List.not_mem_nil sp)) (upstream_at 4096) host_granting).1 8
      scenario_fresh_block (by norm_num) (by norm_num) scenario_fresh_block_acquired,
    by decide!,
    (retry_after_upstream_finds_page binary_page_memory_resource_impl.ctor
      (fun sp hsp => absurd hsp (List.not_mem_nil sp)) (upstream_at 4096) host_refusing).2
      (fun sp hsp => absurd hsp (List.not_mem_nil sp)) 256 .bad_alloc (by decide!)⟩

/-! ## `find_free_page` terminates and stays in bounds -/

/-- Rounds of the `do`-`while` loop: started at `size`, the loop needs at most
`largest + 1 - size + 1` rounds, so its result does not depend on the number
of rounds allowed beyond that. -/
theorem find_free_page_loop_rounds {sps : List superpage} (hall : ∀ sp ∈ sps, sp.shaped)
    {largest : Nat} (hM : ∀ sp ∈ sps, sp.m_size ≤ largest) :
    ∀ n n2 size, 8 ≤ size → largest + 1 - size + 1 ≤ n → largest + 1 - size + 1 ≤ n2 →
      find_free_page_loop sps n size = find_free_page_loop sps n2 size := by
  intro n
  induction n with
  | zero => intro n2 size _ h; omega
  | succ n ih =>
    intro n2 size h8 hn hn2
    obtain ⟨k, rfl⟩ : ∃ k, n2 = k + 1 := ⟨n2 - 1, by omega⟩
    unfold find_free_page_loop
    rcases scan_superpages_spec h8 sps 0 false hall with ⟨r1, _⟩ | ⟨j, sp, x, _, _, _, r4⟩
    · rw [r1]
      simp only [Bool.false_or]
      by_cases hb : (sps.any fun sp => decide (size ≤ sp.m_size)) = true
      · rw [if_pos hb, if_pos hb]
        obtain ⟨sp, hsp, hle⟩ := List.any_eq_true.1 hb
        have hle2 : size ≤ sp.m_size := by simpa using hle
        have h63 : sp.m_size ≤ 63 := (hall sp hsp).2.1
        have hl := hM sp hsp
        rw [add64_eq (by omega)]
        exact ih k (size + 1) (by omega) (by omega) (by omega)
      · rw [if_neg hb, if_neg hb]
    · rw [r4]

/-- The climbing loop and the scanned range of one superpage, for one size. -/
theorem size_class_in_bounds {sp : superpage} (hsh : sp.shaped) {size : Nat} (h8 : 8 ≤ size)
    (hS : size ≤ sp.m_size) :
    (∀ n, sp.m_size - size < n →
      first_page_of_size sp size n 0 = .ok (2 ^ (sp.m_size - size) - 1)) ∧
    add64 (mul64 2 (2 ^ (sp.m_size - size) - 1)) 1 = 2 * (2 ^ (sp.m_size - size) - 1) + 1 ∧
    (∀ p, (2 ^ (sp.m_size - size) - 1 ≤ p ∧ p < 2 * (2 ^ (sp.m_size - size) - 1) + 1) ↔
      (p < sp.m_num_pages ∧ page_ref.get_size sp p = size)) ∧
    (∀ p, 2 ^ (sp.m_size - size) - 1 ≤ p → p < 2 * (2 ^ (sp.m_size - size) - 1) + 1 →
      page_ref.ctor sp p = .ok p) ∧
    ∃ r, scan_pages sp
      (2 * (2 ^ (sp.m_size - size) - 1) + 1 - (2 ^ (sp.m_size - size) - 1))
      (2 ^ (sp.m_size - size) - 1) = .ok r := by
  have hpos : 0 < 2 ^ (sp.m_size - size) := by positivity
  have hfirst : 2 ^ (sp.m_size - size) - 1 < sp.m_num_pages :=
    ((size_class_iff hsh h8 hS (2 ^ (sp.m_size - size) - 1)).1 ⟨le_refl _, by omega⟩).1
  have hlast : 2 * (2 ^ (sp.m_size - size) - 1) < sp.m_num_pages :=
    ((size_class_iff hsh h8 hS (2 * (2 ^ (sp.m_size - size) - 1))).1 ⟨by omega, by omega⟩).1
  refine ⟨fun n hn => ?_, left_index (valid_lt_card hsh hfirst), size_class_iff hsh h8 hS,
    fun p h1 h2 => page_ref_ctor_ok ((size_class_iff hsh h8 hS p).1 ⟨h1, h2⟩).1, ?_⟩
  · have := first_page_of_size_aux hsh h8 hS n 0 (Nat.zero_le _) (by omega)
    simpa using this
  · rcases scan_pages_spec sp
      (2 * (2 ^ (sp.m_size - size) - 1) + 1 - (2 ^ (sp.m_size - size) - 1))
      (2 ^ (sp.m_size - size) - 1) (by omega) with ⟨h1, _⟩ | ⟨x, h1, _⟩
    · exact ⟨_, h1⟩
    · exact ⟨_, h1⟩

/-- C22 (`find_free_page` terminates and stays in bounds): for a list of
superpages of the constructor's shape, a bound `largest` on their log2 sizes (in
particular the largest of them) and every goal of at least 8, `find_free_page`
returns, and the `do`-`while` loop gives that result whenever at least
`largest - goal + 2` rounds are allowed.  For every superpage and every size
from 8 to its log2 size `S`, the climbing loop `i = 2 * i + 1` stops at
`2 ^ (S - size) - 1`, after `S - size` steps; `j = 2 * i + 1` does not wrap; the
indices of `[i, j)` are exactly the valid pages of that size; every `page_ref`
built in the scan passes its assertion, and the scan returns. -/
theorem find_free_page_terminates (sps : List superpage) (hall : ∀ sp ∈ sps, sp.shaped)
    (goal largest : Nat) (hg : 8 ≤ goal) (hM : ∀ sp ∈ sps, sp.m_size ≤ largest) :
    (∃ r, find_free_page ⟨sps⟩ goal = .ok r ∧
      ∀ n, largest - goal + 2 ≤ n → find_free_page_loop sps n goal = .ok r) ∧
    (∀ sp ∈ sps, ∀ size, 8 ≤ size → size ≤ sp.m_size →
      (∀ n, sp.m_size - size < n →
        first_page_of_size sp size n 0 = .ok (2 ^ (sp.m_size - size) - 1)) ∧
      add64 (mul64 2 (2 ^ (sp.m_size - size) - 1)) 1 = 2 * (2 ^ (sp.m_size - size) - 1) + 1 ∧
      (∀ p, (2 ^ (sp.m_size - size) - 1 ≤ p ∧ p < 2 * (2 ^ (sp.m_size - size) - 1) + 1) ↔
        (p < sp.m_num_pages ∧ page_ref.get_size sp p = size)) ∧
      (∀ p, 2 ^ (sp.m_size - size) - 1 ≤ p → p < 2 * (2 ^ (sp.m_size - size) - 1) + 1 →
        page_ref.ctor sp p = .ok p) ∧
      ∃ r, scan_pages sp
        (2 * (2 ^ (sp.m_size - size) - 1) + 1 - (2 ^ (sp.m_size - size) - 1))
        (2 ^ (sp.m_size - size) - 1) = .ok r) := by
  refine ⟨?_, fun sp hsp size h8 hS => size_class_in_bounds (hall sp hsp) h8 hS⟩
  have hM2 : ∀ sp ∈ sps, sp.m_size ≤ min largest 63 :=
    fun sp hsp => le_min (hM sp hsp) (hall sp hsp).2.1
  have hret : ∃ r, find_free_page ⟨sps⟩ goal = .ok r := by
    rcases @find_free_page_spec ⟨sps⟩ hall goal hg with ⟨h1, _⟩ | ⟨s, k, x, _, h1⟩
    · exact ⟨_, h1⟩
    · exact ⟨_, h1⟩
  obtain ⟨r, hr⟩ := hret
  refine ⟨r, hr, fun n hn => ?_⟩
  rw [← hr]
  unfold find_free_page
  exact find_free_page_loop_rounds hall hM2 n 66 goal hg
    (by have := Nat.min_le_left largest 63; omega)
    (by have := Nat.min_le_right largest 63; omega)

/-- Witness of C22: one fresh superpage of log2 size 20 and goal 8. -/
theorem find_free_page_terminates_witness :
    (∃ r, find_free_page ⟨[fresh_superpage 20 4096]⟩ 8 = .ok r ∧
      ∀ n, 20 - 8 + 2 ≤ n → find_free_page_loop [fresh_superpage 20 4096] n 8 = .ok r) ∧
    (∀ sp ∈ [fresh_superpage 20 4096], ∀ size, 8 ≤ size → size ≤ sp.m_size →
      (∀ n, sp.m_size - size < n →
        first_page_of_size sp size n 0 = .ok (2 ^ (sp.m_size - size) - 1)) ∧
      add64 (mul64 2 (2 ^ (sp.m_size - size) - 1)) 1 = 2 * (2 ^ (sp.m_size - size) - 1) + 1 ∧
      (∀ p, (2 ^ (sp.m_size - size) - 1 ≤ p ∧ p < 2 * (2 ^ (sp.m_size - size) - 1) + 1) ↔
        (p < sp.m_num_pages ∧ page_ref.get_size sp p = size)) ∧
      (∀ p, 2 ^ (sp.m_size - size) - 1 ≤ p → p < 2 * (2 ^ (sp.m_size - size) - 1) + 1 →
        page_ref.ctor sp p = .ok p) ∧
      ∃ r, scan_pages sp
        (2 * (2 ^ (sp.m_size - size) - 1) + 1 - (2 ^ (sp.m_size - size) - 1))
        (2 ^ (sp.m_size - size) - 1) = .ok r) :=
  find_free_page_terminates [fresh_superpage 20 4096]
    (fun sp hsp => by
      rw [List.mem_singleton.1 hsp]
      exact fresh_superpage_shaped (by norm_num) (by norm_num) 4096)
    8 20 (by norm_num)
    (fun sp hsp => by rw [List.mem_singleton.1 hsp]; exact le_refl _)

end vecmem
